import Mathlib

/-!
Playlist ordering (src/src/Playlist.cpp).

A shallow embedding of the table `PlaylistMediaRelation`, of the three position
triggers installed by `Playlist::createTriggers`, and of the operations
`Playlist::append`, `add`, `move`, `remove` and `media`.

The SQL statements are executed by SQLite.  Two settings of the connection are
fixed outside `Playlist.cpp` and are therefore inputs of the model:

* `recursive_triggers`: whether a trigger may fire again while it is already
  running (SQLite pragma of the same name, off unless the connection turns it on);
* `trigger_depth`: the maximal nesting of trigger programs
  (SQLite's trigger depth limit, 1000 unless changed); a statement that needs a
  deeper nesting fails and is rolled back.
-/

namespace PlaylistModel

/-- One row of `PlaylistMediaRelation(media_id, playlist_id, position)`.
`position` is `none` for SQL NULL. -/
structure Row where
  media_id : Nat
  playlist_id : Nat
  position : Option Nat
deriving DecidableEq, Repr

/-- The table `PlaylistMediaRelation`, rows in rowid (insertion) order. -/
abbrev Table := List Row

/-- Settings of the SQLite connection that `Playlist.cpp` does not fix. -/
structure Engine where
  recursive_triggers : Bool
  trigger_depth : Nat
deriving DecidableEq, Repr

/-- Rowids (list indices, counted from `i`) of the rows satisfying a WHERE clause. -/
def rowids (wh : Row → Bool) : Nat → Table → List Nat
  | _, [] => []
  | i, r :: rs => if wh r then i :: rowids wh (i + 1) rs else rowids wh (i + 1) rs

/-- The statement `UPDATE PlaylistMediaRelation SET position = f(row) WHERE wh(row)`
on a table with AFTER UPDATE OF position row triggers.  SQLite first collects the
rowids of the matching rows, then visits them one by one: the new value is computed
from the row as it is at that moment, the row is written, and the row triggers run
(`after`, given the table and the NEW row) before the next row is visited.
`none` is a statement error. -/
def execUpdate (wh : Row → Bool) (f : Row → Option Nat)
    (after : Table → Row → Option Table) (t : Table) : Option Table :=
  (rowids wh 0 t).foldlM
    (fun acc i =>
      match acc.get? i with
      | none => some acc
      | some r => after (acc.set i { r with position := f r }) { r with position := f r })
    t

/-- SQL `position = new.position`: never true when either side is NULL. -/
def sqlEq (a b : Option Nat) : Bool :=
  match a, b with
  | some x, some y => x == y
  | _, _ => false

/-- SQL `position + 1`: NULL stays NULL. -/
def sqlSucc (a : Option Nat) : Option Nat := a.map (· + 1)

/-- WHERE clause shared by `update_playlist_order` and `update_playlist_order_on_insert`:
`playlist_id = new.playlist_id AND position = new.position AND media_id != new.media_id`. -/
def shiftWhere (new : Row) (r : Row) : Bool :=
  r.playlist_id == new.playlist_id && sqlEq r.position new.position
    && r.media_id != new.media_id

/-- Trigger `update_playlist_order AFTER UPDATE OF position` (Playlist.cpp:142-150),
run for the NEW row `new` with `d` nesting levels left.  Its body updates `position`
again, so with recursive triggers on it fires once more for every row it shifts;
with recursive triggers off SQLite skips a trigger that is already running. -/
def update_playlist_order (recur : Bool) : Nat → Table → Row → Option Table
  | 0, _, _ => none
  | d + 1, t, new =>
    execUpdate (shiftWhere new) (fun r => sqlSucc r.position)
      (if recur then update_playlist_order recur d else fun t1 _ => some t1) t

/-- `SELECT COUNT(media_id) FROM PlaylistMediaRelation WHERE playlist_id = pl`. -/
def countMedia (t : Table) (pl : Nat) : Nat :=
  (t.filter (fun r => r.playlist_id == pl)).length

/-- Trigger `append_new_playlist_record AFTER INSERT WHEN new.position IS NULL`
(Playlist.cpp:151-158).  Its UPDATE changes `position`, so `update_playlist_order`
fires for the row it writes. -/
def append_new_playlist_record (recur : Bool) : Nat → Table → Row → Option Table
  | 0, _, _ => none
  | d + 1, t, new =>
    if new.position.isNone then
      execUpdate (fun r => r.playlist_id == new.playlist_id && r.media_id == new.media_id)
        (fun _ => some (countMedia t new.playlist_id))
        (update_playlist_order recur d) t
    else some t

/-- Trigger `update_playlist_order_on_insert AFTER INSERT WHEN new.position IS NOT NULL`
(Playlist.cpp:159-167).  It is a different trigger from `update_playlist_order`, which
therefore fires for every row shifted here, whatever the recursive setting. -/
def update_playlist_order_on_insert (recur : Bool) : Nat → Table → Row → Option Table
  | 0, _, _ => none
  | d + 1, t, new =>
    if new.position.isSome then
      execUpdate (shiftWhere new) (fun r => sqlSucc r.position)
        (update_playlist_order recur d) t
    else some t

/-- Binding of `sqlite::ForeignKey{ v }`: the value 0 is passed as NULL
(Playlist.cpp:95-96). -/
def foreignKey (v : Nat) : Option Nat := if v = 0 then none else some v

/-- `PRIMARY KEY(media_id, playlist_id)`: is the key already taken? -/
def hasKey (t : Table) (pl media : Nat) : Bool :=
  t.any (fun r => r.playlist_id == pl && r.media_id == media)

/-- The statement `INSERT INTO PlaylistMediaRelation(media_id, playlist_id, position)
VALUES(?, ?, ?)` with both AFTER INSERT triggers.  `none`: the statement failed
(primary key taken, or trigger nesting too deep) and nothing is written. -/
def execInsert (e : Engine) (t : Table) (new : Row) : Option Table :=
  if hasKey t new.playlist_id new.media_id then none
  else
    (append_new_playlist_record e.recursive_triggers e.trigger_depth (t ++ [new]) new).bind
      (fun t1 => update_playlist_order_on_insert e.recursive_triggers e.trigger_depth t1 new)

/-- Result of a statement helper: `true` and the new table when the statement ran,
`false` and the old table when it failed. -/
def commit (t : Table) : Option Table → Bool × Table
  | some t1 => (true, t1)
  | none => (false, t)

end PlaylistModel

namespace Playlist

open PlaylistModel

/-- `Playlist::add( mediaId, position )` on the playlist with id `pl` (Playlist.cpp:92-98). -/
def add (e : Engine) (t : Table) (pl mediaId position : Nat) : Bool × Table :=
  commit t (execInsert e t ⟨mediaId, pl, foreignKey position⟩)

/-- `Playlist::append( mediaId )` (Playlist.cpp:87-90). -/
def append (e : Engine) (t : Table) (pl mediaId : Nat) : Bool × Table :=
  add e t pl mediaId 0

/-- `Playlist::move( mediaId, position )` (Playlist.cpp:100-107): position 0 is refused
before any statement; otherwise `UPDATE PlaylistMediaRelation SET position = ? WHERE
playlist_id = ? AND media_id = ?`, after which `update_playlist_order` fires for each
row written. -/
def move (e : Engine) (t : Table) (pl mediaId position : Nat) : Bool × Table :=
  if position = 0 then (false, t)
  else
    commit t
      (execUpdate (fun r => r.playlist_id == pl && r.media_id == mediaId)
        (fun _ => some position)
        (update_playlist_order e.recursive_triggers e.trigger_depth) t)

/-- `Playlist::remove( mediaId )` (Playlist.cpp:109-113): `DELETE FROM
PlaylistMediaRelation WHERE playlist_id = ? AND media_id = ?`; no trigger is
attached to deletions. -/
def remove (t : Table) (pl mediaId : Nat) : Bool × Table :=
  (true, t.filter (fun r => !(r.playlist_id == pl && r.media_id == mediaId)))

/-- Rows joined by the query of `Playlist::media()` (Playlist.cpp:78-85): the relation
rows of the playlist whose media is present (`m.is_present = 1`); `present` stands for
the Media table. -/
def mediaRows (present : Nat → Bool) (t : Table) (pl : Nat) : List Row :=
  t.filter (fun r => r.playlist_id == pl && present r.media_id)

/-- `ORDER BY pmr.position`: ascending, NULL first. -/
def posLe (a b : Row) : Prop :=
  match a.position, b.position with
  | none, _ => True
  | some _, none => False
  | some x, some y => x ≤ y

instance : DecidableRel posLe := fun a b => by
  unfold posLe; cases a.position <;> cases b.position <;> infer_instance

/-- A list of media ids that `Playlist::media()` may return: the joined rows in some
order that is ascending in `position`.  SQL leaves the order of rows with equal
`position` open. -/
def IsMediaResult (present : Nat → Bool) (t : Table) (pl : Nat) (l : List Nat) : Prop :=
  ∃ rows : List Row, rows.Perm (mediaRows present t pl) ∧ rows.Sorted posLe ∧
    l = rows.map (fun r => r.media_id)

/-- `Playlist::media()` with ties kept in rowid order. -/
def media (present : Nat → Bool) (t : Table) (pl : Nat) : List Nat :=
  ((mediaRows present t pl).insertionSort posLe).map (fun r => r.media_id)

/-- The mutating operations of a playlist. -/
inductive Op where
  | append (mediaId : Nat)
  | add (mediaId position : Nat)
  | move (mediaId position : Nat)
  | remove (mediaId : Nat)
deriving DecidableEq, Repr

/-- One operation on the playlist `pl`; the boolean result is dropped. -/
def step (e : Engine) (pl : Nat) (t : Table) : Op → Table
  | Op.append m => (append e t pl m).2
  | Op.add m p => (add e t pl m p).2
  | Op.move m p => (move e t pl m p).2
  | Op.remove m => (remove t pl m).2

/-- A sequence of operations on the playlist `pl`, from left to right. -/
def run (e : Engine) (pl : Nat) (t : Table) (ops : List Op) : Table :=
  ops.foldl (step e pl) t

/-- The `position` column of the rows of playlist `pl`, in rowid order. -/
def positions (t : Table) (pl : Nat) : List (Option Nat) :=
  (t.filter (fun r => r.playlist_id == pl)).map (fun r => r.position)

/-- The positions of playlist `pl` are exactly 1..N, N the number of its entries:
no duplicates and no gaps. -/
def Dense (t : Table) (pl : Nat) : Prop :=
  (positions t pl).Perm ((List.range' 1 (countMedia t pl)).map some)

instance (t : Table) (pl : Nat) : Decidable (Dense t pl) :=
  inferInstanceAs (Decidable (List.Perm _ _))

end Playlist

namespace PlaylistModel

/-- Key of a row under `PRIMARY KEY(media_id, playlist_id)`. -/
def key (r : Row) : Nat × Nat := (r.playlist_id, r.media_id)

/-- The table respects its primary key: no two rows share `(media_id, playlist_id)`. -/
def PrimaryKey (t : Table) : Prop := (t.map key).Nodup

instance (t : Table) : Decidable (PrimaryKey t) :=
  inferInstanceAs (Decidable ((t.map key).Nodup))

/-- No two rows of one playlist carry the same `position`. -/
def DistinctPositions (t : Table) : Prop :=
  ∀ a ∈ t, ∀ b ∈ t, a.playlist_id = b.playlist_id → a.position = b.position → a = b

instance (t : Table) : Decidable (DistinctPositions t) :=
  inferInstanceAs (Decidable (∀ a ∈ t, ∀ b ∈ t,
    a.playlist_id = b.playlist_id → a.position = b.position → a = b))

/-- Is `r` an entry of playlist `pl`, other than media `m`, whose position lies in
`lo .. hi - 1`? -/
def inRun (pl m lo hi : Nat) (r : Row) : Bool :=
  r.playlist_id == pl && r.media_id != m &&
    (match r.position with
     | some q => decide (lo ≤ q) && decide (q < hi)
     | none => false)

/-- The table in which every entry of playlist `pl`, other than media `m`, with a
position in `lo .. hi - 1` has moved up by one, and nothing else has changed. -/
def shiftRun (pl m lo hi : Nat) (t : Table) : Table :=
  t.map (fun r => if inRun pl m lo hi r then { r with position := sqlSucc r.position } else r)

/-- The positions `p .. g - 1` of playlist `pl` are each held by an entry other than
media `m`, position `g` is held by none of them, these entries have pairwise distinct
positions, and media `m`, if it is in the playlist, sits at `p`. -/
structure Chain (pl m p g : Nat) (t : Table) : Prop where
  keyed : PrimaryKey t
  own : ∀ r ∈ t, r.playlist_id = pl → r.media_id = m → r.position = some p
  dist : ∀ a ∈ t, ∀ b ∈ t, a.playlist_id = pl → b.playlist_id = pl →
    a.media_id ≠ m → b.media_id ≠ m → a.position = b.position → a = b
  le : p ≤ g
  occ : ∀ q, p ≤ q → q < g →
    ∃ r ∈ t, r.playlist_id = pl ∧ r.media_id ≠ m ∧ r.position = some q
  free : ∀ r ∈ t, r.playlist_id = pl → r.media_id ≠ m → r.position ≠ some g



/-- Where a shift that starts at `p` stops when `g` is the first free position: at `g`
when `update_playlist_order` refires for every row it moves (recursive triggers on),
and otherwise after the `levels` trigger programs that run at most. -/
def shiftEnd (recur : Bool) (levels p g : Nat) : Nat :=
  if recur then g else min g (p + levels)

/-- The table in which the entry of media `m` in playlist `pl` carries position `p`,
all other rows being as in `t`. -/
def setPosition (pl m p : Nat) (t : Table) : Table :=
  t.map (fun r =>
    if r.playlist_id == pl && r.media_id == m then { r with position := some p } else r)

/-- Every row carries a position that is a number (not NULL) and at least 1. -/
def AllPos (t : Table) : Prop := ∀ r ∈ t, ∃ p, r.position = some p ∧ 1 ≤ p

end PlaylistModel

/-! File system factory (src/src/factory/FileSystemFactory.cpp). -/

namespace FileSystemFactory

/-- A `std::string`: its characters in order. -/
abbrev Str := List Char

/-- Modelled from the spec: `fs::Device` (filesystem/unix/Device.h is not under src/),
the device built by `std::make_shared<fs::Device>( uuid, mountpoint, removable )` with
its attributes `uuid`, `mountpoint`, `is_removable`. -/
structure Device where
  uuid : Str
  mountpoint : Str
  removable : Bool
deriving DecidableEq, Repr

/-- Outcome of the constructor `fs::Directory( mrl, *this )`: an instance, or a
`std::system_error` raised by the host file system. -/
inductive CtorResult where
  | built
  | system_error
deriving DecidableEq, Repr

/-- The factory object: `m_dirs` (MRL to directory instance), `m_deviceCache` (uuid to
device, in iteration order), and the number of `fs::Directory` instances constructed so
far, which names the instances. -/
structure Factory where
  m_dirs : List (Str × Nat)
  m_deviceCache : List (Str × Device)
  constructed : Nat
deriving DecidableEq, Repr

/-- `std::string::find( pat )`: the index of the first occurrence of `pat`, `none` for
`npos`. -/
def find : Str → Str → Option Nat
  | [], pat => if pat.isPrefixOf [] then some 0 else none
  | c :: rest, pat =>
    if pat.isPrefixOf (c :: rest) then some 0 else (find rest pat).map (· + 1)

/-- `map.find( key )`: the value stored under `key`, `none` for `end()`. -/
def lookup {β : Type} (m : List (Str × β)) (k : Str) : Option β :=
  (m.find? (fun p => p.1 == k)).map (fun p => p.2)

/-- `map[key] = value`: the value under `key` is replaced, or the pair is added. -/
def assign {β : Type} (m : List (Str × β)) (k : Str) (v : β) : List (Str × β) :=
  if m.any (fun p => p.1 == k) then m.map (fun p => if p.1 == k then (k, v) else p)
  else m ++ [(k, v)]

/-- `map.emplace( key, value )`: the pair is added unless the key is taken. -/
def emplace {β : Type} (m : List (Str × β)) (k : Str) (v : β) : List (Str × β) :=
  if m.any (fun p => p.1 == k) then m else m ++ [(k, v)]

/-- `FileSystemFactory::createDirectory( mrl )` (FileSystemFactory.cpp:60-77); `ctor` is
what the constructor of `fs::Directory` does if it is called.  The result is the
instance returned (`none` for `nullptr`) and the factory afterwards. -/
def createDirectory (ctor : CtorResult) (f : Factory) (mrl : Str) : Option Nat × Factory :=
  match lookup f.m_dirs mrl with
  | some dir => (some dir, f)
  | none =>
    match ctor with
    | CtorResult.built =>
      (some f.constructed,
        { f with m_dirs := assign f.m_dirs mrl f.constructed, constructed := f.constructed + 1 })
    | CtorResult.system_error => (none, f)

/-- `FileSystemFactory::createDevice( uuid )` (FileSystemFactory.cpp:79-87). -/
def createDevice (f : Factory) (uuid : Str) : Option Device :=
  lookup f.m_deviceCache uuid

/-- One turn of the loop of `createDeviceFromMrl` (FileSystemFactory.cpp:95-99). -/
def pick (mrl : Str) (res : Option Device) (p : Str × Device) : Option Device :=
  if find mrl p.2.mountpoint == some 0 then
    match res with
    | none => some p.2
    | some r => if r.mountpoint.length < p.2.mountpoint.length then some p.2 else some r
  else res

/-- `FileSystemFactory::createDeviceFromMrl( mrl )` (FileSystemFactory.cpp:89-102) on
the device cache, visited in iteration order. -/
def createDeviceFromMrl (cache : List (Str × Device)) (mrl : Str) : Option Device :=
  cache.foldl (pick mrl) none

/-- `FileSystemFactory::refreshDevices()` (FileSystemFactory.cpp:104-130); `devices` is
the list returned by `m_deviceLister->devices()`. -/
def refreshDevices (devices : List (Str × Str × Bool)) (f : Factory) : Factory :=
  if devices.isEmpty then { f with m_dirs := [], m_deviceCache := [] }
  else
    { f with
      m_dirs := []
      m_deviceCache :=
        devices.foldl (fun c d => emplace c d.1 ⟨d.1, d.2.1, d.2.2⟩) [] }

/-- The constructor `FileSystemFactory( lister )` (FileSystemFactory.cpp:54-58). -/
def create (devices : List (Str × Str × Bool)) : Factory :=
  refreshDevices devices ⟨[], [], 0⟩

/-- `std::char_traits<char>::compare` followed by the comparison of the lengths:
negative, zero or positive. -/
def compareStr : Str → Str → Int
  | [], [] => 0
  | [], _ :: _ => -1
  | _ :: _, [] => 1
  | a :: as, b :: bs => if a < b then -1 else if b < a then 1 else compareStr as bs

/-- `s.compare( pos, len, other )` for `pos ≤ s.size()`: the comparison of
`s.substr( pos, len )` with `other`. -/
def compare (s : Str) (pos len : Nat) (other : Str) : Int :=
  compareStr ((s.drop pos).take len) other

/-- `FileSystemFactory::isMrlSupported( path )` (FileSystemFactory.cpp:132-135). -/
def isMrlSupported (path : Str) : Bool :=
  compare path 0 7 "file://".toList == 0

/-- A call on the factory: `createDirectory( mrl )` with what the constructor would
do, or `refreshDevices()` with what the lister reports. -/
inductive Call where
  | createDirectory (mrl : Str) (ctor : CtorResult)
  | refreshDevices (devices : List (Str × Str × Bool))
deriving DecidableEq, Repr

/-- The factory after a call. -/
def step (f : Factory) : Call → Factory
  | Call.createDirectory mrl ctor => (createDirectory ctor f mrl).2
  | Call.refreshDevices devices => refreshDevices devices f

/-- The factory after a sequence of calls. -/
def run (f : Factory) (calls : List Call) : Factory := calls.foldl step f

end FileSystemFactory

/-! The Playlist table, its full-text mirror and the foreign keys of
`PlaylistMediaRelation` (src/src/Playlist.cpp). -/

namespace PlaylistModel

/-- One row of `Playlist(id_playlist INTEGER PRIMARY KEY AUTOINCREMENT, name TEXT)`. -/
structure PlaylistRow where
  id_playlist : Nat
  name : String
deriving DecidableEq, Repr

/-- One row of the virtual table `PlaylistFts(name)`, with its rowid. -/
structure FtsRow where
  rowid : Nat
  name : String
deriving DecidableEq, Repr

/-- The tables that `Playlist.cpp` creates or refers to.  `sequence` is the largest
`id_playlist` ever given (AUTOINCREMENT).  Modelled from the spec: the Media table
(its code is not under src/), reduced to the `id_media` of its rows. -/
structure Database where
  playlist : List PlaylistRow
  sequence : Nat
  playlistFts : List FtsRow
  media : List Nat
  relation : Table
deriving DecidableEq, Repr

/-- Settings of the SQLite connection that `Playlist.cpp` does not fix: those of
`Engine`, and whether foreign keys are enforced (pragma `foreign_keys`). -/
structure Connection where
  engine : Engine
  foreign_keys : Bool
deriving DecidableEq, Repr

/-- The database before anything is inserted. -/
def Database.empty : Database := ⟨[], 0, [], [], []⟩

/-- Trigger `insert_playlist_fts AFTER INSERT ON Playlist` (Playlist.cpp:168-172):
`INSERT INTO PlaylistFts(rowid, name) VALUES(new.id_playlist, new.name)`, which fails
when the rowid is taken.  The first argument is the trigger nesting left. -/
def insert_playlist_fts : Nat → List FtsRow → PlaylistRow → Option (List FtsRow)
  | 0, _, _ => none
  | _ + 1, fts, new =>
    if fts.any (fun r => r.rowid == new.id_playlist) then none
    else some (fts ++ [⟨new.id_playlist, new.name⟩])

/-- Trigger `update_playlist_fts AFTER UPDATE OF name ON Playlist` (Playlist.cpp:173-177):
`UPDATE PlaylistFts SET name = new.name WHERE rowid = new.id_playlist`. -/
def update_playlist_fts : Nat → List FtsRow → PlaylistRow → Option (List FtsRow)
  | 0, _, _ => none
  | _ + 1, fts, new =>
    some (fts.map (fun r => if r.rowid == new.id_playlist then { r with name := new.name } else r))

/-- Trigger `delete_playlist_fts BEFORE DELETE ON Playlist` (Playlist.cpp:178-182):
`DELETE FROM PlaylistFts WHERE rowid = old.id_playlist`. -/
def delete_playlist_fts : Nat → List FtsRow → PlaylistRow → Option (List FtsRow)
  | 0, _, _ => none
  | _ + 1, fts, old => some (fts.filter (fun r => !(r.rowid == old.id_playlist)))

/-- The id given by AUTOINCREMENT: one more than the largest id ever in the table. -/
def nextId (db : Database) : Nat :=
  (db.playlist.foldl (fun m r => max m r.id_playlist) db.sequence) + 1

/-- The statement `INSERT INTO Playlist(name) VALUES(?)` of `Playlist::create`
(Playlist.cpp:50) with its trigger: the new id and the database, `none` when the
statement fails. -/
def insertPlaylist (c : Connection) (db : Database) (name : String) :
    Option (Nat × Database) :=
  match insert_playlist_fts c.engine.trigger_depth db.playlistFts ⟨nextId db, name⟩ with
  | none => none
  | some fts =>
    some (nextId db,
      { db with playlist := db.playlist ++ [⟨nextId db, name⟩], sequence := nextId db,
                playlistFts := fts })

/-- The statement `UPDATE Playlist SET name = ? WHERE id_playlist = ?` of
`Playlist::setName` (Playlist.cpp:71) with its trigger, which runs for the row written
if there is one. -/
def updatePlaylistName (c : Connection) (db : Database) (name : String) (id : Nat) :
    Option Database :=
  if db.playlist.any (fun r => r.id_playlist == id) then
    match update_playlist_fts c.engine.trigger_depth db.playlistFts ⟨id, name⟩ with
    | none => none
    | some fts =>
      some { db with
        playlist := db.playlist.map
          (fun r => if r.id_playlist == id then { r with name := name } else r),
        playlistFts := fts }
  else some db

/-- The statement `DELETE FROM Playlist WHERE id_playlist = ?`, issued outside
`Playlist.cpp`: the trigger `delete_playlist_fts` runs before the row goes, and with
foreign keys enforced `ON DELETE CASCADE` (Playlist.cpp:128-129) removes the relation
rows of the playlist. -/
def deletePlaylist (c : Connection) (db : Database) (id : Nat) : Option Database :=
  match db.playlist.find? (fun r => r.id_playlist == id) with
  | none => some db
  | some old =>
    match delete_playlist_fts c.engine.trigger_depth db.playlistFts old with
    | none => none
    | some fts =>
      some { db with
        playlist := db.playlist.filter (fun r => !(r.id_playlist == id)),
        playlistFts := fts,
        relation :=
          if c.foreign_keys then db.relation.filter (fun r => !(r.playlist_id == id))
          else db.relation }

/-- The insert of a Media row with a given `id_media`, refused when the id is taken. -/
def insertMedia (db : Database) (id : Nat) : Option Database :=
  if db.media.contains id then none else some { db with media := db.media ++ [id] }

/-- The deletion of the Media row `id`: with foreign keys enforced `ON DELETE CASCADE`
(Playlist.cpp:126-127) removes the relation rows of the media. -/
def deleteMedia (c : Connection) (db : Database) (id : Nat) : Option Database :=
  some { db with
    media := db.media.filter (fun m => !(m == id)),
    relation :=
      if c.foreign_keys then db.relation.filter (fun r => !(r.media_id == id))
      else db.relation }

/-- The foreign keys of a relation row `(media, pl)` hold: both parent rows exist. -/
def parentsLive (db : Database) (pl media : Nat) : Bool :=
  db.playlist.any (fun r => r.id_playlist == pl) && db.media.contains media

/-- Every relation row references a playlist row and a media row that exist. -/
def Live (db : Database) : Prop :=
  ∀ r ∈ db.relation, parentsLive db r.playlist_id r.media_id = true

instance (db : Database) : Decidable (Live db) :=
  inferInstanceAs (Decidable (∀ r ∈ db.relation, parentsLive db r.playlist_id r.media_id = true))

/-- The mirror holds one row per playlist row, with its id and its name. -/
def Mirrored (db : Database) : Prop :=
  (∀ id, id ∈ db.playlistFts.map (fun m => m.rowid) ↔
      id ∈ db.playlist.map (fun r => r.id_playlist)) ∧
  (∀ r ∈ db.playlist, ∀ m ∈ db.playlistFts, m.rowid = r.id_playlist → m.name = r.name)

/-- The mirror lists the rows of `Playlist`, id by id and name by name, and no id is
used twice. -/
def MirrorInv (db : Database) : Prop :=
  db.playlistFts.map (fun m => (m.rowid, m.name))
    = db.playlist.map (fun r => (r.id_playlist, r.name)) ∧
  (db.playlist.map (fun r => r.id_playlist)).Nodup

end PlaylistModel

namespace Playlist

open PlaylistModel

/-- The in-memory object of a playlist: `m_id` and `m_name`. -/
structure Object where
  m_id : Nat
  m_name : String
deriving DecidableEq, Repr

/-- `Playlist::create( dbConn, name )` (Playlist.cpp:47-55): the object returned
(`none` for `nullptr`), whose `m_id` is the new rowid as an `unsigned int`, and the
database afterwards. -/
def create (c : Connection) (db : Database) (name : String) : Option Object × Database :=
  match insertPlaylist c db name with
  | none => (none, db)
  | some (id, db1) => (some ⟨id % 4294967296, name⟩, db1)

/-- `Playlist::name()` (Playlist.cpp:62-65). -/
def name (self : Object) : String := self.m_name

/-- `Playlist::setName( name )` (Playlist.cpp:67-76); `executeUpdate` stands for
`sqlite::Tools::executeUpdate` on the statement of line 71, given the database, the name
and `m_id`, and returns its boolean and the database afterwards.  The result is the
boolean returned, the object and the database afterwards. -/
def setName (executeUpdate : Database → String → Nat → Bool × Database)
    (self : Object) (db : Database) (name : String) : Bool × Object × Database :=
  if name = self.m_name then (true, self, db)
  else
    match executeUpdate db name self.m_id with
    | (false, db1) => (false, self, db1)
    | (true, db1) => (true, { self with m_name := name }, db1)

/-- The helper `sqlite::Tools::executeUpdate` on the statement of `setName`: true when
the statement ran, false (and the database as it was) when it failed. -/
def executeUpdateName (c : Connection) (db : Database) (name : String) (id : Nat) :
    Bool × Database :=
  match updatePlaylistName c db name id with
  | some db1 => (true, db1)
  | none => (false, db)

/-- `Playlist::add` on the database: with foreign keys enforced the insert is refused
unless the playlist row and the media row exist. -/
def addRow (c : Connection) (db : Database) (pl mediaId position : Nat) : Bool × Database :=
  if c.foreign_keys && !(parentsLive db pl mediaId) then (false, db)
  else ((add c.engine db.relation pl mediaId position).1,
        { db with relation := (add c.engine db.relation pl mediaId position).2 })

/-- A statement on the database. -/
inductive DbOp where
  | create (name : String)
  | setName (self : Object) (name : String)
  | deletePlaylist (id : Nat)
  | insertMedia (id : Nat)
  | deleteMedia (id : Nat)
  | entry (pl : Nat) (op : Op)
deriving DecidableEq, Repr

/-- The database after a statement (as it was when the statement fails). -/
def dbStep (c : Connection) (db : Database) : DbOp → Database
  | DbOp.create name => (create c db name).2
  | DbOp.setName self name => (setName (executeUpdateName c) self db name).2.2
  | DbOp.deletePlaylist id => (deletePlaylist c db id).getD db
  | DbOp.insertMedia id => (insertMedia db id).getD db
  | DbOp.deleteMedia id => (deleteMedia c db id).getD db
  | DbOp.entry pl (Op.append m) => (addRow c db pl m 0).2
  | DbOp.entry pl (Op.add m p) => (addRow c db pl m p).2
  | DbOp.entry pl (Op.move m p) => { db with relation := (move c.engine db.relation pl m p).2 }
  | DbOp.entry pl (Op.remove m) => { db with relation := (remove db.relation pl m).2 }

/-- The database after a sequence of statements. -/
def dbRun (c : Connection) (db : Database) (ops : List DbOp) : Database :=
  ops.foldl (dbStep c) db

end Playlist

/-! Metadata probe (src/src/metadata_services/vlc/VLCMetadataService.cpp). -/

namespace VLCMetadataService

/-- A `std::string`: its characters in order. -/
abbrev Str := List Char

/-- Modelled from the spec: `parser::Task::Status` (the declaration is not under src/),
the four results a stage may return. -/
inductive Status where
  | Success
  | Fatal
  | Discarded
  | Retry
deriving DecidableEq, Repr

/-- `VLC::MediaTrack::Type`. -/
inductive TrackType where
  | Unknown
  | Audio
  | Video
  | Subtitle
deriving DecidableEq, Repr

/-- What `run` reads from a `VLC::MediaTrack`. -/
structure MediaTrack where
  codec : Nat
  type : TrackType
  fpsNum : Nat
  fpsDen : Nat
  width : Nat
  height : Nat
  bitrate : Nat
  rate : Nat
  channels : Nat
  language : Str
  description : Str
deriving DecidableEq, Repr

/-- The quotient `(float)fpsNum / (float)fpsDen`, kept as its two operands. -/
structure Fps where
  num : Nat
  den : Nat
deriving DecidableEq, Repr

/-- An entry of `task.videoTracks`: the arguments of `emplace_back`. -/
structure VideoTrack where
  fcc : Str
  fps : Fps
  width : Nat
  height : Nat
deriving DecidableEq, Repr

/-- An entry of `task.audioTracks`: the arguments of `emplace_back`. -/
structure AudioTrack where
  fcc : Str
  bitrate : Nat
  rate : Nat
  channels : Nat
  language : Str
  description : Str
deriving DecidableEq, Repr

/-- The `libvlc_meta_t` keys read by `storeMeta`. -/
inductive Meta where
  | Title
  | Artist
  | AlbumArtist
  | Album
  | Genre
  | Date
  | ShowName
  | TrackNumber
  | Episode
  | DiscNumber
  | DiscTotal
  | ArtworkURL
deriving DecidableEq, Repr

/-- What the probe of one file delivers: the "parsed changed" events that arrive while
`run` waits (at most five seconds), the tracks, the meta strings and the duration. -/
structure VlcMedia where
  parsedEvents : List Bool
  tracks : List MediaTrack
  meta : Meta → Str
  duration : Int

/-- The fields of `parser::Task` that `run` reads and writes; `mediaDuration` is
`task.media->duration()`. -/
structure Task where
  mediaDuration : Int
  videoTracks : List VideoTrack
  audioTracks : List AudioTrack
  albumArtist : Str
  discNumber : Int
  discTotal : Int
  artist : Str
  artworkMrl : Str
  title : Str
  genre : Str
  releaseDate : Str
  showName : Str
  albumName : Str
  duration : Int
  trackNumber : Int
  episode : Int
deriving DecidableEq, Repr

/-- C `isspace` in the "C" locale. -/
def isSpace (c : Char) : Bool :=
  c.toNat == 32 || (decide (9 ≤ c.toNat) && decide (c.toNat ≤ 13))

/-- C `isdigit`. -/
def isDigit (c : Char) : Bool :=
  decide (48 ≤ c.toNat) && decide (c.toNat ≤ 57)

/-- The number written by a string of decimal digits. -/
def digitsValue (ds : Str) : Nat :=
  ds.foldl (fun a c => 10 * a + (c.toNat - 48)) 0

/-- `std::stoi( str )`: leading white space is skipped, then an optional sign and the
longest run of decimal digits are read.  `none` stands for the exceptions
`std::invalid_argument` (no digit) and `std::out_of_range` (outside `int`). -/
def stoi (str : Str) : Option Int :=
  let body := str.dropWhile isSpace
  let neg := body.head? == some (Char.ofNat 45)
  let rest :=
    if body.head? == some (Char.ofNat 45) || body.head? == some (Char.ofNat 43)
    then body.tail else body
  let ds := rest.takeWhile isDigit
  if ds.isEmpty then none
  else
    let v : Int := if neg then -(digitsValue ds : Int) else (digitsValue ds : Int)
    if -2147483648 ≤ v ∧ v ≤ 2147483647 then some v else none

/-- `VLCMetadataService::toInt` (VLCMetadataService.cpp:124-139). -/
def toInt (vlcMedia : VlcMedia) (meta : Meta) : Int :=
  if (vlcMedia.meta meta).isEmpty = false then
    match stoi (vlcMedia.meta meta) with
    | some v => v
    | none => 0
  else 0

/-- `std::string fcc( (const char*)&codec, 4 )`: the four bytes of the 32-bit codec in
memory order, on a little-endian host. -/
def fourcc (codec : Nat) : Str :=
  [Char.ofNat (codec % 256), Char.ofNat (codec / 256 % 256),
   Char.ofNat (codec / 65536 % 256), Char.ofNat (codec / 16777216 % 256)]

/-- `VLCMetadataService::storeMeta` (VLCMetadataService.cpp:101-122); `libvlc3` says
whether the build has `LIBVLC_VERSION_INT >= LIBVLC_VERSION(3, 0, 0, 0)`. -/
def storeMeta (libvlc3 : Bool) (task : Task) (vlcMedia : VlcMedia) : Task :=
  { task with
    albumArtist := if libvlc3 then vlcMedia.meta Meta.AlbumArtist else task.albumArtist
    discNumber := if libvlc3 then toInt vlcMedia Meta.DiscNumber else 0
    discTotal := if libvlc3 then toInt vlcMedia Meta.DiscTotal else 0
    artist := vlcMedia.meta Meta.Artist
    artworkMrl := vlcMedia.meta Meta.ArtworkURL
    title := vlcMedia.meta Meta.Title
    genre := vlcMedia.meta Meta.Genre
    releaseDate := vlcMedia.meta Meta.Date
    showName := vlcMedia.meta Meta.ShowName
    albumName := vlcMedia.meta Meta.Album
    duration := vlcMedia.duration
    trackNumber := toInt vlcMedia Meta.TrackNumber
    episode := toInt vlcMedia Meta.Episode }

/-- One turn of the loop over the tracks (VLCMetadataService.cpp:70-84). -/
def addTrack (task : Task) (track : MediaTrack) : Task :=
  match track.type with
  | TrackType.Video =>
    { task with
      videoTracks := task.videoTracks ++
        [⟨fourcc track.codec, ⟨track.fpsNum, track.fpsDen⟩, track.width, track.height⟩] }
  | TrackType.Audio =>
    { task with
      audioTracks := task.audioTracks ++
        [⟨fourcc track.codec, track.bitrate, track.rate, track.channels, track.language,
          track.description⟩] }
  | _ => task

/-- `VLCMetadataService::run` (VLCMetadataService.cpp:33-89): the status returned and
the task afterwards.  The callback sets `done` for an event with `parsed == true`
only, and `wait_for` reports whether `done` was set before the five seconds passed. -/
def run (libvlc3 : Bool) (vlcMedia : VlcMedia) (task : Task) : Status × Task :=
  if task.mediaDuration ≠ -1 then (Status.Success, task)
  else
    let done := vlcMedia.parsedEvents.any (fun parsed => parsed)
    if done = false then (Status.Fatal, task)
    else if vlcMedia.tracks.length = 0 then (Status.Fatal, task)
    else (Status.Success, storeMeta libvlc3 (vlcMedia.tracks.foldl addTrack task) vlcMedia)

end VLCMetadataService

/-! MPEG-I/II video packetizer (src/modules/packetizer/mpegvideo.c). -/

namespace MpegVideo

/-- The flags of a `block_t` that the packetizer sets or tests, one boolean per flag,
and the remaining bits of `i_flags`. -/
structure Flags where
  discontinuity : Bool
  type_i : Bool
  type_p : Bool
  type_b : Bool
  end_of_sequence : Bool
  top_field_first : Bool
  bottom_field_first : Bool
  others : Nat
deriving DecidableEq, Repr

/-- `i_flags = 0`. -/
def Flags.zero : Flags := ⟨false, false, false, false, false, false, false, 0⟩

/-- `a | b` on block flags. -/
def Flags.or (a b : Flags) : Flags :=
  ⟨a.discontinuity || b.discontinuity, a.type_i || b.type_i, a.type_p || b.type_p,
   a.type_b || b.type_b, a.end_of_sequence || b.end_of_sequence,
   a.top_field_first || b.top_field_first, a.bottom_field_first || b.bottom_field_first,
   a.others ||| b.others⟩

/-- A `block_t`: the `i_buffer` bytes of `p_buffer`, the byte that a read past the end
of the buffer yields, and the flags and timestamps. -/
structure Block where
  p_buffer : List Nat
  padding : Nat
  i_flags : Flags
  i_pts : Int
  i_dts : Int
  i_length : Int
deriving DecidableEq, Repr

/-- `p_block->i_buffer`. -/
def Block.i_buffer (b : Block) : Nat := b.p_buffer.length

/-- `p_block->p_buffer[i]`, a `uint8_t`. -/
def Block.byte (b : Block) (i : Nat) : Nat := (b.p_buffer.getD i b.padding) % 256

/-- `VLC_TS_INVALID` (vlc_common.h). -/
def VLC_TS_INVALID : Int := 0

/-- `VLC_TS_0` (vlc_common.h). -/
def VLC_TS_0 : Int := 1

/-- A `date_t`: the date and the state of its time scale. -/
structure Date where
  date : Int
  i_divider_num : Nat
  i_divider_den : Nat
  i_remainder : Nat
deriving DecidableEq, Repr

/-- `date_Init( &d, num, den )` of the VLC core: the date is `VLC_TS_INVALID`, the scale
is `num / den`. -/
def date_Init (num den : Nat) : Date := ⟨VLC_TS_INVALID, num, den, 0⟩

/-- `date_Set( &d, v )` of the VLC core: stores the date and clears the remainder. -/
def date_Set (d : Date) (v : Int) : Date := { d with date := v, i_remainder := 0 }

/-- `date_Get( &d )` of the VLC core: the stored date. -/
def date_Get (d : Date) : Int := d.date

/-- The content of a `cc_data_t`, which only the closed-caption helpers look into. -/
abbrev Cc := List Nat

/-- Functions of the VLC core and of the closed-caption helper that are not under src/
and are inputs of the model: `date_Increment`, `date_Change`, `block_ChainGather` (given
the blocks of the chain in order), `cc_ProbeAndExtract` (given the field order and the
bytes after the start code) and `cc_Flush`. -/
structure Core where
  date_Increment : Date → Nat → Date
  date_Change : Date → Nat → Nat → Date
  block_ChainGather : List Block → Block
  cc_ProbeAndExtract : Cc → Nat → List Nat → Cc
  cc_Flush : Cc → Cc

/-- `video_color_primaries_t`, as far as the packetizer assigns it. -/
inductive Primaries where
  | UNDEF
  | BT709
  | BT601_625
  | BT601_525
deriving DecidableEq, Repr

/-- `video_transfer_func_t`, as far as the packetizer assigns it. -/
inductive Transfer where
  | UNDEF
  | BT709
  | SRGB
  | BT2020
  | LINEAR
deriving DecidableEq, Repr

/-- `video_color_space_t`, as far as the packetizer assigns it. -/
inductive Space where
  | UNDEF
  | BT709
  | BT601
deriving DecidableEq, Repr

/-- The fields of `p_dec->fmt_out.video` that the packetizer could write. -/
structure VideoFormat where
  i_width : Nat
  i_height : Nat
  i_frame_rate : Nat
  i_frame_rate_base : Nat
  i_sar_num : Nat
  i_sar_den : Nat
  primaries : Primaries
  transfer : Transfer
  space : Space
deriving DecidableEq, Repr

/-- The decoder: `decoder_sys_t` (mpegvideo.c:84-144), the output format, and whether
`fmt_in.i_original_fourcc` is `DVR `.  The `int` fields hold values that are never
negative and are kept as natural numbers. -/
structure Decoder where
  is_dvr : Bool
  fmt_out : VideoFormat
  p_seq : Option Block
  p_ext : Option Block
  p_frame : List Block
  b_frame_slice : Bool
  i_pts : Int
  i_dts : Int
  dts : Date
  prev_iframe_dts : Date
  i_frame_rate : Nat
  i_frame_rate_base : Nat
  b_seq_progressive : Bool
  b_low_delay : Bool
  i_aspect_ratio_info : Nat
  b_inited : Bool
  i_temporal_ref : Nat
  i_prev_temporal_ref : Nat
  i_picture_type : Nat
  i_picture_structure : Nat
  i_top_field_first : Nat
  i_repeat_first_field : Nat
  i_progressive_frame : Nat
  i_last_ref_pts : Int
  i_last_frame_pts : Int
  i_last_frame_refid : Nat
  b_second_field : Bool
  i_seq_old : Nat
  b_sync_on_intra_frame : Bool
  b_waiting_iframe : Bool
  i_next_block_flags : Flags
  b_cc_reset : Bool
  i_cc_flags : Flags
  i_cc_pts : Int
  i_cc_dts : Int
  cc : Cc
deriving DecidableEq, Repr

/-- `Open` (mpegvideo.c:161-235) for an input of codec `VLC_CODEC_MPGV`: the decoder it
sets up.  `sync_iframe` is the option "packetizer-mpegvideo-sync-iframe", `cc0` the
closed-caption data after `cc_Init`. -/
def Open (is_dvr sync_iframe : Bool) (cc0 : Cc) : Decoder :=
  { is_dvr := is_dvr
    fmt_out := ⟨0, 0, 0, 0, 0, 0, Primaries.UNDEF, Transfer.UNDEF, Space.UNDEF⟩
    p_seq := none
    p_ext := none
    p_frame := []
    b_frame_slice := false
    i_pts := VLC_TS_INVALID
    i_dts := VLC_TS_INVALID
    dts := date_Set (date_Init 1 1) VLC_TS_INVALID
    prev_iframe_dts := date_Set (date_Init 1 1) VLC_TS_INVALID
    i_frame_rate := 1
    i_frame_rate_base := 1
    b_seq_progressive := true
    b_low_delay := true
    i_aspect_ratio_info := 0
    b_inited := false
    i_temporal_ref := 0
    i_prev_temporal_ref := 2048
    i_picture_type := 0
    i_picture_structure := 3
    i_top_field_first := 0
    i_repeat_first_field := 0
    i_progressive_frame := 0
    i_last_ref_pts := VLC_TS_INVALID
    i_last_frame_pts := 0
    i_last_frame_refid := 0
    b_second_field := false
    i_seq_old := 0
    b_sync_on_intra_frame := sync_iframe
    b_waiting_iframe := sync_iframe
    i_next_block_flags := Flags.zero
    b_cc_reset := false
    i_cc_flags := Flags.zero
    i_cc_pts := 0
    i_cc_dts := 0
    cc := cc0 }

/-- `PacketizeReset` (mpegvideo.c:311-332). -/
def PacketizeReset (st : Decoder) : Decoder :=
  { st with
    i_next_block_flags := { Flags.zero with discontinuity := true }
    p_frame := []
    b_frame_slice := if st.p_frame.isEmpty then st.b_frame_slice else false
    dts := date_Set st.dts VLC_TS_INVALID
    prev_iframe_dts := date_Set st.prev_iframe_dts VLC_TS_INVALID
    i_dts := VLC_TS_INVALID
    i_pts := VLC_TS_INVALID
    i_last_ref_pts := VLC_TS_INVALID
    b_waiting_iframe := st.b_sync_on_intra_frame
    i_prev_temporal_ref := 2048 }

/-- `PacketizeValidate` (mpegvideo.c:352-383): whether `VLC_SUCCESS` is returned, the
decoder and the access unit afterwards. -/
def PacketizeValidate (st : Decoder) (p_au : Block) : Bool × Decoder × Block :=
  if st.b_waiting_iframe && p_au.i_flags.type_i == false then (false, st, p_au)
  else
    let st1 := if st.b_waiting_iframe then { st with b_waiting_iframe := false } else st
    if st1.i_dts ≤ VLC_TS_INVALID ∧ st1.i_pts ≤ VLC_TS_INVALID ∧
        date_Get st1.dts ≤ VLC_TS_INVALID then (false, st1, p_au)
    else
      (true, st1, if p_au.i_dts ≤ VLC_TS_INVALID then { p_au with i_dts := p_au.i_pts } else p_au)

/-- `block_ChainLastAppend( &pp_last, p_block )` of the VLC core, on a chain given by its
blocks in order: the block is put at the end. -/
def block_ChainLastAppend (chain : List Block) (p_block : Block) : List Block :=
  chain ++ [p_block]

/-- The table `code_to_frame_rate` (mpegvideo.c:628-638). -/
def code_to_frame_rate : List (Nat × Nat) :=
  [(1, 1),
   (24000, 1001), (24, 1), (25, 1), (30000, 1001),
   (30, 1), (50, 1), (60000, 1001), (60, 1),
   (15, 1001),
   (5000, 1001), (1000, 1001), (12000, 1001), (15000, 1001),
   (1, 1), (1, 1)]

/-- The test "previous picture is finished" (mpegvideo.c:395-396, 408-409): slices were
seen and the fragment is a picture start code or has a start code above 0xaf. -/
def pictureEnd (st : Decoder) (p_frag : Block) : Bool :=
  st.b_frame_slice && (p_frag.byte 3 == 0x00 || decide (p_frag.byte 3 > 0xaf))

/-- The value of `i_num_fields` (mpegvideo.c:424-453). -/
def numFields (st : Decoder) : Nat :=
  let i_num_fields := if st.b_seq_progressive = false ∧ st.i_picture_structure ≠ 0x03 then 1 else 2
  if st.b_seq_progressive then
    if st.i_top_field_first = 0 ∧ st.i_repeat_first_field = 1 then i_num_fields * 2
    else if st.i_top_field_first = 1 ∧ st.i_repeat_first_field = 1 then i_num_fields * 3
    else i_num_fields
  else
    if st.i_picture_structure = 0x03 then
      if st.i_progressive_frame ≠ 0 ∧ st.i_repeat_first_field ≠ 0 then i_num_fields + 1
      else i_num_fields
    else i_num_fields

/-- The flags of the gathered picture (mpegvideo.c:421-422, 455-472). -/
def pictureFlags (st : Decoder) (b_eos : Bool) (i_flags : Flags) : Flags :=
  let f1 := if b_eos then { i_flags with end_of_sequence := true } else i_flags
  let f2 :=
    if st.i_picture_type = 0x01 then { f1 with type_i := true }
    else if st.i_picture_type = 0x02 then { f1 with type_p := true }
    else if st.i_picture_type = 0x03 then { f1 with type_b := true }
    else f1
  if st.i_picture_structure = 0x03 ∧ st.b_seq_progressive = false then
    if st.i_top_field_first ≠ 0 then { f2 with top_field_first := true }
    else { f2 with bottom_field_first := true }
  else f2

/-- The DVR-MS case (mpegvideo.c:478-524): the picture with its timestamps and the decoder
afterwards. -/
def finishDvr (core : Core) (st : Decoder) (p_pic : Block) (i_num_fields : Nat) :
    Block × Decoder :=
  let b_first_xmited := decide (st.i_prev_temporal_ref ≠ st.i_temporal_ref)
  let st1 :=
    if p_pic.i_flags.type_i && b_first_xmited then
      let dts :=
        if date_Get st.prev_iframe_dts = VLC_TS_INVALID then
          if st.i_dts ≠ VLC_TS_INVALID then date_Set st.dts st.i_dts
          else if date_Get st.dts = VLC_TS_INVALID then date_Set st.dts VLC_TS_0
          else st.dts
        else st.dts
      { st with dts := dts, prev_iframe_dts := dts }
    else st
  let i_dts := date_Get st1.dts
  let datepts := core.date_Increment st1.prev_iframe_dts ((1 + st.i_temporal_ref) * 2)
  let datepts :=
    if st.i_picture_structure ≠ 0x03 ∧
        (st.i_picture_structure >>> 1) ≠ (if st.i_top_field_first = 0 then 1 else 0) ∧
        b_first_xmited = true
    then core.date_Increment datepts 2 else datepts
  let dts := core.date_Increment st1.dts i_num_fields
  ({ p_pic with i_dts := i_dts, i_pts := date_Get datepts, i_length := date_Get dts - i_dts },
   { st1 with dts := dts, i_prev_temporal_ref := st.i_temporal_ref })

/-- The general case (mpegvideo.c:525-567): the picture with its timestamps and the
decoder afterwards. -/
def finishGeneral (core : Core) (st : Decoder) (p_pic : Block) (i_num_fields : Nat) :
    Block × Decoder :=
  let st1 :=
    if st.b_low_delay || st.i_picture_type == 0x03 then
      let dts := if st.i_pts > VLC_TS_INVALID then date_Set st.dts st.i_pts else st.dts
      let dts := if st.i_dts > VLC_TS_INVALID then date_Set dts st.i_dts else dts
      { st with dts := dts }
    else
      let dts :=
        if st.i_last_ref_pts > VLC_TS_INVALID ∧ st.b_second_field = false
        then date_Set st.dts st.i_last_ref_pts else st.dts
      let dts := if st.i_dts > VLC_TS_INVALID then date_Set dts st.i_dts else dts
      { st with
        dts := dts
        i_last_ref_pts := if st.b_second_field = false then st.i_pts else st.i_last_ref_pts }
  let i_dts := date_Get st1.dts
  let i_pts :=
    if st.i_pts > VLC_TS_INVALID then st.i_pts
    else if st.i_picture_type = 0x03 then i_dts
    else VLC_TS_INVALID
  let dts := core.date_Increment st1.dts i_num_fields
  ({ p_pic with i_dts := i_dts, i_pts := i_pts, i_length := date_Get dts - i_dts },
   { st1 with dts := dts })

/-- The branch that ends a picture while a sequence header is stored
(mpegvideo.c:408-596): what is left of `p_frag`, the picture, the decoder. -/
def finishPicture (core : Core) (st : Decoder) (p_frag : Block) :
    Option Block × Block × Decoder :=
  let b_eos := p_frag.byte 3 == 0xb7
  let p_frame := if b_eos then block_ChainLastAppend st.p_frame p_frag else st.p_frame
  let gathered := core.block_ChainGather p_frame
  let p_pic := { gathered with i_flags := pictureFlags st b_eos gathered.i_flags }
  let r :=
    if st.is_dvr then finishDvr core st p_pic (numFields st)
    else finishGeneral core st p_pic (numFields st)
  (if b_eos then none else some p_frag, r.1,
   { r.2 with
     p_frame := []
     b_frame_slice := false
     b_second_field := if st.i_picture_structure ≠ 0x03 then !st.b_second_field else false
     b_cc_reset := true
     i_cc_pts := r.1.i_pts
     i_cc_dts := r.1.i_dts
     i_cc_flags := r.1.i_flags })

/-- A group start code (mpegvideo.c:609-624). -/
def parseGroup (st : Decoder) : Decoder :=
  match st.p_seq with
  | some p_seq =>
    if st.i_seq_old > st.i_frame_rate / st.i_frame_rate_base then
      { st with
        p_frame :=
          match st.p_ext with
          | some p_ext =>
            block_ChainLastAppend (block_ChainLastAppend st.p_frame p_seq) p_ext
          | none => block_ChainLastAppend st.p_frame p_seq
        i_seq_old := 0 }
    else st
  | none => st

/-- A sequence header of at least 8 bytes (mpegvideo.c:625-679). -/
def parseSequenceHeader (core : Core) (st : Decoder) (p_frag : Block) : Decoder :=
  let row := code_to_frame_rate.getD (p_frag.byte 7 &&& 0x0f) (0, 0)
  let i_frame_rate := row.1
  let i_frame_rate_base := row.2
  let changed : Bool :=
    decide (i_frame_rate ≠ st.fmt_out.i_frame_rate) ||
    decide (st.fmt_out.i_frame_rate_base ≠ i_frame_rate_base)
  { st with
    p_seq := some p_frag
    i_seq_old := 0
    p_ext := none
    fmt_out :=
      { st.fmt_out with
        i_width := (p_frag.byte 4 <<< 4) ||| (p_frag.byte 5 >>> 4)
        i_height := ((p_frag.byte 5 &&& 0x0f) <<< 8) ||| p_frag.byte 6
        i_frame_rate := i_frame_rate
        i_frame_rate_base := i_frame_rate_base }
    i_aspect_ratio_info := p_frag.byte 7 >>> 4
    i_frame_rate := i_frame_rate
    i_frame_rate_base := i_frame_rate_base
    dts := if changed then core.date_Change st.dts (2 * i_frame_rate) i_frame_rate_base
           else st.dts
    prev_iframe_dts :=
      if changed then core.date_Change st.prev_iframe_dts (2 * i_frame_rate) i_frame_rate_base
      else st.prev_iframe_dts
    b_seq_progressive := true
    b_low_delay := true
    b_inited := true }

/-- The `switch` on `color_primaries` (mpegvideo.c:743-758). -/
def colorPrimaries (color_primaries : Nat) (old : Primaries) : Primaries :=
  if color_primaries = 1 then Primaries.BT709
  else if color_primaries = 4 ∨ color_primaries = 5 then Primaries.BT601_625
  else if color_primaries = 6 ∨ color_primaries = 7 then Primaries.BT601_525
  else old

/-- The `switch` on `color_transfer` (mpegvideo.c:759-776). -/
def colorTransfer (color_transfer : Nat) (old : Transfer) : Transfer :=
  if color_transfer = 1 then Transfer.BT709
  else if color_transfer = 4 then Transfer.SRGB
  else if color_transfer = 5 ∨ color_transfer = 6 then Transfer.BT2020
  else if color_transfer = 8 then Transfer.LINEAR
  else old

/-- The `switch` on `color_matrix` (mpegvideo.c:777-788). -/
def colorSpace (color_matrix : Nat) (old : Space) : Space :=
  if color_matrix = 1 then Space.BT709
  else if color_matrix = 5 ∨ color_matrix = 6 then Space.BT601
  else old

/-- An extension start code (mpegvideo.c:680-792).  The assignment of `i_sar_num` and
`i_sar_den` in the sequence extension is under `#if 0` and is not compiled. -/
def parseExtension (st : Decoder) (p_frag : Block) : Decoder :=
  let i_type := p_frag.byte 4 >>> 4
  if i_type = 0x01 then
    if p_frag.i_buffer ≥ 10 then
      { st with
        p_ext := some p_frag
        b_seq_progressive := p_frag.byte 5 &&& 0x08 != 0
        b_low_delay := p_frag.byte 9 &&& 0x80 != 0 }
    else { st with p_ext := some p_frag }
  else if i_type = 0x08 ∧ p_frag.i_buffer > 8 then
    { st with
      i_picture_structure := p_frag.byte 6 &&& 0x03
      i_top_field_first := p_frag.byte 7 >>> 7
      i_repeat_first_field := (p_frag.byte 7 >>> 1) &&& 0x01
      i_progressive_frame := p_frag.byte 8 >>> 7 }
  else if i_type = 0x02 ∧ p_frag.i_buffer > 8 then
    if p_frag.byte 4 &&& 0x01 ≠ 0 ∧ p_frag.i_buffer > 11 then
      { st with
        fmt_out :=
          { st.fmt_out with
            primaries := colorPrimaries (p_frag.byte 5) st.fmt_out.primaries
            transfer := colorTransfer (p_frag.byte 6) st.fmt_out.transfer
            space := colorSpace (p_frag.byte 7) st.fmt_out.space } }
    else st
  else st

/-- A picture start code (mpegvideo.c:798-812); `i_seq_old` is an `unsigned`. -/
def parsePicture (st : Decoder) (p_frag : Block) : Decoder :=
  let st1 := { st with i_seq_old := (st.i_seq_old + 1) % 4294967296 }
  let st2 :=
    if p_frag.i_buffer ≥ 6 then
      { st1 with
        i_temporal_ref := (p_frag.byte 4 <<< 2) ||| (p_frag.byte 5 >>> 6)
        i_picture_type := (p_frag.byte 5 >>> 3) &&& 0x03 }
    else st1
  { st2 with i_dts := p_frag.i_dts, i_pts := p_frag.i_pts }

/-- The part "check info of current fragment" (mpegvideo.c:609-817). -/
def parseFragment (core : Core) (st : Decoder) (p_frag : Block) : Decoder :=
  if p_frag.byte 3 = 0xb8 then parseGroup st
  else if p_frag.byte 3 = 0xb3 ∧ p_frag.i_buffer ≥ 8 then parseSequenceHeader core st p_frag
  else if p_frag.byte 3 = 0xb5 then parseExtension st p_frag
  else if p_frag.byte 3 = 0xb2 ∧ p_frag.i_buffer > 4 then
    { st with cc := core.cc_ProbeAndExtract st.cc st.i_top_field_first (p_frag.p_buffer.drop 4) }
  else if p_frag.byte 3 = 0x00 then parsePicture st p_frag
  else if p_frag.byte 3 ≥ 0x01 ∧ p_frag.byte 3 ≤ 0xaf then { st with b_frame_slice := true }
  else st

/-- The part "check if previous picture is finished" (mpegvideo.c:392-596): what is left
of `p_frag`, the picture `p_pic`, if any, and the decoder afterwards. -/
def endPicture (core : Core) (st : Decoder) (p_frag : Block) :
    Option Block × Option Block × Decoder :=
  if pictureEnd st p_frag && st.p_seq.isNone then
    (some p_frag, none, { st with p_frame := [], b_frame_slice := false })
  else if pictureEnd st p_frag then
    let f := finishPicture core st p_frag
    (f.1, some f.2.1, f.2.2)
  else (some p_frag, none, st)

/-- The closed captions are flushed when no picture ended and a reset is due
(mpegvideo.c:598-602). -/
def flushCc (core : Core) (p_pic : Option Block) (st : Decoder) : Decoder :=
  if p_pic.isNone && st.b_cc_reset then
    { st with b_cc_reset := false, cc := core.cc_Flush st.cc }
  else st

/-- `ParseMPEGBlock` (mpegvideo.c:387-823): the picture returned, if any, and the decoder
afterwards. -/
def ParseMPEGBlock (core : Core) (st : Decoder) (p_frag : Block) : Option Block × Decoder :=
  let r := endPicture core st p_frag
  let p_pic := r.2.1
  let st1 := flushCc core p_pic r.2.2
  match r.1 with
  | none => (p_pic, st1)
  | some p_frag =>
    let st2 := parseFragment core st1 p_frag
    (p_pic, { st2 with p_frame := block_ChainLastAppend st2.p_frame p_frag })

/-- `PacketizeParse` (mpegvideo.c:334-349): `*pb_ts_used`, the block returned, if any,
and the decoder afterwards. -/
def PacketizeParse (core : Core) (st : Decoder) (p_block : Block) :
    Bool × Option Block × Decoder :=
  let pb_ts_used := p_block.byte 3 == 0x00
  let r := ParseMPEGBlock core st p_block
  match r.1 with
  | some p_pic =>
    (pb_ts_used, some { p_pic with i_flags := p_pic.i_flags.or r.2.i_next_block_flags },
     { r.2 with i_next_block_flags := Flags.zero })
  | none => (pb_ts_used, none, r.2)

/-- A call of one of the callbacks that the packetizer helper is given (mpegvideo.c:179-182). -/
inductive Call where
  | reset
  | parse (p_block : Block)
  | validate (p_au : Block)
deriving DecidableEq, Repr

/-- What a call of `PacketizeValidate` was given and what it answered: the decoder before
the call, the access unit, and whether `VLC_SUCCESS` was returned. -/
structure Validation where
  st : Decoder
  p_au : Block
  success : Bool
deriving DecidableEq, Repr

/-- The decoder after a call. -/
def step (core : Core) (st : Decoder) : Call → Decoder
  | Call.reset => PacketizeReset st
  | Call.parse p_block => (PacketizeParse core st p_block).2.2
  | Call.validate p_au => (PacketizeValidate st p_au).2.1

/-- The calls of `PacketizeValidate` in a sequence of calls, in order. -/
def validations (core : Core) : Decoder → List Call → List Validation
  | _, [] => []
  | st, Call.validate p_au :: calls =>
    ⟨st, p_au, (PacketizeValidate st p_au).1⟩ ::
      validations core (step core st (Call.validate p_au)) calls
  | st, call :: calls => validations core (step core st call) calls

/-- A test on the decoder: a starting timestamp is known (mpegvideo.c:370-371). -/
def hasTimestamp (st : Decoder) : Bool :=
  !(decide (st.i_dts ≤ VLC_TS_INVALID) && decide (st.i_pts ≤ VLC_TS_INVALID) &&
    decide (date_Get st.dts ≤ VLC_TS_INVALID))

/-- A core for the examples: dates advance by `n * 1000000 * den / num` microseconds,
`date_Change` swaps the scale, a chain is gathered into the bytes of its blocks with the
flags and timestamps of the first one, and the closed-caption helpers keep the bytes of the
user data. -/
def exampleCore : Core :=
  { date_Increment := fun d n =>
      { d with date := d.date + ((n * 1000000 * d.i_divider_den / d.i_divider_num : Nat) : Int) }
    date_Change := fun d num den => { d with i_divider_num := num, i_divider_den := den }
    block_ChainGather := fun l =>
      match l with
      | [] => ⟨[], 0, Flags.zero, 0, 0, 0⟩
      | b :: bs => { b with p_buffer := b.p_buffer ++ (bs.map (fun x => x.p_buffer)).flatten }
    cc_ProbeAndExtract := fun cc _ data => cc ++ data
    cc_Flush := fun _ => [] }

end MpegVideo

namespace MpegVideo

/-- The indices at which `ParseMPEGBlock` itself reads `p_frag->p_buffer`: the start code
byte 3 (mpegvideo.c:395-396, 408-411, 609-813) and the bytes of the branch taken for it.
The bytes that a user data fragment hands to `cc_ProbeAndExtract` (`&p_buffer[4]`,
`i_buffer - 4` of them) are read by that helper and are not listed. -/
def reads (p_frag : Block) : List Nat :=
  3 ::
    (if p_frag.byte 3 = 0xb8 then []
     else if p_frag.byte 3 = 0xb3 ∧ p_frag.i_buffer ≥ 8 then [4, 5, 6, 7]
     else if p_frag.byte 3 = 0xb5 then
       4 ::
         (if p_frag.byte 4 >>> 4 = 0x01 then
            (if p_frag.i_buffer ≥ 10 then [5, 9] else [])
          else if p_frag.byte 4 >>> 4 = 0x08 ∧ p_frag.i_buffer > 8 then [6, 7, 8]
          else if p_frag.byte 4 >>> 4 = 0x02 ∧ p_frag.i_buffer > 8 then
            (if p_frag.byte 4 &&& 0x01 ≠ 0 ∧ p_frag.i_buffer > 11 then [5, 6, 7] else [])
          else [])
     else if p_frag.byte 3 = 0xb2 ∧ p_frag.i_buffer > 4 then []
     else if p_frag.byte 3 = 0x00 then (if p_frag.i_buffer ≥ 6 then [4, 5] else [])
     else [])

/-- The decoders that the packetizer can be in: the one of `Open`, and the one after a
call of `PacketizeReset`, `ParseMPEGBlock`, `PacketizeParse` or `PacketizeValidate` on
such a decoder. -/
inductive Reachable (core : Core) : Decoder → Prop where
  | start (is_dvr sync_iframe : Bool) (cc0 : Cc) : Reachable core (Open is_dvr sync_iframe cc0)
  | reset {st : Decoder} : Reachable core st → Reachable core (PacketizeReset st)
  | block {st : Decoder} (p_frag : Block) :
      Reachable core st → Reachable core (ParseMPEGBlock core st p_frag).2
  | parse {st : Decoder} (p_block : Block) :
      Reachable core st → Reachable core (PacketizeParse core st p_block).2.2
  | validate {st : Decoder} (p_au : Block) :
      Reachable core st → Reachable core (PacketizeValidate st p_au).2.1

/-- A block that `PacketizeParse` returned: the decoder before the call, the picture as
`ParseMPEGBlock` had returned it, the block as `PacketizeParse` returned it, and the
decoder after the call. -/
structure Parsed where
  before : Decoder
  p_pic : Block
  p_block : Block
  st : Decoder
deriving DecidableEq, Repr

/-- The blocks that `PacketizeParse` returns in a sequence of calls, in order. -/
def parses (core : Core) : Decoder → List Call → List Parsed
  | _, [] => []
  | st, Call.parse p_block :: calls =>
    match (ParseMPEGBlock core st p_block).1, (PacketizeParse core st p_block).2.1 with
    | some p_pic, some p_out =>
      ⟨st, p_pic, p_out, step core st (Call.parse p_block)⟩ ::
        parses core (step core st (Call.parse p_block)) calls
    | _, _ => parses core (step core st (Call.parse p_block)) calls
  | st, call :: calls => parses core (step core st call) calls

/-- The value of `b_first_xmited` (mpegvideo.c:480) in the DVR-MS case. -/
def b_first_xmited (st : Decoder) : Bool :=
  decide (st.i_prev_temporal_ref ≠ st.i_temporal_ref)

/-- The sequence properties, the picture header values, the stored headers and the flags
for the next block: the fields that ending a picture (mpegvideo.c:392-602) does not
write. -/
def parsedFields (st : Decoder) :
    VideoFormat × Option Block × Option Block × Nat × Nat × Bool × Bool × Nat × Nat × Nat ×
      Flags :=
  (st.fmt_out, st.p_seq, st.p_ext, st.i_frame_rate, st.i_frame_rate_base,
   st.b_seq_progressive, st.b_low_delay, st.i_aspect_ratio_info, st.i_temporal_ref,
   st.i_picture_type, st.i_next_block_flags)

end MpegVideo

namespace PlaylistModel

/-- What a row shows to the playlists other than `pl`: a row of playlist `pl` with its
position blanked (NULL), any other row as it is. -/
def outside (pl : Nat) (r : Row) : Row :=
  if r.playlist_id = pl then { r with position := none } else r

end PlaylistModel

namespace MpegVideo

/-- What is asked of `date_Increment` and `date_Change` of the VLC core, which are not
under src/.  On a date whose scale `num / den` has `1 ≤ num ≤ 1000000 * den` (a sample
lasts one microsecond or more) `date_Increment` by one sample or more moves the date
forward; `date_Increment` keeps the scale; `date_Change` keeps the date and sets the
scale. -/
structure Clock (core : Core) : Prop where
  increment_date : ∀ (d : Date) (n : Nat), 1 ≤ n → 1 ≤ d.i_divider_num →
    d.i_divider_num ≤ 1000000 * d.i_divider_den →
    date_Get d < date_Get (core.date_Increment d n)
  increment_scale : ∀ (d : Date) (n : Nat),
    (core.date_Increment d n).i_divider_num = d.i_divider_num ∧
    (core.date_Increment d n).i_divider_den = d.i_divider_den
  change_date : ∀ (d : Date) (num den : Nat),
    date_Get (core.date_Change d num den) = date_Get d
  change_scale : ∀ (d : Date) (num den : Nat),
    (core.date_Change d num den).i_divider_num = num ∧
    (core.date_Change d num den).i_divider_den = den

/-- The calling order of the packetizer helper, to which `Open` hands the three callbacks
(mpegvideo.c:179-182) and which `Packetize` runs (mpegvideo.c:271): `PacketizeValidate` is
called only on the block that the call of `PacketizeParse` right before it returned.
`pending` is that block, if the call before was a `PacketizeParse` that returned one. -/
def helperCalls (core : Core) : Decoder → Option Block → List Call → Bool
  | _, _, [] => true
  | st, _, Call.reset :: calls => helperCalls core (step core st Call.reset) none calls
  | st, _, Call.parse p_block :: calls =>
    helperCalls core (step core st (Call.parse p_block))
      (PacketizeParse core st p_block).2.1 calls
  | st, pending, Call.validate p_au :: calls =>
    pending == some p_au && helperCalls core (step core st (Call.validate p_au)) none calls

/-- No block given to `PacketizeParse` has a dts below `VLC_TS_INVALID`. -/
def dtsFromZero (calls : List Call) : Bool :=
  calls.all (fun call =>
    match call with
    | Call.parse p_block => decide (VLC_TS_INVALID ≤ p_block.i_dts)
    | _ => true)

/-- The dts date of the decoder can be incremented: the input is DVR-MS or not as `dvr`
says, the date is not below `VLC_TS_INVALID`, its scale `num / den` has
`1 ≤ num ≤ 1000000 * den`, and for a DVR-MS input the stored dts is not below
`VLC_TS_INVALID`. -/
def DtsSane (dvr : Bool) (st : Decoder) : Prop :=
  st.is_dvr = dvr ∧ VLC_TS_INVALID ≤ date_Get st.dts ∧ 1 ≤ st.dts.i_divider_num ∧
  st.dts.i_divider_num ≤ 1000000 * st.dts.i_divider_den ∧
  (dvr = true → VLC_TS_INVALID ≤ st.i_dts)

end MpegVideo

/-! ## Lemmas on the UPDATE statement and the triggers -/

namespace PlaylistModel

open Playlist

theorem rowids_eq_nil (wh : Row → Bool) (t : Table) (i : Nat)
    (h : ∀ r ∈ t, wh r = false) : rowids wh i t = [] := by
  induction t generalizing i with
  | nil => rfl
  | cons r rs ih =>
    have h1 : wh r = false := h r (List.mem_cons_self _ _)
    simp [rowids, h1]
    exact ih (i + 1) (fun x hx => h x (List.mem_cons_of_mem _ hx))

theorem rowids_append (wh : Row → Bool) (l1 l2 : Table) (i : Nat) :
    rowids wh i (l1 ++ l2) = rowids wh i l1 ++ rowids wh (i + l1.length) l2 := by
  induction l1 generalizing i with
  | nil => simp [rowids]
  | cons r rs ih =>
    have e : i + 1 + rs.length = i + (rs.length + 1) := by omega
    by_cases hw : wh r = true <;> simp [rowids, hw, ih, e]

theorem rowids_single (wh : Row → Bool) (l1 l2 : Table) (y : Row)
    (h1 : ∀ r ∈ l1, wh r = false) (hy : wh y = true) (h2 : ∀ r ∈ l2, wh r = false) :
    rowids wh 0 (l1 ++ y :: l2) = [l1.length] := by
  rw [rowids_append, rowids_eq_nil wh l1 0 h1]
  simp [rowids, hy, rowids_eq_nil wh l2 _ h2]

theorem execUpdate_no_match (wh : Row → Bool) (f : Row → Option Nat)
    (after : Table → Row → Option Table) (t : Table)
    (h : ∀ r ∈ t, wh r = false) : execUpdate wh f after t = some t := by
  simp [execUpdate, rowids_eq_nil wh t 0 h]

theorem execUpdate_single (wh : Row → Bool) (f : Row → Option Nat)
    (after : Table → Row → Option Table) (l1 l2 : Table) (y : Row)
    (h1 : ∀ r ∈ l1, wh r = false) (hy : wh y = true) (h2 : ∀ r ∈ l2, wh r = false) :
    execUpdate wh f after (l1 ++ y :: l2)
      = after (l1 ++ { y with position := f y } :: l2) { y with position := f y } := by
  have hg : (l1 ++ y :: l2).get? l1.length = some y := by
    rw [List.get?_eq_getElem?, List.getElem?_append_right (Nat.le_refl _)]
    simp
  have hs : ∀ z : Row, (l1 ++ y :: l2).set l1.length z = l1 ++ z :: l2 := by
    intro z; simp
  unfold execUpdate
  rw [rowids_single wh l1 l2 y h1 hy h2]
  simp only [List.foldlM_cons, List.foldlM_nil, hg, hs]
  simp

theorem foldlM_some_invariant {α β : Type} (P : β → Prop) (g : β → α → Option β)
    (hg : ∀ b a b1, P b → g b a = some b1 → P b1) :
    ∀ (l : List α) (b b1 : β), P b → l.foldlM g b = some b1 → P b1 := by
  intro l
  induction l with
  | nil => intro b b1 h0 h; simp at h; exact h ▸ h0
  | cons a as ih =>
    intro b b1 h0 h
    rw [List.foldlM_cons] at h
    cases hga : g b a with
    | none => simp [hga] at h
    | some b2 =>
      simp [hga] at h
      exact ih b2 b1 (hg b a b2 h0 hga) h

theorem execUpdate_allPos (wh : Row → Bool) (f : Row → Option Nat)
    (after : Table → Row → Option Table)
    (hf : ∀ r p, r.position = some p → 1 ≤ p → ∃ q, f r = some q ∧ 1 ≤ q)
    (hafter : ∀ acc r t1, AllPos acc → after acc r = some t1 → AllPos t1)
    (t t1 : Table) (h0 : AllPos t) (h : execUpdate wh f after t = some t1) : AllPos t1 := by
  unfold execUpdate at h
  refine foldlM_some_invariant AllPos _ ?_ _ _ _ h0 h
  intro acc i acc1 hacc hstep
  cases hget : acc.get? i with
  | none =>
    simp only [hget] at hstep
    cases hstep
    exact hacc
  | some r =>
    simp only [hget] at hstep
    refine hafter _ _ _ ?_ hstep
    intro x hx
    rcases List.mem_or_eq_of_mem_set hx with hx | hx
    · exact hacc x hx
    · have hr : r ∈ acc := List.get?_mem hget
      obtain ⟨p, hp, hp1⟩ := hacc r hr
      obtain ⟨q, hq, hq1⟩ := hf r p hp hp1
      exact ⟨q, by rw [hx]; exact hq, hq1⟩

theorem update_playlist_order_allPos (recur : Bool) :
    ∀ (d : Nat) (t : Table) (new : Row) (t1 : Table), AllPos t →
      update_playlist_order recur d t new = some t1 → AllPos t1 := by
  intro d
  induction d with
  | zero => intro t new t1 _ h; simp [update_playlist_order] at h
  | succ d ih =>
    intro t new t1 h0 h
    rw [update_playlist_order] at h
    refine execUpdate_allPos _ _ _ ?_ ?_ t t1 h0 h
    · intro r p hp hp1
      exact ⟨p + 1, by simp [sqlSucc, hp], by omega⟩
    · intro acc r t2 hacc hstep
      cases recur with
      | true => exact ih acc r t2 hacc (by simpa using hstep)
      | false => simp at hstep; exact hstep ▸ hacc

theorem hasKey_false {t : Table} {pl m : Nat} (h : hasKey t pl m = false) :
    ∀ r ∈ t, (r.playlist_id == pl && r.media_id == m) = false := by
  intro r hr
  unfold hasKey at h
  rw [List.any_eq_false] at h
  simpa using h r hr

theorem countMedia_append_self (t : Table) (new : Row) :
    countMedia (t ++ [new]) new.playlist_id = countMedia t new.playlist_id + 1 := by
  simp [countMedia, List.filter_append]

/-- The insert of a row with NULL position on a table without its key: the append
trigger writes the count, then `update_playlist_order` runs for the written row. -/
theorem execInsert_null (e : Engine) (t : Table) (pl m : Nat) (h : hasKey t pl m = false) :
    execInsert e t ⟨m, pl, none⟩ =
      match e.trigger_depth with
      | 0 => none
      | d + 1 =>
        update_playlist_order e.recursive_triggers d
          (t ++ [⟨m, pl, some (countMedia t pl + 1)⟩]) ⟨m, pl, some (countMedia t pl + 1)⟩ := by
  unfold execInsert
  simp only [h]
  cases hd : e.trigger_depth with
  | zero => simp [append_new_playlist_record]
  | succ d =>
    simp only [append_new_playlist_record, update_playlist_order_on_insert]
    have hs := execUpdate_single (fun r => r.playlist_id == pl && r.media_id == m)
      (fun _ => some (countMedia t pl + 1))
      (update_playlist_order e.recursive_triggers d) t [] ⟨m, pl, none⟩
      (hasKey_false h) (by simp) (by simp)
    have hc := countMedia_append_self t ⟨m, pl, none⟩
    simp only at hc
    simp [hc, hs]

/-- The insert of a row with a position on a table without its key: only the
shift-on-insert trigger acts. -/
theorem execInsert_pos (e : Engine) (t : Table) (pl m p : Nat) (h : hasKey t pl m = false) :
    execInsert e t ⟨m, pl, some p⟩ =
      match e.trigger_depth with
      | 0 => none
      | d + 1 =>
        execUpdate (shiftWhere ⟨m, pl, some p⟩) (fun r => sqlSucc r.position)
          (update_playlist_order e.recursive_triggers d) (t ++ [⟨m, pl, some p⟩]) := by
  unfold execInsert
  simp only [h]
  cases hd : e.trigger_depth with
  | zero => simp [append_new_playlist_record]
  | succ d => simp [append_new_playlist_record, update_playlist_order_on_insert]

theorem execInsert_allPos (e : Engine) (t t1 : Table) (pl m pos : Nat) (h0 : AllPos t)
    (h : execInsert e t ⟨m, pl, foreignKey pos⟩ = some t1) : AllPos t1 := by
  cases hk : hasKey t pl m with
  | true => simp [execInsert, hk] at h
  | false =>
    by_cases hp : pos = 0
    · subst hp
      have hfk : foreignKey 0 = none := rfl
      rw [hfk, execInsert_null e t pl m hk] at h
      cases hd : e.trigger_depth with
      | zero => simp [hd] at h
      | succ d =>
        simp only [hd] at h
        refine update_playlist_order_allPos _ d _ _ _ ?_ h
        intro r hr
        rcases List.mem_append.mp hr with hr | hr
        · exact h0 r hr
        · simp at hr; subst hr; exact ⟨_, rfl, by omega⟩
    · have hfk : foreignKey pos = some pos := by simp [foreignKey, hp]
      rw [hfk, execInsert_pos e t pl m pos hk] at h
      cases hd : e.trigger_depth with
      | zero => simp [hd] at h
      | succ d =>
        simp only [hd] at h
        refine execUpdate_allPos _ _ _ ?_ ?_ _ _ ?_ h
        · intro r q hq hq1
          exact ⟨q + 1, by simp [sqlSucc, hq], by omega⟩
        · intro acc r t2 hacc hstep
          exact update_playlist_order_allPos _ d _ _ _ hacc hstep
        · intro r hr
          rcases List.mem_append.mp hr with hr | hr
          · exact h0 r hr
          · simp at hr; subst hr; exact ⟨_, rfl, by omega⟩

theorem step_allPos (e : Engine) (pl : Nat) (t : Table) (op : Op) (h0 : AllPos t) :
    AllPos (step e pl t op) := by
  cases op with
  | append m =>
    simp only [step, append, add]
    cases h : execInsert e t ⟨m, pl, foreignKey 0⟩ with
    | none => simpa [commit] using h0
    | some t1 => simpa [commit] using execInsert_allPos e t t1 pl m 0 h0 h
  | add m p =>
    simp only [step, add]
    cases h : execInsert e t ⟨m, pl, foreignKey p⟩ with
    | none => simpa [commit] using h0
    | some t1 => simpa [commit] using execInsert_allPos e t t1 pl m p h0 h
  | move m p =>
    simp only [step, move]
    by_cases hp : p = 0
    · simpa [hp] using h0
    · simp only [hp, if_false]
      cases h : execUpdate (fun r => r.playlist_id == pl && r.media_id == m)
          (fun _ => some p) (update_playlist_order e.recursive_triggers e.trigger_depth) t with
      | none => simpa [commit] using h0
      | some t1 =>
        simp only [commit]
        refine execUpdate_allPos _ _ _ ?_ ?_ _ _ h0 h
        · intro r q _ _
          exact ⟨p, rfl, by omega⟩
        · intro acc r t2 hacc hstep
          exact update_playlist_order_allPos _ _ _ _ _ hacc hstep
  | remove m =>
    simp only [step, remove]
    intro r hr
    exact h0 r (List.mem_of_mem_filter hr)

theorem run_allPos (e : Engine) (pl : Nat) (ops : List Op) :
    ∀ t : Table, AllPos t → AllPos (run e pl t ops) := by
  induction ops with
  | nil => intro t h; simpa [run] using h
  | cons op ops ih =>
    intro t h
    simp only [run, List.foldl_cons]
    exact ih _ (step_allPos e pl t op h)

theorem PrimaryKey.nodup {t : Table} (h : PrimaryKey t) : t.Nodup := List.Nodup.of_map key h

theorem PrimaryKey.inj {t : Table} (h : PrimaryKey t) {a b : Row} (ha : a ∈ t) (hb : b ∈ t)
    (hp : a.playlist_id = b.playlist_id) (hm : a.media_id = b.media_id) : a = b :=
  List.inj_on_of_nodup_map h ha hb (by simp [key, hp, hm])

theorem shiftWhere_iff (m pl p : Nat) (r : Row) :
    shiftWhere ⟨m, pl, some p⟩ r = true ↔
      r.playlist_id = pl ∧ r.position = some p ∧ r.media_id ≠ m := by
  cases hr : r.position with
  | none => simp [shiftWhere, sqlEq, hr]
  | some q => simp [shiftWhere, sqlEq, hr, and_assoc]

theorem shiftRun_empty (pl m lo hi : Nat) (h : hi ≤ lo) (t : Table) :
    shiftRun pl m lo hi t = t := by
  unfold shiftRun
  conv_rhs => rw [← List.map_id t]
  apply List.map_congr_left
  intro r _
  have : inRun pl m lo hi r = false := by
    unfold inRun
    cases hr : r.position with
    | none => simp
    | some q =>
      have : ¬ (lo ≤ q ∧ q < hi) := by omega
      simp
      intro _ _ h1
      omega
  simp [this]

theorem Chain.no_match {pl m p : Nat} {t : Table} (h : Chain pl m p p t) :
    ∀ r ∈ t, shiftWhere ⟨m, pl, some p⟩ r = false := by
  intro r hr
  cases hs : shiftWhere ⟨m, pl, some p⟩ r with
  | false => rfl
  | true =>
    obtain ⟨h1, h2, h3⟩ := (shiftWhere_iff m pl p r).mp hs
    exact absurd h2 (h.free r hr h1 h3)



/-- One visit of the shift: the single entry at `p` moves to `p + 1`, and the rest of
the run is a chain again, now seen from the moved entry. -/
theorem Chain.step {pl m p g : Nat} {t : Table} (h : Chain pl m p g t) (hlt : p < g) :
    ∃ (l1 l2 : Table) (y : Row), t = l1 ++ y :: l2 ∧ y.playlist_id = pl ∧
      (∀ after : Table → Row → Option Table,
        execUpdate (shiftWhere ⟨m, pl, some p⟩) (fun r => sqlSucc r.position) after t
          = after (l1 ++ ⟨y.media_id, pl, some (p + 1)⟩ :: l2) ⟨y.media_id, pl, some (p + 1)⟩) ∧
      Chain pl y.media_id (p + 1) g (l1 ++ ⟨y.media_id, pl, some (p + 1)⟩ :: l2) ∧
      (∀ hi, p + 1 ≤ hi →
        shiftRun pl y.media_id (p + 1) hi (l1 ++ ⟨y.media_id, pl, some (p + 1)⟩ :: l2)
          = shiftRun pl m p hi t) := by
  obtain ⟨y, hy, hypl, hym, hyp⟩ := h.occ p (Nat.le_refl _) hlt
  obtain ⟨l1, l2, rfl⟩ := List.append_of_mem hy
  have hnd := h.keyed.nodup
  have hnd2 := List.nodup_middle.mp hnd
  rw [List.nodup_cons] at hnd2
  have hy1 : y ∉ l1 := fun hc => hnd2.1 (List.mem_append_left _ hc)
  have hy2 : y ∉ l2 := fun hc => hnd2.1 (List.mem_append_right _ hc)
  have hin1 : ∀ r ∈ l1, r ∈ l1 ++ y :: l2 := fun r hr => List.mem_append_left _ hr
  have hin2 : ∀ r ∈ l2, r ∈ l1 ++ y :: l2 :=
    fun r hr => List.mem_append_right _ (List.mem_cons_of_mem _ hr)
  -- rows other than y
  have hother : ∀ r, (r ∈ l1 ∨ r ∈ l2) → r ∈ l1 ++ y :: l2 ∧ r ≠ y := by
    intro r hr
    rcases hr with hr | hr
    · exact ⟨hin1 r hr, fun hc => hy1 (hc ▸ hr)⟩
    · exact ⟨hin2 r hr, fun hc => hy2 (hc ▸ hr)⟩
  have hkey : ∀ r, (r ∈ l1 ∨ r ∈ l2) → r.playlist_id = pl → r.media_id ≠ y.media_id := by
    intro r hr hrpl hrm
    obtain ⟨hrt, hne⟩ := hother r hr
    exact hne (h.keyed.inj hrt hy (by rw [hrpl, hypl]) hrm)
  have hnotp : ∀ r, (r ∈ l1 ∨ r ∈ l2) → r.playlist_id = pl → r.media_id ≠ m →
      r.position ≠ some p := by
    intro r hr hrpl hrm hrp
    obtain ⟨hrt, hne⟩ := hother r hr
    exact hne (h.dist r hrt y hy hrpl hypl hrm hym (by rw [hrp, hyp]))
  have hnm : ∀ r, (r ∈ l1 ∨ r ∈ l2) → shiftWhere ⟨m, pl, some p⟩ r = false := by
    intro r hr
    cases hs : shiftWhere ⟨m, pl, some p⟩ r with
    | false => rfl
    | true =>
      obtain ⟨h1, h2, h3⟩ := (shiftWhere_iff m pl p r).mp hs
      exact absurd h2 (hnotp r hr h1 h3)
  have hmem : ∀ r, r ∈ l1 ++ (⟨y.media_id, pl, some (p + 1)⟩ : Row) :: l2 →
      (r ∈ l1 ∨ r ∈ l2) ∨ r = ⟨y.media_id, pl, some (p + 1)⟩ := by
    intro r hr
    simp only [List.mem_append, List.mem_cons] at hr
    tauto
  refine ⟨l1, l2, y, rfl, hypl, ?_, ?_, ?_⟩
  · intro after
    have hs := execUpdate_single (shiftWhere ⟨m, pl, some p⟩) (fun r => sqlSucc r.position)
      after l1 l2 y (fun r hr => hnm r (Or.inl hr))
      ((shiftWhere_iff m pl p y).mpr ⟨hypl, hyp, hym⟩) (fun r hr => hnm r (Or.inr hr))
    simpa [hyp, sqlSucc, hypl] using hs
  · constructor
    · have : (l1 ++ (⟨y.media_id, pl, some (p + 1)⟩ : Row) :: l2).map key
          = (l1 ++ y :: l2).map key := by
        simp [key, hypl]
      unfold PrimaryKey
      rw [this]
      exact h.keyed
    · intro r hr hrpl hrm
      rcases hmem r hr with hr | hr
      · exact absurd hrm (hkey r hr hrpl)
      · rw [hr]
    · intro a ha b hb hapl hbpl ham hbm hab
      rcases hmem a ha with ha | ha
      · rcases hmem b hb with hb | hb
        · by_cases ha' : a.media_id = m
          · by_cases hb' : b.media_id = m
            · exact h.keyed.inj (hother a ha).1 (hother b hb).1 (by rw [hapl, hbpl])
                (by rw [ha', hb'])
            · have := h.own a (hother a ha).1 hapl ha'
              exact absurd (by rw [← hab, this]) (hnotp b hb hbpl hb')
          · by_cases hb' : b.media_id = m
            · have := h.own b (hother b hb).1 hbpl hb'
              exact absurd (by rw [hab, this]) (hnotp a ha hapl ha')
            · exact h.dist a (hother a ha).1 b (hother b hb).1 hapl hbpl ha' hb' hab
        · exact absurd (by rw [hb]) hbm
      · exact absurd (by rw [ha]) ham
    · omega
    · intro q hq1 hq2
      obtain ⟨r, hr, hrpl, hrm, hrq⟩ := h.occ q (by omega) hq2
      have hry : r ≠ y := by
        intro hc
        rw [hc, hyp] at hrq
        simp at hrq
        omega
      have hr' : r ∈ l1 ∨ r ∈ l2 := by
        simp only [List.mem_append, List.mem_cons] at hr
        tauto
      refine ⟨r, ?_, hrpl, hkey r hr' hrpl, hrq⟩
      simp only [List.mem_append, List.mem_cons]
      tauto
    · intro r hr hrpl hrm
      rcases hmem r hr with hr | hr
      · by_cases hr' : r.media_id = m
        · rw [h.own r (hother r hr).1 hrpl hr']
          simp
          omega
        · exact h.free r (hother r hr).1 hrpl hr'
      · exact absurd (by rw [hr]) hrm
  · intro hi hhi
    unfold shiftRun
    rw [List.map_append, List.map_append, List.map_cons, List.map_cons]
    have hrows : ∀ r, (r ∈ l1 ∨ r ∈ l2) →
        inRun pl y.media_id (p + 1) hi r = inRun pl m p hi r := by
      intro r hr
      by_cases hrpl : r.playlist_id = pl
      · have hk := hkey r hr hrpl
        by_cases hrm : r.media_id = m
        · have := h.own r (hother r hr).1 hrpl hrm
          simp [inRun, hrpl, hrm, this]
        · have hnp := hnotp r hr hrpl hrm
          cases hq : r.position with
          | none => simp [inRun, hq]
          | some q =>
            have hqp : q ≠ p := by
              intro hc
              rw [hq, hc] at hnp
              exact hnp rfl
            have e1 : (p + 1 ≤ q) = (p ≤ q) := by
              apply propext
              constructor <;> intro hh <;> omega
            have b1 : (r.media_id != y.media_id) = true := by simpa using hk
            have b2 : (r.media_id != m) = true := by simpa using hrm
            simp [inRun, hrpl, b1, b2, hq, e1]
      · have b : (r.playlist_id == pl) = false := by simpa using hrpl
        simp [inRun, b]
    have e1 : l1.map (fun r => if inRun pl y.media_id (p + 1) hi r
          then { r with position := sqlSucc r.position } else r)
        = l1.map (fun r => if inRun pl m p hi r
          then { r with position := sqlSucc r.position } else r) := by
      apply List.map_congr_left
      intro r hr
      rw [hrows r (Or.inl hr)]
    have e2 : l2.map (fun r => if inRun pl y.media_id (p + 1) hi r
          then { r with position := sqlSucc r.position } else r)
        = l2.map (fun r => if inRun pl m p hi r
          then { r with position := sqlSucc r.position } else r) := by
      apply List.map_congr_left
      intro r hr
      rw [hrows r (Or.inr hr)]
    rw [e1, e2]
    congr 2
    have hy' : inRun pl m p hi y = true := by
      simp [inRun, hypl, hym, hyp]
      omega
    have hy'' : inRun pl y.media_id (p + 1) hi ⟨y.media_id, pl, some (p + 1)⟩ = false := by
      simp [inRun]
    rw [if_pos hy', if_neg (by simp [hy''])]
    simp [hyp, sqlSucc, hypl]

/-- A shift statement whose row trigger does nothing moves the entry at `p` only. -/
theorem Chain.shift_once {pl m p g : Nat} {t : Table} (h : Chain pl m p g t) :
    execUpdate (shiftWhere ⟨m, pl, some p⟩) (fun r => sqlSucc r.position)
      (fun t1 _ => some t1) t = some (shiftRun pl m p (min g (p + 1)) t) := by
  rcases Nat.eq_or_lt_of_le h.le with hg | hg
  · subst hg
    rw [execUpdate_no_match _ _ _ _ h.no_match, shiftRun_empty pl m p _ (by omega)]
  · obtain ⟨l1, l2, y, _, _, hexec, _, hrun⟩ := h.step hg
    rw [hexec, ← hrun (min g (p + 1)) (by omega), shiftRun_empty _ _ _ _ (by omega)]

/-- With recursive triggers on, the shift runs through the whole chain, one trigger
program per moved entry, and fails when the nesting allowed is too small. -/
theorem Chain.shift_rec {pl : Nat} :
    ∀ (n d : Nat) (t : Table) (m p : Nat), Chain pl m p (p + n) t →
      execUpdate (shiftWhere ⟨m, pl, some p⟩) (fun r => sqlSucc r.position)
        (update_playlist_order true d) t
        = if n ≤ d then some (shiftRun pl m p (p + n) t) else none := by
  intro n
  induction n with
  | zero =>
    intro d t m p h
    rw [execUpdate_no_match _ _ _ _ h.no_match, shiftRun_empty pl m p _ (by omega)]
    simp
  | succ n ih =>
    intro d t m p h
    obtain ⟨l1, l2, y, _, _, hexec, hchain, hrun⟩ := h.step (by omega)
    rw [hexec]
    cases d with
    | zero => simp [update_playlist_order]
    | succ d =>
      have e : p + (n + 1) = p + 1 + n := by omega
      rw [e] at hchain
      rw [e]
      rw [update_playlist_order]
      simp only [if_true]
      rw [ih d _ _ _ hchain, hrun (p + 1 + n) (by omega)]
      simp

/-- With recursive triggers off, a shift statement whose row trigger is
`update_playlist_order` moves the entry at `p` and then the entry at `p + 1`. -/
theorem Chain.shift_twice {pl m p g : Nat} {t : Table} (h : Chain pl m p g t) (d : Nat) :
    execUpdate (shiftWhere ⟨m, pl, some p⟩) (fun r => sqlSucc r.position)
      (update_playlist_order false d) t
      = if g = p then some t else if d = 0 then none
        else some (shiftRun pl m p (min g (p + 2)) t) := by
  rcases Nat.eq_or_lt_of_le h.le with hg | hg
  · subst hg
    rw [execUpdate_no_match _ _ _ _ h.no_match]
    simp
  · obtain ⟨l1, l2, y, _, _, hexec, hchain, hrun⟩ := h.step hg
    rw [hexec]
    have hne : g ≠ p := by omega
    cases d with
    | zero => simp [update_playlist_order, hne]
    | succ d =>
      rw [update_playlist_order]
      simp only [Bool.false_eq_true, if_false]
      rw [hchain.shift_once, ← hrun (min g (p + 2)) (by omega)]
      have e : min g (p + 1 + 1) = min g (p + 2) := rfl
      simp [hne, e]

/-- The trigger `update_playlist_order`, fired for media `m` written at `p`. -/
theorem Chain.update_playlist_order_eq {pl m p g : Nat} {t : Table} (h : Chain pl m p g t)
    (recur : Bool) (d : Nat) (hd : g - p < d) :
    update_playlist_order recur d t ⟨m, pl, some p⟩
      = some (shiftRun pl m p (shiftEnd recur 1 p g) t) := by
  cases d with
  | zero => omega
  | succ d =>
    rw [update_playlist_order]
    cases recur with
    | true =>
      simp only [if_true]
      obtain ⟨n, rfl⟩ := Nat.exists_eq_add_of_le h.le
      rw [Chain.shift_rec n d t m p h]
      have : n ≤ d := by omega
      simp [this, shiftEnd]
    | false =>
      simp only [Bool.false_eq_true, if_false]
      rw [h.shift_once]
      simp [shiftEnd]

/-- The shift statement of `update_playlist_order_on_insert` for media `m` inserted at
`p`, with `d` nesting levels left for `update_playlist_order`. -/
theorem Chain.insert_shift_eq {pl m p g : Nat} {t : Table} (h : Chain pl m p g t)
    (recur : Bool) (d : Nat) (hd : g - p ≤ d) :
    execUpdate (shiftWhere ⟨m, pl, some p⟩) (fun r => sqlSucc r.position)
      (update_playlist_order recur d) t
      = some (shiftRun pl m p (shiftEnd recur 2 p g) t) := by
  cases recur with
  | true =>
    obtain ⟨n, rfl⟩ := Nat.exists_eq_add_of_le h.le
    rw [Chain.shift_rec n d t m p h]
    have : n ≤ d := by omega
    simp [this, shiftEnd]
  | false =>
    rw [h.shift_twice]
    by_cases hg : g = p
    · subst hg
      simp [shiftEnd, shiftRun_empty]
    · have : d ≠ 0 := by
        have := h.le
        omega
      simp [hg, this, shiftEnd]

end PlaylistModel

/-! ## Claims on `Playlist::append`, `add`, `move` -/

namespace PlaylistModel

open Playlist

theorem no_shift_of_free {t : Table} {pl m c : Nat}
    (hfree : ∀ r ∈ t, r.playlist_id = pl → r.position ≠ some c) :
    ∀ r ∈ t ++ [(⟨m, pl, some c⟩ : Row)], shiftWhere ⟨m, pl, some c⟩ r = false := by
  intro r hr
  cases hs : shiftWhere ⟨m, pl, some c⟩ r with
  | false => rfl
  | true =>
    obtain ⟨h1, h2, h3⟩ := (shiftWhere_iff m pl c r).mp hs
    rcases List.mem_append.mp hr with hr | hr
    · exact absurd h2 (hfree r hr h1)
    · simp at hr
      rw [hr] at h3
      exact absurd rfl h3

theorem update_playlist_order_no_match (recur : Bool) (d : Nat) (t : Table) (new : Row)
    (h : ∀ r ∈ t, shiftWhere new r = false) :
    update_playlist_order recur (d + 1) t new = some t := by
  rw [update_playlist_order, execUpdate_no_match _ _ _ _ h]

theorem append_free (e : Engine) (t : Table) (pl m : Nat) (hm : hasKey t pl m = false)
    (hfree : ∀ r ∈ t, r.playlist_id = pl → r.position ≠ some (countMedia t pl + 1))
    (hd : 2 ≤ e.trigger_depth) :
    Playlist.append e t pl m = (true, t ++ [⟨m, pl, some (countMedia t pl + 1)⟩]) := by
  obtain ⟨d, hd'⟩ := Nat.exists_eq_add_of_le hd
  have hd2 : e.trigger_depth = (d + 1) + 1 := by omega
  unfold Playlist.append Playlist.add
  have hfk : foreignKey 0 = none := rfl
  rw [hfk, execInsert_null e t pl m hm, hd2]
  simp only
  rw [update_playlist_order_no_match _ _ _ _ (no_shift_of_free hfree)]
  rfl

theorem add_free (e : Engine) (t : Table) (pl m p : Nat) (hm : hasKey t pl m = false)
    (hp : 1 ≤ p) (hfree : ∀ r ∈ t, r.playlist_id = pl → r.position ≠ some p)
    (hd : 1 ≤ e.trigger_depth) :
    Playlist.add e t pl m p = (true, t ++ [⟨m, pl, some p⟩]) := by
  obtain ⟨d, hd'⟩ := Nat.exists_eq_add_of_le hd
  have hd2 : e.trigger_depth = d + 1 := by omega
  unfold Playlist.add
  have hfk : foreignKey p = some p := by
    unfold foreignKey
    rw [if_neg (by omega)]
  rw [hfk, execInsert_pos e t pl m p hm, hd2]
  simp only
  rw [execUpdate_no_match _ _ _ _ (no_shift_of_free hfree)]
  rfl

end PlaylistModel

namespace Playlist

open PlaylistModel

/-- C6: `move(mediaId, 0)` is rejected on every table: it returns false and the table
`PlaylistMediaRelation` is left as it was. -/
theorem move_zero_rejected (e : Engine) (t : Table) (pl mediaId : Nat) :
    move e t pl mediaId 0 = (false, t) := by
  simp [move]

/-- C3 (counterexample): a playlist holding one entry at position 2 (reached by
append 1, append 2, remove 1); appending media 3 gives it position 2 and pushes the
existing entry from 2 to 3, with recursive triggers on or off. -/
theorem append_moves_other_entry :
    run ⟨true, 1000⟩ 7 [] [Op.append 1, Op.append 2, Op.remove 1] = [⟨2, 7, some 2⟩] ∧
    append ⟨true, 1000⟩ [⟨2, 7, some 2⟩] 7 3 = (true, [⟨2, 7, some 3⟩, ⟨3, 7, some 2⟩]) ∧
    run ⟨false, 1000⟩ 7 [] [Op.append 1, Op.append 2, Op.remove 1] = [⟨2, 7, some 2⟩] ∧
    append ⟨false, 1000⟩ [⟨2, 7, some 2⟩] 7 3 = (true, [⟨2, 7, some 3⟩, ⟨3, 7, some 2⟩]) := by
  decide

/-- C3 (amended): for a playlist holding N entries none of which has position N+1, and a
media not yet in it, `append` returns true, inserts the media with position N+1 and
leaves every other row as it was (two levels of trigger nesting are needed). -/
theorem append_at_count (e : Engine) (t : Table) (pl mediaId : Nat)
    (hnew : hasKey t pl mediaId = false)
    (hfree : ∀ r ∈ t, r.playlist_id = pl → r.position ≠ some (countMedia t pl + 1))
    (hdepth : 2 ≤ e.trigger_depth) :
    append e t pl mediaId = (true, t ++ [⟨mediaId, pl, some (countMedia t pl + 1)⟩]) :=
  append_free e t pl mediaId hnew hfree hdepth

/-- C3 (witness): `append` on an empty playlist yields position 1. -/
theorem append_at_count_witness :
    hasKey [] 7 1 = false ∧ 2 ≤ (⟨true, 1000⟩ : Engine).trigger_depth ∧
    append ⟨true, 1000⟩ [] 7 1 = (true, [⟨1, 7, some 1⟩]) :=
  ⟨by decide, by decide,
    append_at_count ⟨true, 1000⟩ [] 7 1 (by decide) (by simp) (by decide)⟩

end Playlist

namespace Playlist

open PlaylistModel

/-- C2 (counterexample): with recursive triggers on, the sequence append 1, append 2,
append 3, move(3,1), move(1,3) leaves the media order [3, 1, 2] with positions
1, 3, 4, not the order [3, 2, 1] with positions 1, 2, 3. -/
theorem scenario_order_recursive :
    media (fun _ => true)
        (run ⟨true, 1000⟩ 7 []
          [Op.append 1, Op.append 2, Op.append 3, Op.move 3 1, Op.move 1 3]) 7 ≠ [3, 2, 1] ∧
    run ⟨true, 1000⟩ 7 [] [Op.append 1, Op.append 2, Op.append 3, Op.move 3 1, Op.move 1 3]
      = [⟨1, 7, some 3⟩, ⟨2, 7, some 4⟩, ⟨3, 7, some 1⟩] := by
  decide

/-- C2 (amended): from an empty table and three distinct present media, the sequence
append m1, append m2, append m3, move(m3,1), move(m1,3) leaves, with recursive triggers
off, the media order [m3, m2, m1] with positions 1, 2, 3, and with recursive triggers on
the media order [m3, m1, m2] with positions 1, 3, 4 (three levels of trigger nesting
are needed). -/
theorem scenario_final_state (e : Engine) (present : Nat → Bool) (pl m1 m2 m3 : Nat)
    (h12 : m1 ≠ m2) (h13 : m1 ≠ m3) (h23 : m2 ≠ m3)
    (hp1 : present m1 = true) (hp2 : present m2 = true) (hp3 : present m3 = true)
    (hdepth : 3 ≤ e.trigger_depth) :
    run e pl [] [Op.append m1, Op.append m2, Op.append m3, Op.move m3 1, Op.move m1 3]
      = (if e.recursive_triggers
          then [⟨m1, pl, some 3⟩, ⟨m2, pl, some 4⟩, ⟨m3, pl, some 1⟩]
          else [⟨m1, pl, some 3⟩, ⟨m2, pl, some 2⟩, ⟨m3, pl, some 1⟩]) ∧
    media present
        (run e pl [] [Op.append m1, Op.append m2, Op.append m3, Op.move m3 1, Op.move m1 3]) pl
      = (if e.recursive_triggers then [m3, m1, m2] else [m3, m2, m1]) := by
  obtain ⟨recur, depth⟩ := e
  obtain ⟨d, hd⟩ := Nat.exists_eq_add_of_le hdepth
  simp only at hd
  have hd3 : depth = d + 3 := by omega
  subst hd3
  have h21 := h12.symm
  have h31 := h13.symm
  have h32 := h23.symm
  cases recur with
  | true =>
    have hrun : run ⟨true, d + 3⟩ pl []
        [Op.append m1, Op.append m2, Op.append m3, Op.move m3 1, Op.move m1 3]
        = [⟨m1, pl, some 3⟩, ⟨m2, pl, some 4⟩, ⟨m3, pl, some 1⟩] := by
      simp [run, step, append, add, move, execInsert, hasKey, commit, foreignKey,
        append_new_playlist_record, update_playlist_order_on_insert, update_playlist_order,
        execUpdate, rowids, shiftWhere, sqlEq, sqlSucc, countMedia,
        h12, h13, h23, h21, h31, h32]
    rw [hrun]
    simp [media, mediaRows, posLe, hp1, hp2, hp3]
  | false =>
    have hrun : run ⟨false, d + 3⟩ pl []
        [Op.append m1, Op.append m2, Op.append m3, Op.move m3 1, Op.move m1 3]
        = [⟨m1, pl, some 3⟩, ⟨m2, pl, some 2⟩, ⟨m3, pl, some 1⟩] := by
      simp [run, step, append, add, move, execInsert, hasKey, commit, foreignKey,
        append_new_playlist_record, update_playlist_order_on_insert, update_playlist_order,
        execUpdate, rowids, shiftWhere, sqlEq, sqlSucc, countMedia,
        h12, h13, h23, h21, h31, h32]
    rw [hrun]
    simp [media, mediaRows, posLe, hp1, hp2, hp3]

/-- C2 (witness): the scenario with media 1, 2, 3 on playlist 7, recursive triggers off. -/
theorem scenario_final_state_witness :
    media (fun _ => true)
        (run ⟨false, 1000⟩ 7 []
          [Op.append 1, Op.append 2, Op.append 3, Op.move 3 1, Op.move 1 3]) 7 = [3, 2, 1] :=
  (scenario_final_state ⟨false, 1000⟩ (fun _ => true) 7 1 2 3 (by decide) (by decide)
    (by decide) rfl rfl rfl (by decide)).2

end Playlist

namespace PlaylistModel

open Playlist

theorem countMedia_of_perm {t : Table} {pl N : Nat}
    (h : (positions t pl).Perm ((List.range' 1 N).map some)) : countMedia t pl = N := by
  have := h.length_eq
  simpa [positions, countMedia] using this

theorem free_of_perm {t : Table} {pl N : Nat}
    (h : (positions t pl).Perm ((List.range' 1 N).map some)) :
    ∀ r ∈ t, r.playlist_id = pl → r.position ≠ some (N + 1) := by
  intro r hr hpl hpos
  have hmem : r.position ∈ positions t pl := by
    unfold positions
    exact List.mem_map_of_mem _ (List.mem_filter.mpr ⟨hr, by simpa using hpl⟩)
  have := h.subset hmem
  rw [hpos] at this
  simp [List.mem_range'] at this
  omega

end PlaylistModel

namespace Playlist

open PlaylistModel

/-- C7: for every table, playlist and media id, `append(mediaId)` is
`add(mediaId, 0)`, and `add(mediaId, position)` is the INSERT of the row whose position
is bound through `ForeignKey`: 0 is bound as NULL, any other value as itself. For the
NULL row the shift-on-insert trigger does nothing and for a row with a position the
auto-append trigger does nothing, so the insert of `add(mediaId, 0)` is the insert of
the NULL row followed by the auto-append trigger alone, which writes the number of
entries of the playlist (the new one counted) as position. Hence `add(mediaId, 0)`
fails and leaves the table as it was when the media is in the playlist already, and,
when it is not and no entry of the playlist holds the position count + 1 (two levels of
trigger nesting allowed), it succeeds and puts the row of the media with that position
after the rows of the table. No table reached from the empty one by playlist
operations has a row with position 0 or NULL. -/
theorem append_is_add_null (e : Engine) (t : Table) (pl mediaId : Nat) (d : Nat)
    (ops : List Op) :
    append e t pl mediaId = add e t pl mediaId 0 ∧
    (∀ position, add e t pl mediaId position
      = commit t (execInsert e t ⟨mediaId, pl, foreignKey position⟩)) ∧
    foreignKey 0 = none ∧
    (∀ p, 1 ≤ p → foreignKey p = some p) ∧
    update_playlist_order_on_insert e.recursive_triggers (d + 1) t ⟨mediaId, pl, none⟩
      = some t ∧
    (∀ p, append_new_playlist_record e.recursive_triggers (d + 1) t ⟨mediaId, pl, some p⟩
      = some t) ∧
    execInsert e t ⟨mediaId, pl, foreignKey 0⟩
      = (if hasKey t pl mediaId then none
         else append_new_playlist_record e.recursive_triggers e.trigger_depth
           (t ++ [⟨mediaId, pl, none⟩]) ⟨mediaId, pl, none⟩) ∧
    (hasKey t pl mediaId = false →
      add e t pl mediaId 0 = commit t
        (match e.trigger_depth with
         | 0 => none
         | d1 + 1 =>
           update_playlist_order e.recursive_triggers d1
             (t ++ [⟨mediaId, pl, some (countMedia t pl + 1)⟩])
             ⟨mediaId, pl, some (countMedia t pl + 1)⟩)) ∧
    (hasKey t pl mediaId = false →
      (∀ r ∈ t, r.playlist_id = pl → r.position ≠ some (countMedia t pl + 1)) →
      2 ≤ e.trigger_depth →
      add e t pl mediaId 0 = (true, t ++ [⟨mediaId, pl, some (countMedia t pl + 1)⟩]) ∧
      append e t pl mediaId = (true, t ++ [⟨mediaId, pl, some (countMedia t pl + 1)⟩])) ∧
    (hasKey t pl mediaId = true →
      add e t pl mediaId 0 = (false, t) ∧ append e t pl mediaId = (false, t)) ∧
    (∀ r ∈ run e pl [] ops, r.position ≠ some 0 ∧ r.position ≠ none) := by
  have hfk : foreignKey 0 = none := rfl
  refine ⟨rfl, fun _ => rfl, rfl, ?_, by simp [update_playlist_order_on_insert],
    by simp [append_new_playlist_record], ?_, ?_, ?_, ?_, ?_⟩
  · intro p hp
    unfold foreignKey
    rw [if_neg (by omega)]
  · rw [hfk]
    unfold execInsert
    cases hk : hasKey t pl mediaId with
    | true => simp
    | false =>
      simp only [Bool.false_eq_true, if_false]
      cases hd : e.trigger_depth with
      | zero => simp [append_new_playlist_record]
      | succ d1 =>
        cases happ : append_new_playlist_record e.recursive_triggers (d1 + 1)
            (t ++ [⟨mediaId, pl, none⟩]) ⟨mediaId, pl, none⟩ with
        | none => simp
        | some t1 => simp [update_playlist_order_on_insert]
  · intro hk
    unfold add
    rw [hfk, execInsert_null e t pl mediaId hk]
  · intro hk hfree hdepth
    have h := append_free e t pl mediaId hk hfree hdepth
    exact ⟨h, h⟩
  · intro hk
    have h : add e t pl mediaId 0 = (false, t) := by
      unfold add execInsert
      rw [hfk]
      simp only [hk, if_true]
      rfl
    exact ⟨h, h⟩
  · intro r hr
    have hall : AllPos (run e pl [] ops) := run_allPos e pl ops [] (by intro x hx; simp at hx)
    obtain ⟨p, hp, hp1⟩ := hall r hr
    rw [hp]
    constructor
    · intro hc
      simp at hc
      omega
    · simp

/-- C7 (witness): `add(3, 0)` and `append(3)` on a playlist with the positions 1, 2 put
media 3 at position 3; `add(2, 0)` of a media that is in the playlist fails. -/
theorem append_is_add_null_witness :
    (add ⟨true, 1000⟩ [⟨1, 7, some 1⟩, ⟨2, 7, some 2⟩] 7 3 0
        = (true, [⟨1, 7, some 1⟩, ⟨2, 7, some 2⟩] ++
            [⟨3, 7, some (countMedia [⟨1, 7, some 1⟩, ⟨2, 7, some 2⟩] 7 + 1)⟩]) ∧
      append ⟨true, 1000⟩ [⟨1, 7, some 1⟩, ⟨2, 7, some 2⟩] 7 3
        = (true, [⟨1, 7, some 1⟩, ⟨2, 7, some 2⟩] ++
            [⟨3, 7, some (countMedia [⟨1, 7, some 1⟩, ⟨2, 7, some 2⟩] 7 + 1)⟩])) ∧
    countMedia [⟨1, 7, some 1⟩, ⟨2, 7, some 2⟩] 7 + 1 = 3 :=
  ⟨(append_is_add_null ⟨true, 1000⟩ [⟨1, 7, some 1⟩, ⟨2, 7, some 2⟩] 7 3 0 []).2.2.2.2.2.2.2.2.1
      (by decide) (by decide) (by decide),
   by decide⟩

/-- C9: on a playlist holding N entries whose positions are 1..N, `add(m, N+1)` of a
media not yet in it gives the same result and the same table as `append(m)`: the row
of `m` with position N+1 is put after the rows of the table, which stay as they were
(two levels of trigger nesting are needed). -/
theorem add_at_end_eq_append (e : Engine) (t : Table) (pl mediaId N : Nat)
    (hnew : hasKey t pl mediaId = false)
    (hdense : (positions t pl).Perm ((List.range' 1 N).map some))
    (hdepth : 2 ≤ e.trigger_depth) :
    add e t pl mediaId (N + 1) = append e t pl mediaId ∧
    append e t pl mediaId = (true, t ++ [⟨mediaId, pl, some (N + 1)⟩]) := by
  have hc := countMedia_of_perm hdense
  have hfree := free_of_perm hdense
  have happ := append_free e t pl mediaId hnew (by rw [hc]; exact hfree) hdepth
  rw [hc] at happ
  have hadd := add_free e t pl mediaId (N + 1) hnew (by omega) hfree (by omega)
  exact ⟨by rw [hadd, happ], happ⟩

/-- C9 (witness): a playlist with positions 1, 2 and a third media. -/
theorem add_at_end_eq_append_witness :
    add ⟨true, 1000⟩ [⟨1, 7, some 1⟩, ⟨2, 7, some 2⟩] 7 3 (2 + 1)
      = append ⟨true, 1000⟩ [⟨1, 7, some 1⟩, ⟨2, 7, some 2⟩] 7 3 ∧
    append ⟨true, 1000⟩ [⟨1, 7, some 1⟩, ⟨2, 7, some 2⟩] 7 3
      = (true, [⟨1, 7, some 1⟩, ⟨2, 7, some 2⟩] ++ [⟨3, 7, some (2 + 1)⟩]) :=
  add_at_end_eq_append ⟨true, 1000⟩ [⟨1, 7, some 1⟩, ⟨2, 7, some 2⟩] 7 3 2 (by decide)
    (by decide) (by decide)

/-- C8 (counterexample): on the two-entry playlist with media 1 at position 1 and
media 2 at position 2, `move(1, 1)` swaps nothing: both entries keep their position,
with recursive triggers on or off. -/
theorem move_first_to_first_keeps :
    move ⟨true, 1000⟩ [⟨1, 7, some 1⟩, ⟨2, 7, some 2⟩] 7 1 1
      = (true, [⟨1, 7, some 1⟩, ⟨2, 7, some 2⟩]) ∧
    move ⟨false, 1000⟩ [⟨1, 7, some 1⟩, ⟨2, 7, some 2⟩] 7 1 1
      = (true, [⟨1, 7, some 1⟩, ⟨2, 7, some 2⟩]) := by
  decide

/-- C8 (amended): on a playlist with exactly two entries, `a` at position 1 and `b` at
position 2 (in either rowid order), `move(b, 1)` swaps the two positions, and
`move(a, 1)`, for the entry that is already first, changes nothing (two levels of
trigger nesting suffice). -/
theorem move_second_to_first_swaps (e : Engine) (pl a b : Nat) (hab : a ≠ b)
    (hdepth : 2 ≤ e.trigger_depth) :
    move e [⟨a, pl, some 1⟩, ⟨b, pl, some 2⟩] pl b 1
      = (true, [⟨a, pl, some 2⟩, ⟨b, pl, some 1⟩]) ∧
    move e [⟨b, pl, some 2⟩, ⟨a, pl, some 1⟩] pl b 1
      = (true, [⟨b, pl, some 1⟩, ⟨a, pl, some 2⟩]) ∧
    move e [⟨a, pl, some 1⟩, ⟨b, pl, some 2⟩] pl a 1
      = (true, [⟨a, pl, some 1⟩, ⟨b, pl, some 2⟩]) ∧
    move e [⟨b, pl, some 2⟩, ⟨a, pl, some 1⟩] pl a 1
      = (true, [⟨b, pl, some 2⟩, ⟨a, pl, some 1⟩]) := by
  obtain ⟨recur, depth⟩ := e
  obtain ⟨d, hd⟩ := Nat.exists_eq_add_of_le hdepth
  simp only at hd
  have hd2 : depth = d + 2 := by omega
  subst hd2
  have hba := hab.symm
  cases recur <;>
    simp [move, commit, update_playlist_order, execUpdate, rowids, shiftWhere, sqlEq,
      sqlSucc, hab, hba]

/-- C8 (witness): media 1 and 2 on playlist 7; moving the second entry to position 1. -/
theorem move_second_to_first_swaps_witness :
    move ⟨true, 1000⟩ [⟨1, 7, some 1⟩, ⟨2, 7, some 2⟩] 7 2 1
      = (true, [⟨1, 7, some 2⟩, ⟨2, 7, some 1⟩]) :=
  (move_second_to_first_swaps ⟨true, 1000⟩ 7 1 2 (by decide) (by decide)).1

end Playlist

namespace PlaylistModel

open Playlist

theorem hasKey_true {t : Table} {pl m : Nat} (h : hasKey t pl m = true) :
    ∃ r ∈ t, r.playlist_id = pl ∧ r.media_id = m := by
  unfold hasKey at h
  rw [List.any_eq_true] at h
  obtain ⟨r, hr, hk⟩ := h
  exact ⟨r, hr, by simpa using hk⟩

theorem shiftRun_append_own (pl m lo hi p : Nat) (t : Table) :
    shiftRun pl m lo hi (t ++ [⟨m, pl, p⟩]) = shiftRun pl m lo hi t ++ [⟨m, pl, p⟩] := by
  simp [shiftRun, inRun]

/-- The table after the insert of media `m` at `p`, before the triggers run, is a chain. -/
theorem Chain.of_insert {t : Table} {pl m p g : Nat} (hkey : PrimaryKey t)
    (hdist : DistinctPositions t) (hm : hasKey t pl m = false) (hpg : p ≤ g)
    (hocc : ∀ q, p ≤ q → q < g → ∃ r ∈ t, r.playlist_id = pl ∧ r.position = some q)
    (hfree : ∀ r ∈ t, r.playlist_id = pl → r.position ≠ some g) :
    Chain pl m p g (t ++ [⟨m, pl, some p⟩]) := by
  have hk := hasKey_false hm
  have hnm : ∀ r ∈ t, r.playlist_id = pl → r.media_id ≠ m := by
    intro r hr hpl hmm
    have := hk r hr
    simp [hpl, hmm] at this
  have hmem : ∀ r, r ∈ t ++ [(⟨m, pl, some p⟩ : Row)] → r ∈ t ∨ r = ⟨m, pl, some p⟩ := by
    intro r hr
    simpa using hr
  constructor
  · unfold PrimaryKey
    rw [List.map_append, List.nodup_append]
    refine ⟨hkey, by simp, ?_⟩
    intro k hk1 hk2
    simp at hk2
    obtain ⟨r, hr, hrk⟩ := List.mem_map.mp hk1
    rw [hk2] at hrk
    simp [key] at hrk
    exact hnm r hr hrk.1 hrk.2
  · intro r hr hpl hmm
    rcases hmem r hr with hr | hr
    · exact absurd hmm (hnm r hr hpl)
    · rw [hr]
  · intro a ha b hb hapl hbpl ham hbm hab
    rcases hmem a ha with ha | ha
    · rcases hmem b hb with hb | hb
      · exact hdist a ha b hb (by rw [hapl, hbpl]) hab
      · exact absurd (by rw [hb]) hbm
    · exact absurd (by rw [ha]) ham
  · exact hpg
  · intro q hq1 hq2
    obtain ⟨r, hr, hrpl, hrq⟩ := hocc q hq1 hq2
    exact ⟨r, List.mem_append_left _ hr, hrpl, hnm r hr hrpl, hrq⟩
  · intro r hr hpl hmm
    rcases hmem r hr with hr | hr
    · exact hfree r hr hpl
    · exact absurd (by rw [hr]) hmm

theorem add_chain (e : Engine) (t : Table) (pl m p g : Nat)
    (hkey : PrimaryKey t) (hdist : DistinctPositions t) (hm : hasKey t pl m = false)
    (hp : 1 ≤ p) (hpg : p ≤ g)
    (hocc : ∀ q, p ≤ q → q < g → ∃ r ∈ t, r.playlist_id = pl ∧ r.position = some q)
    (hfree : ∀ r ∈ t, r.playlist_id = pl → r.position ≠ some g)
    (hd : g - p < e.trigger_depth) :
    Playlist.add e t pl m p
      = (true, shiftRun pl m p (shiftEnd e.recursive_triggers 2 p g) t ++ [⟨m, pl, some p⟩]) := by
  have hchain := Chain.of_insert hkey hdist hm hpg hocc hfree
  obtain ⟨d, hd2⟩ : ∃ d, e.trigger_depth = d + 1 := ⟨e.trigger_depth - 1, by omega⟩
  unfold Playlist.add
  have hfk : foreignKey p = some p := by
    unfold foreignKey
    rw [if_neg (by omega)]
  rw [hfk, execInsert_pos e t pl m p hm, hd2]
  simp only
  rw [hchain.insert_shift_eq e.recursive_triggers d (by omega), shiftRun_append_own]
  rfl

end PlaylistModel

namespace Playlist

open PlaylistModel

/-- C4 (counterexample): on the playlist with media 1 at position 1 and media 2 at
position 3 (reached by append 1, add(2, 3)), `add(3, 1)` shifts media 1 to 2 and leaves
media 2 at position 3 although 3 ≥ 1, with recursive triggers on or off. -/
theorem add_stops_at_gap :
    run ⟨true, 1000⟩ 7 [] [Op.append 1, Op.add 2 3] = [⟨1, 7, some 1⟩, ⟨2, 7, some 3⟩] ∧
    add ⟨true, 1000⟩ [⟨1, 7, some 1⟩, ⟨2, 7, some 3⟩] 7 3 1
      = (true, [⟨1, 7, some 2⟩, ⟨2, 7, some 3⟩, ⟨3, 7, some 1⟩]) ∧
    run ⟨false, 1000⟩ 7 [] [Op.append 1, Op.add 2 3] = [⟨1, 7, some 1⟩, ⟨2, 7, some 3⟩] ∧
    add ⟨false, 1000⟩ [⟨1, 7, some 1⟩, ⟨2, 7, some 3⟩] 7 3 1
      = (true, [⟨1, 7, some 2⟩, ⟨2, 7, some 3⟩, ⟨3, 7, some 1⟩]) := by
  decide

/-- C4 (amended): let the table respect its primary key and hold no two entries of a
playlist at one position, let `m` be a media not in playlist `pl`, `P ≥ 1`, and let `g`
be the first position at or above `P` that no entry of `pl` holds.  Then `add(m, P)`
returns true and puts `m` at position `P`; the entries of `pl` at the positions
`P .. g - 1` move up by one when recursive triggers are on, only those at `P` and
`P + 1` when they are off; every other row stays as it was, in particular the entries
below `P` and those above `g` (the nesting allowed must exceed `g - P`). -/
theorem add_shifts_run (e : Engine) (t : Table) (pl m P g : Nat)
    (hkey : PrimaryKey t) (hdist : DistinctPositions t) (hnew : hasKey t pl m = false)
    (hP : 1 ≤ P) (hPg : P ≤ g)
    (hocc : ∀ q, P ≤ q → q < g → ∃ r ∈ t, r.playlist_id = pl ∧ r.position = some q)
    (hfree : ∀ r ∈ t, r.playlist_id = pl → r.position ≠ some g)
    (hdepth : g - P < e.trigger_depth) :
    add e t pl m P
      = (true,
          shiftRun pl m P (shiftEnd e.recursive_triggers 2 P g) t ++ [⟨m, pl, some P⟩]) :=
  add_chain e t pl m P g hkey hdist hnew hP hPg hocc hfree hdepth

end Playlist

namespace Playlist

open PlaylistModel

/-- C4 (witness): playlist 7 with entries at 1, 2 and 4; media 9 added at position 1
shifts the entries at 1 and 2 and leaves the entry at 4. -/
theorem add_shifts_run_witness :
    add ⟨true, 1000⟩ [⟨1, 7, some 1⟩, ⟨2, 7, some 2⟩, ⟨3, 7, some 4⟩] 7 9 1
      = (true, [⟨1, 7, some 2⟩, ⟨2, 7, some 3⟩, ⟨3, 7, some 4⟩, ⟨9, 7, some 1⟩]) :=
  (add_shifts_run ⟨true, 1000⟩ [⟨1, 7, some 1⟩, ⟨2, 7, some 2⟩, ⟨3, 7, some 4⟩] 7 9 1 3
    (by decide) (by decide) (by decide) (by decide) (by decide)
    (by intro q h1 h2; interval_cases q <;> simp) (by decide) (by decide)).trans (by decide)

end Playlist

namespace PlaylistModel

open Playlist

/-- The UPDATE of `Playlist::move` on a table that holds the entry: the entry is
written and the row trigger runs once, for it. -/
theorem move_update {t : Table} {pl m : Nat} (hkey : PrimaryKey t)
    (hm : hasKey t pl m = true) (p : Nat) (after : Table → Row → Option Table) :
    execUpdate (fun r => r.playlist_id == pl && r.media_id == m) (fun _ => some p) after t
      = after (setPosition pl m p t) ⟨m, pl, some p⟩ := by
  obtain ⟨y, hy, hypl, hym⟩ := hasKey_true hm
  obtain ⟨l1, l2, rfl⟩ := List.append_of_mem hy
  have hnd2 := List.nodup_middle.mp hkey.nodup
  rw [List.nodup_cons] at hnd2
  have hoth : ∀ r, (r ∈ l1 ∨ r ∈ l2) →
      (r.playlist_id == pl && r.media_id == m) = false := by
    intro r hr
    cases hc : (r.playlist_id == pl && r.media_id == m) with
    | false => rfl
    | true =>
      simp at hc
      have hrt : r ∈ l1 ++ y :: l2 := by
        simp only [List.mem_append, List.mem_cons]
        tauto
      have : r = y := hkey.inj hrt hy (by rw [hc.1, hypl]) (by rw [hc.2, hym])
      rw [this] at hr
      exact absurd (List.mem_append.mpr hr) hnd2.1
  have hs := execUpdate_single (fun r => r.playlist_id == pl && r.media_id == m)
    (fun _ => some p) after l1 l2 y (fun r hr => hoth r (Or.inl hr))
    (by simp [hypl, hym]) (fun r hr => hoth r (Or.inr hr))
  rw [hs]
  have e1 : setPosition pl m p l1 = l1 := by
    unfold setPosition
    conv_rhs => rw [← List.map_id l1]
    apply List.map_congr_left
    intro r hr
    simp [hoth r (Or.inl hr)]
  have e2 : setPosition pl m p l2 = l2 := by
    unfold setPosition
    conv_rhs => rw [← List.map_id l2]
    apply List.map_congr_left
    intro r hr
    simp [hoth r (Or.inr hr)]
  have e3 : setPosition pl m p (l1 ++ y :: l2)
      = setPosition pl m p l1 ++ ⟨m, pl, some p⟩ :: setPosition pl m p l2 := by
    simp [setPosition, hypl, hym]
  rw [e3, e1, e2, hypl, hym]

/-- The table after the UPDATE of `Playlist::move`, before the trigger runs, is a chain. -/
theorem Chain.of_move {t : Table} {pl m p g : Nat} (hkey : PrimaryKey t)
    (hdist : DistinctPositions t) (hpg : p ≤ g)
    (hocc : ∀ q, p ≤ q → q < g →
      ∃ r ∈ t, r.playlist_id = pl ∧ r.media_id ≠ m ∧ r.position = some q)
    (hfree : ∀ r ∈ t, r.playlist_id = pl → r.media_id ≠ m → r.position ≠ some g) :
    Chain pl m p g (setPosition pl m p t) := by
  have hmem : ∀ r ∈ setPosition pl m p t,
      (r ∈ t ∧ (r.playlist_id == pl && r.media_id == m) = false) ∨
      (r.playlist_id = pl ∧ r.media_id = m ∧ r.position = some p) := by
    intro r hr
    unfold setPosition at hr
    obtain ⟨x, hx, hxr⟩ := List.mem_map.mp hr
    cases hc : (x.playlist_id == pl && x.media_id == m) with
    | false =>
      simp [hc] at hxr
      rw [← hxr]
      exact Or.inl ⟨hx, hc⟩
    | true =>
      simp only [hc, if_true] at hxr
      simp at hc
      rw [← hxr]
      exact Or.inr ⟨hc.1, hc.2, rfl⟩
  have hkeep : ∀ r ∈ t, r.media_id ≠ m → r ∈ setPosition pl m p t := by
    intro r hr hrm
    unfold setPosition
    refine List.mem_map.mpr ⟨r, hr, ?_⟩
    have : (r.playlist_id == pl && r.media_id == m) = false := by simp [hrm]
    simp [this]
  constructor
  · unfold PrimaryKey setPosition
    rw [List.map_map]
    have : (key ∘ fun r : Row =>
        if r.playlist_id == pl && r.media_id == m then { r with position := some p } else r)
        = key := by
      funext r
      simp only [Function.comp]
      split <;> rfl
    rw [this]
    exact hkey
  · intro r hr hpl hmm
    rcases hmem r hr with ⟨_, hc⟩ | ⟨_, _, hpos⟩
    · simp [hpl, hmm] at hc
    · exact hpos
  · intro a ha b hb hapl hbpl ham hbm hab
    rcases hmem a ha with ⟨ha, _⟩ | ⟨_, hc, _⟩
    · rcases hmem b hb with ⟨hb, _⟩ | ⟨_, hc, _⟩
      · exact hdist a ha b hb (by rw [hapl, hbpl]) hab
      · exact absurd hc hbm
    · exact absurd hc ham
  · exact hpg
  · intro q hq1 hq2
    obtain ⟨r, hr, hrpl, hrm, hrq⟩ := hocc q hq1 hq2
    exact ⟨r, hkeep r hr hrm, hrpl, hrm, hrq⟩
  · intro r hr hpl hmm
    rcases hmem r hr with ⟨hr, _⟩ | ⟨_, hc, _⟩
    · exact hfree r hr hpl hmm
    · exact absurd hc hmm

theorem move_chain (e : Engine) (t : Table) (pl m p g : Nat)
    (hkey : PrimaryKey t) (hdist : DistinctPositions t) (hm : hasKey t pl m = true)
    (hp : 1 ≤ p) (hpg : p ≤ g)
    (hocc : ∀ q, p ≤ q → q < g →
      ∃ r ∈ t, r.playlist_id = pl ∧ r.media_id ≠ m ∧ r.position = some q)
    (hfree : ∀ r ∈ t, r.playlist_id = pl → r.media_id ≠ m → r.position ≠ some g)
    (hd : g - p < e.trigger_depth) :
    Playlist.move e t pl m p
      = (true, shiftRun pl m p (shiftEnd e.recursive_triggers 1 p g) (setPosition pl m p t)) := by
  have hchain := Chain.of_move (m := m) hkey hdist hpg hocc hfree
  unfold Playlist.move
  rw [if_neg (by omega), move_update hkey hm,
    hchain.update_playlist_order_eq e.recursive_triggers e.trigger_depth hd]
  rfl

end PlaylistModel

namespace Playlist

open PlaylistModel

/-- C5 (counterexample): on the playlist with media 1, 2, 3 at positions 1, 3, 5
(reached by append 1, add(2, 3), add(3, 5)), `move(3, 1)` shifts media 1 to 2 and
leaves media 2 at position 3 although 3 ≥ 1, with recursive triggers on or off. -/
theorem move_stops_at_gap :
    run ⟨true, 1000⟩ 7 [] [Op.append 1, Op.add 2 3, Op.add 3 5]
      = [⟨1, 7, some 1⟩, ⟨2, 7, some 3⟩, ⟨3, 7, some 5⟩] ∧
    move ⟨true, 1000⟩ [⟨1, 7, some 1⟩, ⟨2, 7, some 3⟩, ⟨3, 7, some 5⟩] 7 3 1
      = (true, [⟨1, 7, some 2⟩, ⟨2, 7, some 3⟩, ⟨3, 7, some 1⟩]) ∧
    run ⟨false, 1000⟩ 7 [] [Op.append 1, Op.add 2 3, Op.add 3 5]
      = [⟨1, 7, some 1⟩, ⟨2, 7, some 3⟩, ⟨3, 7, some 5⟩] ∧
    move ⟨false, 1000⟩ [⟨1, 7, some 1⟩, ⟨2, 7, some 3⟩, ⟨3, 7, some 5⟩] 7 3 1
      = (true, [⟨1, 7, some 2⟩, ⟨2, 7, some 3⟩, ⟨3, 7, some 1⟩]) := by
  decide

/-- C5 (amended): let the table respect its primary key and hold no two entries of a
playlist at one position, let `m` be a media of playlist `pl`, `P ≥ 1`, and let `g` be
the first position at or above `P` that no other entry of `pl` holds.  Then
`move(m, P)` returns true and sets the position of `m` to `P`, and `m` is not shifted;
the other entries of `pl` at the positions `P .. g - 1` move up by one when recursive
triggers are on, only the one at `P` when they are off; every other row stays as it
was, in particular the entries below `P` and those above `g` (the nesting allowed must
exceed `g - P`). -/
theorem move_shifts_run (e : Engine) (t : Table) (pl m P g : Nat)
    (hkey : PrimaryKey t) (hdist : DistinctPositions t) (hin : hasKey t pl m = true)
    (hP : 1 ≤ P) (hPg : P ≤ g)
    (hocc : ∀ q, P ≤ q → q < g →
      ∃ r ∈ t, r.playlist_id = pl ∧ r.media_id ≠ m ∧ r.position = some q)
    (hfree : ∀ r ∈ t, r.playlist_id = pl → r.media_id ≠ m → r.position ≠ some g)
    (hdepth : g - P < e.trigger_depth) :
    move e t pl m P
      = (true,
          shiftRun pl m P (shiftEnd e.recursive_triggers 1 P g) (setPosition pl m P t)) :=
  move_chain e t pl m P g hkey hdist hin hP hPg hocc hfree hdepth

/-- C5 (witness): playlist 7 with media 1, 2, 3, 4 at positions 1, 2, 3, 5; moving
media 3 to position 1 shifts the entries at 1 and 2 and leaves the entry at 5. -/
theorem move_shifts_run_witness :
    move ⟨true, 1000⟩
        [⟨1, 7, some 1⟩, ⟨2, 7, some 2⟩, ⟨3, 7, some 3⟩, ⟨4, 7, some 5⟩] 7 3 1
      = (true, [⟨1, 7, some 2⟩, ⟨2, 7, some 3⟩, ⟨3, 7, some 1⟩, ⟨4, 7, some 5⟩]) :=
  (move_shifts_run ⟨true, 1000⟩
    [⟨1, 7, some 1⟩, ⟨2, 7, some 2⟩, ⟨3, 7, some 3⟩, ⟨4, 7, some 5⟩] 7 3 1 3
    (by decide) (by decide) (by decide) (by decide) (by decide)
    (by intro q h1 h2; interval_cases q <;> simp) (by decide) (by decide)).trans (by decide)

end Playlist

/-! ## Reachable tables -/

namespace PlaylistModel

open Playlist

theorem positions_bounded (t : Table) :
    ∃ B, ∀ r ∈ t, ∀ q, r.position = some q → q ≤ B := by
  induction t with
  | nil => exact ⟨0, by simp⟩
  | cons x xs ih =>
    obtain ⟨B, hB⟩ := ih
    refine ⟨max B (x.position.getD 0), ?_⟩
    intro r hr q hq
    rcases List.mem_cons.mp hr with hr | hr
    · subst hr
      simp [hq]
    · have := hB r hr q hq
      omega

/-- Above every position there is a first one that no entry of the playlist, other
than media `m`, holds. -/
theorem exists_first_free (t : Table) (pl m p : Nat) :
    ∃ g, p ≤ g ∧
      (∀ q, p ≤ q → q < g →
        ∃ r ∈ t, r.playlist_id = pl ∧ r.media_id ≠ m ∧ r.position = some q) ∧
      (∀ r ∈ t, r.playlist_id = pl → r.media_id ≠ m → r.position ≠ some g) := by
  classical
  obtain ⟨B, hB⟩ := positions_bounded t
  have hex : ∃ g, p ≤ g ∧
      ¬ ∃ r ∈ t, r.playlist_id = pl ∧ r.media_id ≠ m ∧ r.position = some g := by
    refine ⟨max p (B + 1), by omega, ?_⟩
    rintro ⟨r, hr, _, _, hq⟩
    have := hB r hr _ hq
    omega
  refine ⟨Nat.find hex, (Nat.find_spec hex).1, ?_, ?_⟩
  · intro q hq1 hq2
    by_contra hc
    exact Nat.find_min hex hq2 ⟨hq1, hc⟩
  · intro r hr hpl hm hq
    exact (Nat.find_spec hex).2 ⟨r, hr, hpl, hm, hq⟩

theorem mem_shiftRun {pl m lo hi : Nat} {t : Table} {r : Row} (h : r ∈ shiftRun pl m lo hi t) :
    ∃ x ∈ t, r.playlist_id = x.playlist_id ∧ r.media_id = x.media_id ∧
      ((inRun pl m lo hi x = false ∧ r = x) ∨
       (∃ q, x.playlist_id = pl ∧ x.media_id ≠ m ∧ x.position = some q ∧ lo ≤ q ∧ q < hi ∧
          r.position = some (q + 1))) := by
  unfold shiftRun at h
  obtain ⟨x, hx, hxr⟩ := List.mem_map.mp h
  refine ⟨x, hx, ?_⟩
  cases hc : inRun pl m lo hi x with
  | false =>
    simp [hc] at hxr
    subst hxr
    exact ⟨rfl, rfl, Or.inl ⟨rfl, rfl⟩⟩
  | true =>
    simp only [hc, if_true] at hxr
    subst hxr
    refine ⟨rfl, rfl, Or.inr ?_⟩
    unfold inRun at hc
    cases hq : x.position with
    | none => simp [hq] at hc
    | some q =>
      simp [hq] at hc
      exact ⟨q, hc.1.1, hc.1.2, rfl, hc.2.1, hc.2.2, by simp [sqlSucc, hq]⟩

theorem inRun_true_of {pl m lo hi q : Nat} {x : Row} (h1 : x.playlist_id = pl)
    (h2 : x.media_id ≠ m) (h3 : x.position = some q) (h4 : lo ≤ q) (h5 : q < hi) :
    inRun pl m lo hi x = true := by
  simp [inRun, h1, h2, h3, h4, h5]

theorem inRun_false_cases {pl m lo hi : Nat} {x : Row} (h : inRun pl m lo hi x = false) :
    x.playlist_id ≠ pl ∨ x.media_id = m ∨ x.position = none ∨
      ∃ q, x.position = some q ∧ (q < lo ∨ hi ≤ q) := by
  unfold inRun at h
  by_cases h1 : x.playlist_id = pl
  · by_cases h2 : x.media_id = m
    · exact Or.inr (Or.inl h2)
    · cases hq : x.position with
      | none => exact Or.inr (Or.inr (Or.inl rfl))
      | some q =>
        simp [h1, h2, hq] at h
        refine Or.inr (Or.inr (Or.inr ⟨q, rfl, ?_⟩))
        by_cases hlo : lo ≤ q
        · exact Or.inr (h hlo)
        · exact Or.inl (by omega)
  · exact Or.inl h1

/-- The shift of a chain keeps the primary key and leaves no two entries of a playlist
at one position. -/
theorem Chain.shiftRun_inv {pl m p g : Nat} {t : Table} (h : Chain pl m p g t)
    (hother : ∀ a ∈ t, ∀ b ∈ t, a.playlist_id = b.playlist_id → a.playlist_id ≠ pl →
      a.position = b.position → a = b) :
    PrimaryKey (shiftRun pl m p g t) ∧ DistinctPositions (shiftRun pl m p g t) := by
  constructor
  · unfold PrimaryKey shiftRun
    rw [List.map_map]
    have : (key ∘ fun r : Row =>
        if inRun pl m p g r then { r with position := sqlSucc r.position } else r) = key := by
      funext r
      simp only [Function.comp]
      split <;> rfl
    rw [this]
    exact h.keyed
  · intro a ha b hb hpl hpos
    obtain ⟨x, hx, hax1, hax2, hxa⟩ := mem_shiftRun ha
    obtain ⟨y, hy, hby1, hby2, hyb⟩ := mem_shiftRun hb
    have hxy : x.playlist_id = y.playlist_id := by rw [← hax1, ← hby1, hpl]
    -- it is enough to show that the two source rows are the same row
    have key_step : x = y → a = b := by
      intro hxy'
      subst hxy'
      rcases hxa with ⟨hfx, hax⟩ | ⟨q, hxpl', hxm', hq, hlo, hhi, haq⟩
      · rcases hyb with ⟨_, hbx⟩ | ⟨q', hxpl', hxm', hq', hlo, hhi, _⟩
        · rw [hax, hbx]
        · rw [inRun_true_of hxpl' hxm' hq' hlo hhi] at hfx
          exact absurd hfx (by simp)
      · rcases hyb with ⟨hfx, _⟩ | ⟨q', _, _, hq', _, _, hbq⟩
        · rw [inRun_true_of hxpl' hxm' hq hlo hhi] at hfx
          exact absurd hfx (by simp)
        · have hqq : q = q' := by
            rw [hq] at hq'
            exact Option.some.inj hq'
          subst hqq
          cases a
          cases b
          simp_all
    apply key_step
    by_cases hxpl : x.playlist_id = pl
    · have hypl : y.playlist_id = pl := by rw [← hxy, hxpl]
      by_cases hxm : x.media_id = m
      · by_cases hym : y.media_id = m
        · exact h.keyed.inj hx hy hxy (by rw [hxm, hym])
        · -- x is the written entry at p, y another entry
          exfalso
          have hxp := h.own x hx hxpl hxm
          have hax : a = x := by
            rcases hxa with ⟨_, hax⟩ | ⟨q, _, hne, _⟩
            · exact hax
            · exact absurd hxm hne
          have hap : a.position = some p := by rw [hax, hxp]
          rcases hyb with ⟨hf, hby⟩ | ⟨q, _, _, hq, hlo, _, hbq⟩
          · rcases inRun_false_cases hf with h1 | h1 | h1 | ⟨q, hq, hq'⟩
            · exact h1 hypl
            · exact hym h1
            · rw [hap, hby, h1] at hpos
              simp at hpos
            · have hbp : b.position = some q := by rw [hby, hq]
              rw [hap, hbp] at hpos
              have hpq : p = q := Option.some.inj hpos
              subst hpq
              rcases hq' with hq' | hq'
              · omega
              · have hgp : g = p := by
                  have := h.le
                  omega
                subst hgp
                exact h.free y hy hypl hym hq
          · rw [hap, hbq] at hpos
            have := Option.some.inj hpos
            omega
      · by_cases hym : y.media_id = m
        · exfalso
          have hyp := h.own y hy hypl hym
          have hby : b = y := by
            rcases hyb with ⟨_, hby⟩ | ⟨q, _, hne, _⟩
            · exact hby
            · exact absurd hym hne
          have hbp : b.position = some p := by rw [hby, hyp]
          rcases hxa with ⟨hf, hax⟩ | ⟨q, _, _, hq, hlo, _, haq⟩
          · rcases inRun_false_cases hf with h1 | h1 | h1 | ⟨q, hq, hq'⟩
            · exact h1 hxpl
            · exact hxm h1
            · rw [hax, h1, hbp] at hpos
              simp at hpos
            · have hap : a.position = some q := by rw [hax, hq]
              rw [hap, hbp] at hpos
              have hpq : q = p := Option.some.inj hpos
              subst hpq
              rcases hq' with hq' | hq'
              · omega
              · have hgp : g = q := by
                  have := h.le
                  omega
                subst hgp
                exact h.free x hx hxpl hxm hq
          · rw [haq, hbp] at hpos
            have := Option.some.inj hpos
            omega
        · -- two entries other than m
          rcases hxa with ⟨hfx, hax⟩ | ⟨q, _, _, hq, hlo, hhi, haq⟩
          · rcases hyb with ⟨hfy, hby⟩ | ⟨q', _, _, hq', hlo', hhi', hbq⟩
            · exact h.dist x hx y hy hxpl hypl hxm hym (by rw [← hax, ← hby, hpos])
            · exfalso
              rcases inRun_false_cases hfx with h1 | h1 | h1 | ⟨q, hq, hqr⟩
              · exact h1 hxpl
              · exact hxm h1
              · rw [hax, h1, hbq] at hpos
                simp at hpos
              · have hap : a.position = some q := by rw [hax, hq]
                rw [hap, hbq] at hpos
                have hqq : q = q' + 1 := Option.some.inj hpos
                have hqg : q = g := by omega
                subst hqg
                exact h.free x hx hxpl hxm hq
          · rcases hyb with ⟨hfy, hby⟩ | ⟨q', _, _, hq', hlo', hhi', hbq⟩
            · exfalso
              rcases inRun_false_cases hfy with h1 | h1 | h1 | ⟨q', hq', hqr⟩
              · exact h1 hypl
              · exact hym h1
              · rw [hby, h1, haq] at hpos
                simp at hpos
              · have hbp : b.position = some q' := by rw [hby, hq']
                rw [haq, hbp] at hpos
                have hqq : q + 1 = q' := Option.some.inj hpos
                have hqg : q' = g := by omega
                subst hqg
                exact h.free y hy hypl hym hq'
            · rw [haq, hbq] at hpos
              have hqq : q = q' := by
                have := Option.some.inj hpos
                omega
              exact h.dist x hx y hy hxpl hypl hxm hym (by rw [hq, hq', hqq])
    · -- another playlist: both rows are untouched
      have hypl : y.playlist_id ≠ pl := by rw [← hxy]; exact hxpl
      have hax : a = x := by
        rcases hxa with ⟨_, hax⟩ | ⟨q, hc, _⟩
        · exact hax
        · exact absurd hc hxpl
      have hby : b = y := by
        rcases hyb with ⟨_, hby⟩ | ⟨q, hc, _⟩
        · exact hby
        · exact absurd hc hypl
      exact hother x hx y hy hxy hxpl (by rw [← hax, ← hby, hpos])

end PlaylistModel

namespace PlaylistModel

open Playlist

theorem Chain.update_playlist_order_some {pl m p g : Nat} {t t1 : Table}
    (h : Chain pl m p g t) (d : Nat)
    (hs : update_playlist_order true d t ⟨m, pl, some p⟩ = some t1) :
    t1 = shiftRun pl m p g t := by
  cases d with
  | zero => simp [update_playlist_order] at hs
  | succ d =>
    rw [update_playlist_order] at hs
    simp only [if_true] at hs
    obtain ⟨n, rfl⟩ := Nat.exists_eq_add_of_le h.le
    rw [Chain.shift_rec n d t m p h] at hs
    by_cases hn : n ≤ d
    · simp [hn] at hs
      exact hs.symm
    · simp [hn] at hs

theorem Chain.insert_shift_some {pl m p g : Nat} {t t1 : Table}
    (h : Chain pl m p g t) (d : Nat)
    (hs : execUpdate (shiftWhere ⟨m, pl, some p⟩) (fun r => sqlSucc r.position)
      (update_playlist_order true d) t = some t1) :
    t1 = shiftRun pl m p g t := by
  obtain ⟨n, rfl⟩ := Nat.exists_eq_add_of_le h.le
  rw [Chain.shift_rec n d t m p h] at hs
  by_cases hn : n ≤ d
  · simp [hn] at hs
    exact hs.symm
  · simp [hn] at hs

theorem mem_setPosition {pl m p : Nat} {t : Table} {r : Row} (hr : r ∈ setPosition pl m p t) :
    (r ∈ t ∧ (r.playlist_id == pl && r.media_id == m) = false) ∨
    (r.playlist_id = pl ∧ r.media_id = m ∧ r.position = some p) := by
  unfold setPosition at hr
  obtain ⟨x, hx, hxr⟩ := List.mem_map.mp hr
  cases hc : (x.playlist_id == pl && x.media_id == m) with
  | false =>
    simp [hc] at hxr
    rw [← hxr]
    exact Or.inl ⟨hx, hc⟩
  | true =>
    simp only [hc, if_true] at hxr
    simp at hc
    rw [← hxr]
    exact Or.inr ⟨hc.1, hc.2, rfl⟩

/-- With recursive triggers on, an insert that succeeds keeps the primary key and
leaves no two entries of a playlist at one position. -/
theorem execInsert_inv (e : Engine) (hrec : e.recursive_triggers = true) (t t1 : Table)
    (pl m pos : Nat) (hkey : PrimaryKey t) (hdist : DistinctPositions t)
    (h : execInsert e t ⟨m, pl, foreignKey pos⟩ = some t1) :
    PrimaryKey t1 ∧ DistinctPositions t1 := by
  cases hk : hasKey t pl m with
  | true => simp [execInsert, hk] at h
  | false =>
    have hnm : ∀ r ∈ t, r.playlist_id = pl → r.media_id ≠ m := by
      intro r hr hpl hmm
      have := hasKey_false hk r hr
      simp [hpl, hmm] at this
    have hother : ∀ c : Nat, ∀ a ∈ t ++ [(⟨m, pl, some c⟩ : Row)],
        ∀ b ∈ t ++ [(⟨m, pl, some c⟩ : Row)], a.playlist_id = b.playlist_id →
        a.playlist_id ≠ pl → a.position = b.position → a = b := by
      intro c a ha b hb hab hapl hpos
      have ha' : a ∈ t := by
        rcases List.mem_append.mp ha with ha | ha
        · exact ha
        · simp at ha
          rw [ha] at hapl
          exact absurd rfl hapl
      have hb' : b ∈ t := by
        rcases List.mem_append.mp hb with hb | hb
        · exact hb
        · simp at hb
          rw [hab, hb] at hapl
          exact absurd rfl hapl
      exact hdist a ha' b hb' hab hpos
    have hchain : ∀ c : Nat, ∃ g, Chain pl m c g (t ++ [⟨m, pl, some c⟩]) := by
      intro c
      obtain ⟨g, hg1, hg2, hg3⟩ := exists_first_free t pl m c
      refine ⟨g, Chain.of_insert hkey hdist hk hg1 ?_ ?_⟩
      · intro q hq1 hq2
        obtain ⟨r, hr, hrpl, _, hrq⟩ := hg2 q hq1 hq2
        exact ⟨r, hr, hrpl, hrq⟩
      · intro r hr hpl
        exact hg3 r hr hpl (hnm r hr hpl)
    by_cases hp : pos = 0
    · subst hp
      have hfk : foreignKey 0 = none := rfl
      rw [hfk, execInsert_null e t pl m hk] at h
      cases hd : e.trigger_depth with
      | zero => simp [hd] at h
      | succ d =>
        simp only [hd, hrec] at h
        obtain ⟨g, hc⟩ := hchain (countMedia t pl + 1)
        rw [hc.update_playlist_order_some d h]
        exact hc.shiftRun_inv (hother _)
    · have hfk : foreignKey pos = some pos := by simp [foreignKey, hp]
      rw [hfk, execInsert_pos e t pl m pos hk] at h
      cases hd : e.trigger_depth with
      | zero => simp [hd] at h
      | succ d =>
        simp only [hd, hrec] at h
        obtain ⟨g, hc⟩ := hchain pos
        rw [hc.insert_shift_some d h]
        exact hc.shiftRun_inv (hother _)

/-- With recursive triggers on, every operation keeps the primary key and leaves no two
entries of a playlist at one position. -/
theorem step_inv (e : Engine) (hrec : e.recursive_triggers = true) (pl : Nat) (t : Table)
    (op : Op) (hkey : PrimaryKey t) (hdist : DistinctPositions t) :
    PrimaryKey (step e pl t op) ∧ DistinctPositions (step e pl t op) := by
  cases op with
  | append m =>
    simp only [step, append, add]
    cases h : execInsert e t ⟨m, pl, foreignKey 0⟩ with
    | none => exact ⟨hkey, hdist⟩
    | some t1 => exact execInsert_inv e hrec t t1 pl m 0 hkey hdist h
  | add m p =>
    simp only [step, add]
    cases h : execInsert e t ⟨m, pl, foreignKey p⟩ with
    | none => exact ⟨hkey, hdist⟩
    | some t1 => exact execInsert_inv e hrec t t1 pl m p hkey hdist h
  | move m p =>
    simp only [step, move]
    by_cases hp : p = 0
    · simp only [hp, if_true]
      exact ⟨hkey, hdist⟩
    · simp only [hp, if_false]
      cases hk : hasKey t pl m with
      | false =>
        rw [execUpdate_no_match _ _ _ _ (hasKey_false hk)]
        exact ⟨hkey, hdist⟩
      | true =>
        rw [move_update hkey hk, hrec]
        cases h : update_playlist_order true e.trigger_depth (setPosition pl m p t)
            ⟨m, pl, some p⟩ with
        | none => exact ⟨hkey, hdist⟩
        | some t1 =>
          obtain ⟨g, hg1, hg2, hg3⟩ := exists_first_free t pl m p
          have hc : Chain pl m p g (setPosition pl m p t) :=
            Chain.of_move hkey hdist hg1 hg2 hg3
          simp only [commit]
          rw [hc.update_playlist_order_some _ h]
          refine hc.shiftRun_inv ?_
          intro a ha b hb hab hapl hpos
          have ha' : a ∈ t := by
            rcases mem_setPosition ha with ⟨ha, _⟩ | ⟨hc, _⟩
            · exact ha
            · exact absurd hc hapl
          have hb' : b ∈ t := by
            rcases mem_setPosition hb with ⟨hb, _⟩ | ⟨hc, _⟩
            · exact hb
            · rw [hab] at hapl
              exact absurd hc hapl
          exact hdist a ha' b hb' hab hpos
  | remove m =>
    simp only [step, remove]
    constructor
    · unfold PrimaryKey
      exact List.Nodup.sublist (List.Sublist.map key (List.filter_sublist t)) hkey
    · intro a ha b hb
      exact hdist a (List.mem_of_mem_filter ha) b (List.mem_of_mem_filter hb)

theorem run_inv (e : Engine) (hrec : e.recursive_triggers = true) (pl : Nat) (ops : List Op) :
    ∀ t : Table, PrimaryKey t → DistinctPositions t →
      PrimaryKey (run e pl t ops) ∧ DistinctPositions (run e pl t ops) := by
  induction ops with
  | nil => intro t h1 h2; exact ⟨h1, h2⟩
  | cons op ops ih =>
    intro t h1 h2
    simp only [run, List.foldl_cons]
    obtain ⟨h3, h4⟩ := step_inv e hrec pl t op h1 h2
    exact ih _ h3 h4

end PlaylistModel

namespace PlaylistModel

open Playlist

theorem append_shallow (e : Engine) (t : Table) (pl m : Nat) (hd : e.trigger_depth < 2) :
    Playlist.append e t pl m = (false, t) := by
  unfold Playlist.append Playlist.add
  cases hk : hasKey t pl m with
  | true => simp [execInsert, hk, commit]
  | false =>
    have hfk : foreignKey 0 = none := rfl
    rw [hfk, execInsert_null e t pl m hk]
    cases hd0 : e.trigger_depth with
    | zero => rfl
    | succ d =>
      have : d = 0 := by omega
      subst this
      simp [update_playlist_order, commit]

theorem append_taken (e : Engine) (t : Table) (pl m : Nat) (hk : hasKey t pl m = true) :
    Playlist.append e t pl m = (false, t) := by
  simp [Playlist.append, Playlist.add, execInsert, hk, commit]

/-- Appends only: the positions of the playlist are 1, 2, .., N in rowid order. -/
theorem run_appends (e : Engine) (pl : Nat) (ops : List Op)
    (happ : ∀ op ∈ ops, ∃ m, op = Op.append m) :
    ∀ t : Table, positions t pl = (List.range' 1 (countMedia t pl)).map some →
      positions (run e pl t ops) pl
        = (List.range' 1 (countMedia (run e pl t ops) pl)).map some := by
  induction ops with
  | nil => intro t h; exact h
  | cons op ops ih =>
    intro t h
    simp only [run, List.foldl_cons]
    refine ih (fun o ho => happ o (List.mem_cons_of_mem _ ho)) _ ?_
    obtain ⟨m, rfl⟩ := happ op (List.mem_cons_self _ _)
    simp only [step]
    by_cases hd : 2 ≤ e.trigger_depth
    · cases hk : hasKey t pl m with
      | true => rw [append_taken e t pl m hk]; exact h
      | false =>
        have hfree := free_of_perm (N := countMedia t pl) (List.Perm.of_eq h)
        rw [append_free e t pl m hk hfree hd]
        simp only
        have hc : countMedia (t ++ [⟨m, pl, some (countMedia t pl + 1)⟩]) pl
            = countMedia t pl + 1 := countMedia_append_self t ⟨m, pl, _⟩
        have hp : positions (t ++ [⟨m, pl, some (countMedia t pl + 1)⟩]) pl
            = positions t pl ++ [some (countMedia t pl + 1)] := by
          simp [positions, List.filter_append]
        rw [hc, hp, h, List.range'_concat]
        simp [Nat.add_comm]
    · rw [append_shallow e t pl m (by omega)]
      exact h

end PlaylistModel

namespace Playlist

open PlaylistModel

/-- C1 (counterexample): after append 1, append 2, remove 1 the playlist holds one
entry, at position 2; after add(1, 5) on the empty playlist it holds one entry, at
position 5; with recursive triggers off, append 1, append 2, append 3, move(3, 1)
leaves two entries at position 2.  In none of these tables are the positions
exactly 1..N. -/
theorem positions_not_dense :
    ¬ Dense (run ⟨true, 1000⟩ 7 [] [Op.append 1, Op.append 2, Op.remove 1]) 7 ∧
    ¬ Dense (run ⟨false, 1000⟩ 7 [] [Op.append 1, Op.append 2, Op.remove 1]) 7 ∧
    ¬ Dense (run ⟨true, 1000⟩ 7 [] [Op.add 1 5]) 7 ∧
    ¬ Dense (run ⟨false, 1000⟩ 7 [] [Op.add 1 5]) 7 ∧
    ¬ Dense (run ⟨false, 1000⟩ 7 []
      [Op.append 1, Op.append 2, Op.append 3, Op.move 3 1]) 7 := by
  decide

/-- C1 (amended): in every table reached from the empty one by a sequence of append,
add, move and remove operations every entry has a position that is a number at least 1;
with recursive triggers on, no two entries of a playlist share a position and the
primary key holds; and when the sequence consists of appends only, the positions of
the playlist are exactly 1..N, N the number of its entries. -/
theorem positions_after_run (e : Engine) (pl : Nat) (ops : List Op) :
    AllPos (run e pl [] ops) ∧
    (e.recursive_triggers = true →
      PrimaryKey (run e pl [] ops) ∧ DistinctPositions (run e pl [] ops)) ∧
    ((∀ op ∈ ops, ∃ m, op = Op.append m) → Dense (run e pl [] ops) pl) := by
  refine ⟨run_allPos e pl ops [] (by intro x hx; simp at hx), ?_, ?_⟩
  · intro hrec
    exact run_inv e hrec pl ops [] (by simp [PrimaryKey]) (by intro a ha; simp at ha)
  · intro happ
    unfold Dense
    rw [run_appends e pl ops happ [] (by simp [positions, countMedia])]

/-- C1 (witness): three appends on playlist 7 give the positions 1, 2, 3. -/
theorem positions_after_run_witness :
    Dense (run ⟨true, 1000⟩ 7 [] [Op.append 1, Op.append 2, Op.append 3]) 7 ∧
    DistinctPositions (run ⟨true, 1000⟩ 7 [] [Op.append 1, Op.append 2, Op.append 3]) :=
  ⟨(positions_after_run ⟨true, 1000⟩ 7 [Op.append 1, Op.append 2, Op.append 3]).2.2
      (by intro op hop; simp at hop; rcases hop with rfl | rfl | rfl <;> exact ⟨_, rfl⟩),
   ((positions_after_run ⟨true, 1000⟩ 7 [Op.append 1, Op.append 2, Op.append 3]).2.1 rfl).2⟩

end Playlist

namespace Playlist

open PlaylistModel

theorem posLe_total (a b : Row) : posLe a b ∨ posLe b a := by
  unfold posLe
  cases a.position <;> cases b.position <;> simp
  omega

theorem posLe_trans (a b c : Row) (h1 : posLe a b) (h2 : posLe b c) : posLe a c := by
  unfold posLe at *
  cases ha : a.position <;> cases hb : b.position <;> cases hc : c.position <;>
    simp [ha, hb, hc] at h1 h2 ⊢
  omega

theorem posLe_antisymm (a b : Row) (h1 : posLe a b) (h2 : posLe b a) :
    a.position = b.position := by
  unfold posLe at *
  cases ha : a.position <;> cases hb : b.position <;> simp [ha, hb] at h1 h2 ⊢
  omega

/-- When no two entries of a playlist share a position, `ORDER BY position` leaves
one possible result. -/
theorem media_unique (present : Nat → Bool) (t : Table) (pl : Nat)
    (hdist : DistinctPositions t) (l : List Nat) :
    IsMediaResult present t pl l ↔ l = media present t pl := by
  haveI : IsTotal Row posLe := ⟨posLe_total⟩
  haveI : IsTrans Row posLe := ⟨posLe_trans⟩
  constructor
  · rintro ⟨rows, hperm, hsorted, rfl⟩
    unfold media
    have hmem : ∀ r ∈ mediaRows present t pl, r ∈ t ∧ r.playlist_id = pl := by
      intro r hr
      unfold mediaRows at hr
      have := List.mem_filter.mp hr
      refine ⟨this.1, ?_⟩
      have h2 := this.2
      simp at h2
      exact h2.1
    have heq : rows = (mediaRows present t pl).insertionSort posLe := by
      refine List.Perm.eq_of_sorted ?_ hsorted (List.sorted_insertionSort posLe _)
        (hperm.trans (List.perm_insertionSort posLe _).symm)
      intro a b ha hb hab hba
      have ha' := hmem a (hperm.subset ha)
      have hb' := hmem b ((List.perm_insertionSort posLe _).subset hb)
      exact hdist a ha'.1 b hb'.1 (by rw [ha'.2, hb'.2]) (posLe_antisymm a b hab hba)
    rw [heq]
  · rintro rfl
    exact ⟨(mediaRows present t pl).insertionSort posLe, List.perm_insertionSort posLe _,
      List.sorted_insertionSort posLe _, rfl⟩

/-- C10 (counterexample): with recursive triggers off, append 1, append 2, append 3,
move(3, 1) leaves media 1 and media 2 both at position 2, and both [3, 1, 2] and
[3, 2, 1] are lists ordered by position that `media()` may return. -/
theorem media_order_tie :
    run ⟨false, 1000⟩ 7 [] [Op.append 1, Op.append 2, Op.append 3, Op.move 3 1]
      = [⟨1, 7, some 2⟩, ⟨2, 7, some 2⟩, ⟨3, 7, some 1⟩] ∧
    ¬ DistinctPositions
      (run ⟨false, 1000⟩ 7 [] [Op.append 1, Op.append 2, Op.append 3, Op.move 3 1]) ∧
    IsMediaResult (fun _ => true)
      (run ⟨false, 1000⟩ 7 [] [Op.append 1, Op.append 2, Op.append 3, Op.move 3 1]) 7
      [3, 1, 2] ∧
    IsMediaResult (fun _ => true)
      (run ⟨false, 1000⟩ 7 [] [Op.append 1, Op.append 2, Op.append 3, Op.move 3 1]) 7
      [3, 2, 1] :=
  ⟨by decide, by decide,
   ⟨[⟨3, 7, some 1⟩, ⟨1, 7, some 2⟩, ⟨2, 7, some 2⟩], by decide, by decide, by decide⟩,
   ⟨[⟨3, 7, some 1⟩, ⟨2, 7, some 2⟩, ⟨1, 7, some 2⟩], by decide, by decide, by decide⟩⟩

/-- C10 (amended): with recursive triggers on, in every table reached from the empty
one by a sequence of append, add, move and remove operations no two entries of a
playlist share a position, so that the list of media ordered by position is determined
by the sequence: every list `media()` may return is the same list. -/
theorem media_order_determined (e : Engine) (present : Nat → Bool) (pl : Nat)
    (ops : List Op) (hrec : e.recursive_triggers = true) :
    DistinctPositions (run e pl [] ops) ∧
    ∀ l, IsMediaResult present (run e pl [] ops) pl l ↔
      l = media present (run e pl [] ops) pl := by
  have hinv := run_inv e hrec pl ops [] (by simp [PrimaryKey]) (by intro a ha; simp at ha)
  exact ⟨hinv.2, media_unique present _ pl hinv.2⟩

/-- C10 (witness): the sequence of the counterexample, with recursive triggers on. -/
theorem media_order_determined_witness :
    DistinctPositions
      (run ⟨true, 1000⟩ 7 [] [Op.append 1, Op.append 2, Op.append 3, Op.move 3 1]) ∧
    ∀ l, IsMediaResult (fun _ => true)
        (run ⟨true, 1000⟩ 7 [] [Op.append 1, Op.append 2, Op.append 3, Op.move 3 1]) 7 l ↔
      l = media (fun _ => true)
        (run ⟨true, 1000⟩ 7 [] [Op.append 1, Op.append 2, Op.append 3, Op.move 3 1]) 7 :=
  media_order_determined ⟨true, 1000⟩ (fun _ => true) 7
    [Op.append 1, Op.append 2, Op.append 3, Op.move 3 1] rfl

end Playlist

/-! ## File system factory: lemmas and claims -/

namespace FileSystemFactory

theorem find_zero_iff (s pat : Str) : find s pat = some 0 ↔ pat <+: s := by
  rw [← List.isPrefixOf_iff_prefix]
  cases s with
  | nil =>
    unfold find
    by_cases h : pat.isPrefixOf [] = true
    · rw [if_pos h]
      exact ⟨fun _ => h, fun _ => rfl⟩
    · rw [if_neg h]
      exact ⟨fun hc => absurd hc (by simp), fun hc => absurd hc h⟩
  | cons c rest =>
    unfold find
    by_cases h : pat.isPrefixOf (c :: rest) = true
    · rw [if_pos h]
      exact ⟨fun _ => h, fun _ => rfl⟩
    · rw [if_neg h]
      constructor
      · intro hc
        cases hf : find rest pat with
        | none => rw [hf] at hc; exact absurd hc (by simp)
        | some n => rw [hf] at hc; exact absurd hc (by simp)
      · intro hc
        exact absurd hc h

theorem pick_eq (mrl : Str) (res : Option Device) (p : Str × Device) :
    pick mrl res p =
      if p.2.mountpoint <+: mrl then
        match res with
        | none => some p.2
        | some r => if r.mountpoint.length < p.2.mountpoint.length then some p.2 else some r
      else res := by
  unfold pick
  by_cases h : p.2.mountpoint <+: mrl
  · have := (find_zero_iff mrl p.2.mountpoint).mpr h
    simp [h, this]
  · have : ¬ find mrl p.2.mountpoint = some 0 := fun hc => h ((find_zero_iff _ _).mp hc)
    simp [h, this]

/-- What the loop of `createDeviceFromMrl` has found after the devices `seen`. -/
theorem createDeviceFromMrl_found (mrl : Str) (cache : List (Str × Device)) :
    (createDeviceFromMrl cache mrl = none ∧ ∀ p ∈ cache, ¬ p.2.mountpoint <+: mrl) ∨
    (∃ d, createDeviceFromMrl cache mrl = some d ∧ d ∈ cache.map Prod.snd ∧
      d.mountpoint <+: mrl ∧
      ∀ p ∈ cache, p.2.mountpoint <+: mrl → p.2.mountpoint.length ≤ d.mountpoint.length) := by
  induction cache using List.reverseRecOn with
  | nil => exact Or.inl ⟨rfl, by simp⟩
  | append_singleton l x ih =>
    have hstep : createDeviceFromMrl (l ++ [x]) mrl = pick mrl (createDeviceFromMrl l mrl) x := by
      simp [createDeviceFromMrl, List.foldl_append]
    rw [hstep, pick_eq]
    by_cases hx : x.2.mountpoint <+: mrl
    · simp only [hx, if_true]
      right
      rcases ih with ⟨hnone, hno⟩ | ⟨d, hsome, hd, hdp, hmax⟩
      · rw [hnone]
        refine ⟨x.2, rfl, List.mem_map_of_mem _ (List.mem_append_right _ (List.mem_singleton_self x)), hx, ?_⟩
        intro p hp hpp
        rcases List.mem_append.mp hp with hp | hp
        · exact absurd hpp (hno p hp)
        · simp at hp
          rw [hp]
      · rw [hsome]
        by_cases hlt : d.mountpoint.length < x.2.mountpoint.length
        · simp only [hlt, if_true]
          refine ⟨x.2, rfl, List.mem_map_of_mem _ (List.mem_append_right _ (List.mem_singleton_self x)), hx, ?_⟩
          intro p hp hpp
          rcases List.mem_append.mp hp with hp | hp
          · have := hmax p hp hpp
            omega
          · simp at hp
            rw [hp]
        · simp only [hlt, if_false]
          refine ⟨d, rfl, ?_, hdp, ?_⟩
          · rw [List.map_append]
            exact List.mem_append_left _ hd
          · intro p hp hpp
            rcases List.mem_append.mp hp with hp | hp
            · exact hmax p hp hpp
            · simp at hp
              rw [hp]
              omega
    · simp only [hx, if_false]
      rcases ih with ⟨hnone, hno⟩ | ⟨d, hsome, hd, hdp, hmax⟩
      · left
        refine ⟨hnone, ?_⟩
        intro p hp
        rcases List.mem_append.mp hp with hp | hp
        · exact hno p hp
        · simp at hp
          rw [hp]
          exact hx
      · right
        refine ⟨d, hsome, ?_, hdp, ?_⟩
        · rw [List.map_append]
          exact List.mem_append_left _ hd
        · intro p hp hpp
          rcases List.mem_append.mp hp with hp | hp
          · exact hmax p hp hpp
          · simp at hp
            rw [hp] at hpp
            exact absurd hpp hx

/-- C14: for every device cache and every MRL, a device returned by
`createDeviceFromMrl` is a cached device whose mountpoint is a prefix of the MRL, and
no cached device whose mountpoint is a prefix of the MRL has a longer mountpoint;
`nullptr` is returned exactly when no cached device has a mountpoint that is a prefix
of the MRL. -/
theorem createDeviceFromMrl_longest (cache : List (Str × Device)) (mrl : Str) :
    (∀ d, createDeviceFromMrl cache mrl = some d →
      d ∈ cache.map Prod.snd ∧ d.mountpoint <+: mrl ∧
      ∀ p ∈ cache, p.2.mountpoint <+: mrl → p.2.mountpoint.length ≤ d.mountpoint.length) ∧
    (createDeviceFromMrl cache mrl = none ↔ ∀ p ∈ cache, ¬ p.2.mountpoint <+: mrl) := by
  rcases createDeviceFromMrl_found mrl cache with ⟨hnone, hno⟩ | ⟨d, hsome, hd, hdp, hmax⟩
  · refine ⟨?_, ?_⟩
    · intro d hd
      rw [hnone] at hd
      exact absurd hd (by simp)
    · exact ⟨fun _ => hno, fun _ => hnone⟩
  · refine ⟨?_, ?_⟩
    · intro d' hd'
      rw [hsome] at hd'
      cases hd'
      exact ⟨hd, hdp, hmax⟩
    · constructor
      · intro hc
        rw [hsome] at hc
        exact absurd hc (by simp)
      · intro hno
        obtain ⟨p, hp, hpd⟩ := List.mem_map.mp hd
        exact absurd (hpd ▸ hdp) (hno p hp)

/-- C14 (witness): two devices whose mountpoints are prefixes of the MRL; the one with
the longer mountpoint is returned. -/
theorem createDeviceFromMrl_longest_witness :
    createDeviceFromMrl
      [("a".toList, ⟨"a".toList, "/mnt/".toList, false⟩),
       ("b".toList, ⟨"b".toList, "/mnt/usb/".toList, true⟩)] "/mnt/usb/x.mp3".toList
      = some ⟨"b".toList, "/mnt/usb/".toList, true⟩ ∧
    "/mnt/usb/".toList <+: "/mnt/usb/x.mp3".toList :=
  ⟨by decide,
   ((createDeviceFromMrl_longest
      [("a".toList, ⟨"a".toList, "/mnt/".toList, false⟩),
       ("b".toList, ⟨"b".toList, "/mnt/usb/".toList, true⟩)] "/mnt/usb/x.mp3".toList).1
      ⟨"b".toList, "/mnt/usb/".toList, true⟩ (by decide)).2.1⟩

end FileSystemFactory

namespace FileSystemFactory

theorem prefix_eq_of_length_eq {a b s : Str} (ha : a <+: s) (hb : b <+: s)
    (h : a.length = b.length) : a = b := by
  have hab : a <+: b := List.prefix_of_prefix_length_le ha hb (by omega)
  exact hab.eq_of_length h

/-- C15 (counterexample): two devices mounted on the same mountpoint; the cache visited
in the order a, b gives device a, visited in the order b, a it gives device b. -/
theorem createDeviceFromMrl_order_dependent :
    List.Perm
      [("a".toList, (⟨"a".toList, "/mnt/".toList, true⟩ : Device)),
       ("b".toList, ⟨"b".toList, "/mnt/".toList, true⟩)]
      [("b".toList, ⟨"b".toList, "/mnt/".toList, true⟩),
       ("a".toList, ⟨"a".toList, "/mnt/".toList, true⟩)] ∧
    createDeviceFromMrl
      [("a".toList, ⟨"a".toList, "/mnt/".toList, true⟩),
       ("b".toList, ⟨"b".toList, "/mnt/".toList, true⟩)] "/mnt/x".toList
      = some ⟨"a".toList, "/mnt/".toList, true⟩ ∧
    createDeviceFromMrl
      [("b".toList, ⟨"b".toList, "/mnt/".toList, true⟩),
       ("a".toList, ⟨"a".toList, "/mnt/".toList, true⟩)] "/mnt/x".toList
      = some ⟨"b".toList, "/mnt/".toList, true⟩ := by
  decide

theorem get_middle {α : Type} (l1 l2 : List α) (a : α) :
    (l1 ++ a :: l2).get? l1.length = some a := by
  induction l1 with
  | nil => rfl
  | cons x xs ih => simpa using ih

/-- Where in the iteration order the device returned by `createDeviceFromMrl` stands:
every device visited before it whose mountpoint is a prefix of the MRL has a strictly
shorter mountpoint, every such device visited after it has a mountpoint that is not
longer. -/
theorem createDeviceFromMrl_first (mrl : Str) (cache : List (Str × Device)) :
    (createDeviceFromMrl cache mrl = none ∧ ∀ p ∈ cache, ¬ p.2.mountpoint <+: mrl) ∨
    (∃ l1 p l2, cache = l1 ++ p :: l2 ∧ createDeviceFromMrl cache mrl = some p.2 ∧
      p.2.mountpoint <+: mrl ∧
      (∀ q ∈ l1, q.2.mountpoint <+: mrl → q.2.mountpoint.length < p.2.mountpoint.length) ∧
      (∀ q ∈ l2, q.2.mountpoint <+: mrl → q.2.mountpoint.length ≤ p.2.mountpoint.length)) := by
  induction cache using List.reverseRecOn with
  | nil => exact Or.inl ⟨rfl, by simp⟩
  | append_singleton l x ih =>
    have hstep : createDeviceFromMrl (l ++ [x]) mrl = pick mrl (createDeviceFromMrl l mrl) x := by
      simp [createDeviceFromMrl, List.foldl_append]
    rw [hstep, pick_eq]
    by_cases hx : x.2.mountpoint <+: mrl
    · simp only [hx, if_true]
      right
      rcases ih with ⟨hnone, hno⟩ | ⟨l1, p, l2, hl, hsome, hpp, hbefore, hafter⟩
      · rw [hnone]
        refine ⟨l, x, [], rfl, rfl, hx, ?_, by simp⟩
        intro q hq hqp
        exact absurd hqp (hno q hq)
      · rw [hsome]
        by_cases hlt : p.2.mountpoint.length < x.2.mountpoint.length
        · simp only [hlt, if_true]
          refine ⟨l, x, [], rfl, rfl, hx, ?_, by simp⟩
          intro q hq hqp
          rw [hl] at hq
          rcases List.mem_append.mp hq with hq | hq
          · have := hbefore q hq hqp
            omega
          · rcases List.mem_cons.mp hq with hq | hq
            · rw [hq]
              exact hlt
            · have := hafter q hq hqp
              omega
        · simp only [hlt, if_false]
          refine ⟨l1, p, l2 ++ [x], by rw [hl]; simp, rfl, hpp, hbefore, ?_⟩
          intro q hq hqp
          rcases List.mem_append.mp hq with hq | hq
          · exact hafter q hq hqp
          · simp at hq
            rw [hq]
            omega
    · simp only [hx, if_false]
      rcases ih with ⟨hnone, hno⟩ | ⟨l1, p, l2, hl, hsome, hpp, hbefore, hafter⟩
      · left
        refine ⟨hnone, ?_⟩
        intro q hq
        rcases List.mem_append.mp hq with hq | hq
        · exact hno q hq
        · simp at hq
          rw [hq]
          exact hx
      · right
        refine ⟨l1, p, l2 ++ [x], by rw [hl]; simp, hsome, hpp, hbefore, ?_⟩
        intro q hq hqp
        rcases List.mem_append.mp hq with hq | hq
        · exact hafter q hq hqp
        · simp at hq
          rw [hq] at hqp
          exact absurd hqp hx

/-- C15 (amended): for every MRL and every two device caches holding the same entries
in a different iteration order, the mountpoint of the device returned by
`createDeviceFromMrl` is the same (and `nullptr` is returned for both or for none); the
device itself is the same when no two cached devices share a mountpoint. In every
cache the device returned is the first one in iteration order among the cached devices
with the longest mountpoint that is a prefix of the MRL: every device iterated before it
whose mountpoint is a prefix of the MRL has a strictly shorter mountpoint, every such
device iterated after it has a mountpoint that is not longer; in particular, of cached
devices whose mountpoints are prefixes of the MRL and have the same length, the one
iterated first is returned when that length is the longest. -/
theorem createDeviceFromMrl_perm (c1 c2 : List (Str × Device)) (mrl : Str)
    (hperm : c1.Perm c2) :
    (createDeviceFromMrl c1 mrl).map (fun d => d.mountpoint)
      = (createDeviceFromMrl c2 mrl).map (fun d => d.mountpoint) ∧
    ((∀ a ∈ c1, ∀ b ∈ c1, a.2.mountpoint = b.2.mountpoint → a.2 = b.2) →
      createDeviceFromMrl c1 mrl = createDeviceFromMrl c2 mrl) ∧
    (∀ c, c = c1 ∨ c = c2 → ∀ d, createDeviceFromMrl c mrl = some d →
      ∃ l1 p l2, c = l1 ++ p :: l2 ∧ p.2 = d ∧ p.2.mountpoint <+: mrl ∧
        (∀ q ∈ l1, q.2.mountpoint <+: mrl →
          q.2.mountpoint.length < p.2.mountpoint.length) ∧
        (∀ q ∈ l2, q.2.mountpoint <+: mrl →
          q.2.mountpoint.length ≤ p.2.mountpoint.length)) ∧
    (∀ l1 l2 a, c1 = l1 ++ a :: l2 → a.2.mountpoint <+: mrl →
      (∀ q ∈ l1, q.2.mountpoint <+: mrl → q.2.mountpoint.length < a.2.mountpoint.length) →
      (∀ q ∈ l2, q.2.mountpoint <+: mrl → q.2.mountpoint.length ≤ a.2.mountpoint.length) →
      createDeviceFromMrl c1 mrl = some a.2) := by
  have hfirst : ∀ c : List (Str × Device), ∀ d, createDeviceFromMrl c mrl = some d →
      ∃ l1 p l2, c = l1 ++ p :: l2 ∧ p.2 = d ∧ p.2.mountpoint <+: mrl ∧
        (∀ q ∈ l1, q.2.mountpoint <+: mrl →
          q.2.mountpoint.length < p.2.mountpoint.length) ∧
        (∀ q ∈ l2, q.2.mountpoint <+: mrl →
          q.2.mountpoint.length ≤ p.2.mountpoint.length) := by
    intro c d hd
    rcases createDeviceFromMrl_first mrl c with ⟨hnone, _⟩ | ⟨l1, p, l2, hl, hsome, hpp, hb, ha⟩
    · rw [hnone] at hd
      exact absurd hd (by simp)
    · rw [hsome] at hd
      exact ⟨l1, p, l2, hl, Option.some.inj hd, hpp, hb, ha⟩
  have hconv : ∀ l1 l2 a, c1 = l1 ++ a :: l2 → a.2.mountpoint <+: mrl →
      (∀ q ∈ l1, q.2.mountpoint <+: mrl → q.2.mountpoint.length < a.2.mountpoint.length) →
      (∀ q ∈ l2, q.2.mountpoint <+: mrl → q.2.mountpoint.length ≤ a.2.mountpoint.length) →
      createDeviceFromMrl c1 mrl = some a.2 := by
    intro l1 l2 a hc hap hb ha
    rcases createDeviceFromMrl_first mrl c1 with ⟨_, hno⟩ | ⟨m1, p, m2, hl, hsome, hpp, hb2, ha2⟩
    · exact absurd hap (hno a (by rw [hc]; simp))
    · rw [hsome]
      have hlen : l1.length = m1.length := by
        rcases Nat.lt_trichotomy l1.length m1.length with hlt | heq | hgt
        · exfalso
          have ha_m1 : a ∈ m1 := by
            have h1 : (l1 ++ a :: l2).get? l1.length = some a := get_middle l1 l2 a
            rw [← hc, hl, List.get?_append hlt] at h1
            exact List.get?_mem h1
          have h2 : p ∈ l2 := by
            have h1 : (m1 ++ p :: m2).get? m1.length = some p := get_middle m1 m2 p
            rw [← hl, hc, List.get?_append_right (by omega)] at h1
            have hpos : m1.length - l1.length = (m1.length - l1.length - 1) + 1 := by omega
            rw [hpos, List.get?_cons_succ] at h1
            exact List.get?_mem h1
          have := hb2 a ha_m1 hap
          have := ha p h2 hpp
          omega
        · exact heq
        · exfalso
          have hp_l1 : p ∈ l1 := by
            have h1 : (m1 ++ p :: m2).get? m1.length = some p := get_middle m1 m2 p
            rw [← hl, hc, List.get?_append hgt] at h1
            exact List.get?_mem h1
          have h2 : a ∈ m2 := by
            have h1 : (l1 ++ a :: l2).get? l1.length = some a := get_middle l1 l2 a
            rw [← hc, hl, List.get?_append_right (by omega)] at h1
            have hpos : l1.length - m1.length = (l1.length - m1.length - 1) + 1 := by omega
            rw [hpos, List.get?_cons_succ] at h1
            exact List.get?_mem h1
          have := hb p hp_l1 hpp
          have := ha2 a h2 hap
          omega
      have h1 : (l1 ++ a :: l2).get? l1.length = some a := get_middle l1 l2 a
      have h2 : (m1 ++ p :: m2).get? m1.length = some p := get_middle m1 m2 p
      rw [← hc, hl, hlen, h2] at h1
      rw [Option.some.inj h1]
  refine ⟨?_, ?_, fun c _ => hfirst c, hconv⟩
  all_goals
    rcases createDeviceFromMrl_found mrl c1 with ⟨h1, hno1⟩ | ⟨d1, h1, hd1, hp1, hmax1⟩
  · rcases createDeviceFromMrl_found mrl c2 with ⟨h2, _⟩ | ⟨d2, _, hd2, hp2, _⟩
    · rw [h1, h2]
    · obtain ⟨p, hp, hpd⟩ := List.mem_map.mp hd2
      exact absurd (hpd ▸ hp2) (hno1 p (hperm.symm.subset hp))
  · rcases createDeviceFromMrl_found mrl c2 with ⟨_, hno2⟩ | ⟨d2, h2, hd2, hp2, hmax2⟩
    · obtain ⟨p, hp, hpd⟩ := List.mem_map.mp hd1
      exact absurd (hpd ▸ hp1) (hno2 p (hperm.subset hp))
    · obtain ⟨p1, hp1m, hpd1⟩ := List.mem_map.mp hd1
      obtain ⟨p2, hp2m, hpd2⟩ := List.mem_map.mp hd2
      have hle1 : d1.mountpoint.length ≤ d2.mountpoint.length := by
        have := hmax2 p1 (hperm.subset hp1m) (hpd1 ▸ hp1)
        rw [hpd1] at this
        exact this
      have hle2 : d2.mountpoint.length ≤ d1.mountpoint.length := by
        have := hmax1 p2 (hperm.symm.subset hp2m) (hpd2 ▸ hp2)
        rw [hpd2] at this
        exact this
      have heq : d1.mountpoint = d2.mountpoint :=
        prefix_eq_of_length_eq hp1 hp2 (by omega)
      rw [h1, h2]
      simp [heq]
  · rcases createDeviceFromMrl_found mrl c2 with ⟨h2, _⟩ | ⟨d2, _, hd2, hp2, _⟩
    · rw [h1, h2]
      exact fun _ => rfl
    · obtain ⟨p, hp, hpd⟩ := List.mem_map.mp hd2
      exact absurd (hpd ▸ hp2) (hno1 p (hperm.symm.subset hp))
  · rcases createDeviceFromMrl_found mrl c2 with ⟨_, hno2⟩ | ⟨d2, h2, hd2, hp2, hmax2⟩
    · obtain ⟨p, hp, hpd⟩ := List.mem_map.mp hd1
      exact absurd (hpd ▸ hp1) (hno2 p (hperm.subset hp))
    · obtain ⟨p1, hp1m, hpd1⟩ := List.mem_map.mp hd1
      obtain ⟨p2, hp2m, hpd2⟩ := List.mem_map.mp hd2
      have hle1 : d1.mountpoint.length ≤ d2.mountpoint.length := by
        have := hmax2 p1 (hperm.subset hp1m) (hpd1 ▸ hp1)
        rw [hpd1] at this
        exact this
      have hle2 : d2.mountpoint.length ≤ d1.mountpoint.length := by
        have := hmax1 p2 (hperm.symm.subset hp2m) (hpd2 ▸ hp2)
        rw [hpd2] at this
        exact this
      have heq : d1.mountpoint = d2.mountpoint :=
        prefix_eq_of_length_eq hp1 hp2 (by omega)
      rw [h1, h2]
      intro hinj
      have := hinj p1 hp1m p2 (hperm.symm.subset hp2m) (by rw [hpd1, hpd2, heq])
      rw [hpd1, hpd2] at this
      rw [this]

/-- C15 (witness): two devices with different mountpoints, visited in both orders. -/
theorem createDeviceFromMrl_perm_witness :
    createDeviceFromMrl
      [("a".toList, ⟨"a".toList, "/mnt/".toList, false⟩),
       ("b".toList, ⟨"b".toList, "/mnt/usb/".toList, true⟩)] "/mnt/usb/x.mp3".toList
    = createDeviceFromMrl
      [("b".toList, ⟨"b".toList, "/mnt/usb/".toList, true⟩),
       ("a".toList, ⟨"a".toList, "/mnt/".toList, false⟩)] "/mnt/usb/x.mp3".toList :=
  (createDeviceFromMrl_perm
    [("a".toList, ⟨"a".toList, "/mnt/".toList, false⟩),
     ("b".toList, ⟨"b".toList, "/mnt/usb/".toList, true⟩)]
    [("b".toList, ⟨"b".toList, "/mnt/usb/".toList, true⟩),
     ("a".toList, ⟨"a".toList, "/mnt/".toList, false⟩)] "/mnt/usb/x.mp3".toList
    (by decide)).2.1 (by decide)

theorem compareStr_eq_zero (a b : Str) : compareStr a b = 0 ↔ a = b := by
  induction a generalizing b with
  | nil => cases b <;> simp [compareStr]
  | cons x xs ih =>
    cases b with
    | nil => simp [compareStr]
    | cons y ys =>
      unfold compareStr
      by_cases h1 : x < y
      · simp only [h1, if_true]
        constructor
        · intro hc
          exact absurd hc (by decide)
        · intro hc
          injection hc with hxy _
          rw [hxy] at h1
          exact absurd h1 (lt_irrefl _)
      · by_cases h2 : y < x
        · simp only [h1, h2, if_true, if_false]
          constructor
          · intro hc
            exact absurd hc (by decide)
          · intro hc
            injection hc with hxy _
            rw [hxy] at h2
            exact absurd h2 (lt_irrefl _)
        · simp only [h1, h2, if_false]
          have hxy : x = y := le_antisymm (not_lt.mp h2) (not_lt.mp h1)
          rw [ih ys, hxy]
          constructor
          · intro hc
            rw [hc]
          · intro hc
            injection hc

/-- C19: `isMrlSupported( path )` is true exactly when `path` begins with the seven
characters "file://"; in particular every string shorter than seven characters is
rejected. -/
theorem isMrlSupported_iff (path : Str) :
    (isMrlSupported path = true ↔ "file://".toList <+: path) ∧
    (path.length < 7 → isMrlSupported path = false) := by
  have hiff : isMrlSupported path = true ↔ "file://".toList <+: path := by
    unfold isMrlSupported compare
    rw [beq_iff_eq, compareStr_eq_zero, List.drop_zero, List.prefix_iff_eq_take]
    exact ⟨fun h => h.symm, fun h => h.symm⟩
  refine ⟨hiff, ?_⟩
  intro hlen
  cases h : isMrlSupported path with
  | false => rfl
  | true =>
    have hp := hiff.mp h
    have := hp.length_le
    have h7 : "file://".toList.length = 7 := by decide
    omega

/-- C19 (witness): "file" is shorter than seven characters and is rejected;
"file:///a" is accepted. -/
theorem isMrlSupported_iff_witness :
    isMrlSupported "file".toList = false ∧ isMrlSupported "file:///a".toList = true :=
  ⟨(isMrlSupported_iff "file".toList).2 (by decide),
   (isMrlSupported_iff "file:///a".toList).1.mpr (by decide)⟩

end FileSystemFactory

namespace FileSystemFactory

theorem lookup_append {β : Type} (m : List (Str × β)) (k k1 : Str) (v : β) :
    lookup (m ++ [(k1, v)]) k
      = match lookup m k with
        | some x => some x
        | none => if k1 = k then some v else none := by
  unfold lookup
  rw [List.find?_append]
  cases hf : m.find? (fun p => p.1 == k) with
  | some x => simp
  | none =>
    by_cases hk : k1 = k
    · simp [hk]
    · simp [hk]

theorem lookup_none_any {β : Type} (m : List (Str × β)) (k : Str)
    (h : lookup m k = none) : m.any (fun p => p.1 == k) = false := by
  unfold lookup at h
  cases hf : m.find? (fun p => p.1 == k) with
  | some x => rw [hf] at h; exact absurd h (by simp)
  | none =>
    rw [List.find?_eq_none] at hf
    rw [List.any_eq_false]
    exact hf

/-- A directory that is not cached and whose constructor succeeds is added under its
MRL, after the entries of the cache. -/
theorem createDirectory_built (f : Factory) (mrl : Str) (h : lookup f.m_dirs mrl = none) :
    createDirectory CtorResult.built f mrl
      = (some f.constructed,
          { f with m_dirs := f.m_dirs ++ [(mrl, f.constructed)],
                   constructed := f.constructed + 1 }) := by
  unfold createDirectory
  rw [h]
  simp only [assign, lookup_none_any f.m_dirs mrl h]
  rfl

theorem createDirectory_hit (ctor : CtorResult) (f : Factory) (mrl : Str) (d : Nat)
    (h : lookup f.m_dirs mrl = some d) : createDirectory ctor f mrl = (some d, f) := by
  unfold createDirectory
  rw [h]

/-- A call of `createDirectory` leaves the instance cached for another MRL in place. -/
theorem createDirectory_keeps (ctor : CtorResult) (f : Factory) (mrl1 mrl : Str) (d : Nat)
    (h : lookup f.m_dirs mrl = some d) :
    lookup (createDirectory ctor f mrl1).2.m_dirs mrl = some d := by
  cases h1 : lookup f.m_dirs mrl1 with
  | some d1 => rw [createDirectory_hit ctor f mrl1 d1 h1]; exact h
  | none =>
    cases ctor with
    | built =>
      rw [createDirectory_built f mrl1 h1]
      simp only
      rw [lookup_append, h]
    | system_error =>
      unfold createDirectory
      rw [h1]
      exact h

theorem createDirectory_returned (ctor : CtorResult) (f : Factory) (mrl : Str) (d : Nat)
    (h : (createDirectory ctor f mrl).1 = some d) :
    lookup (createDirectory ctor f mrl).2.m_dirs mrl = some d := by
  cases h1 : lookup f.m_dirs mrl with
  | some d1 =>
    rw [createDirectory_hit ctor f mrl d1 h1] at h ⊢
    simp only at h ⊢
    rw [h1, h]
  | none =>
    cases ctor with
    | built =>
      rw [createDirectory_built f mrl h1] at h ⊢
      simp only at h ⊢
      rw [lookup_append, h1]
      simp [h]
    | system_error =>
      unfold createDirectory at h
      rw [h1] at h
      exact absurd h (by simp)

theorem createDirectory_calls_keep (calls : List (Str × CtorResult)) :
    ∀ (f : Factory) (mrl : Str) (d : Nat), lookup f.m_dirs mrl = some d →
      lookup (calls.foldl (fun g c => (createDirectory c.2 g c.1).2) f).m_dirs mrl
        = some d := by
  induction calls with
  | nil => intro f mrl d h; exact h
  | cons c cs ih =>
    intro f mrl d h
    rw [List.foldl_cons]
    exact ih _ mrl d (createDirectory_keeps c.2 f c.1 mrl d h)

theorem createDirectory_nodup (ctor : CtorResult) (f : Factory) (mrl : Str)
    (h : (f.m_dirs.map Prod.fst).Nodup) :
    ((createDirectory ctor f mrl).2.m_dirs.map Prod.fst).Nodup := by
  cases h1 : lookup f.m_dirs mrl with
  | some d1 => rw [createDirectory_hit ctor f mrl d1 h1]; exact h
  | none =>
    cases ctor with
    | built =>
      rw [createDirectory_built f mrl h1]
      simp only
      rw [List.map_append, List.nodup_append]
      refine ⟨h, by simp, ?_⟩
      intro k hk hk2
      simp at hk2
      subst hk2
      obtain ⟨p, hp, hpk⟩ := List.mem_map.mp hk
      have hany := lookup_none_any f.m_dirs _ h1
      rw [List.any_eq_false] at hany
      exact hany p hp (by simp [hpk])
    | system_error =>
      unfold createDirectory
      rw [h1]
      exact h

theorem run_nodup (calls : List Call) :
    ∀ f : Factory, (f.m_dirs.map Prod.fst).Nodup → ((run f calls).m_dirs.map Prod.fst).Nodup := by
  induction calls with
  | nil => intro f h; exact h
  | cons c cs ih =>
    intro f h
    simp only [run, List.foldl_cons]
    apply ih
    cases c with
    | createDirectory mrl ctor => exact createDirectory_nodup ctor f mrl h
    | refreshDevices devices =>
      simp only [step, refreshDevices]
      split <;> simp

/-- C16: once `createDirectory( mrl )` has returned a directory, after any further calls
of `createDirectory` (for any MRLs, whether their constructors succeed or not) and
without `refreshDevices`, `createDirectory( mrl )` returns the same instance and leaves
the factory as it is, whatever the constructor would do: no directory is constructed.
And in every factory reached from its construction by calls of `createDirectory` and
`refreshDevices`, the cache holds at most one instance per MRL. -/
theorem createDirectory_cached (f : Factory) (mrl : Str) (ctor : CtorResult) (d : Nat)
    (calls : List (Str × CtorResult)) (ctor1 : CtorResult)
    (devices : List (Str × Str × Bool)) (history : List Call)
    (h : (createDirectory ctor f mrl).1 = some d) :
    createDirectory ctor1
        (calls.foldl (fun g c => (createDirectory c.2 g c.1).2) (createDirectory ctor f mrl).2)
        mrl
      = (some d,
         calls.foldl (fun g c => (createDirectory c.2 g c.1).2) (createDirectory ctor f mrl).2) ∧
    ((run (create devices) history).m_dirs.map Prod.fst).Nodup := by
  refine ⟨?_, ?_⟩
  · exact createDirectory_hit ctor1 _ mrl d
      (createDirectory_calls_keep calls _ mrl d (createDirectory_returned ctor f mrl d h))
  · apply run_nodup
    simp only [create, refreshDevices]
    split <;> simp

/-- C16 (witness): "file:///a/" is created, then "file:///b/" is created and the
creation of "file:///c/" fails; a later call for "file:///a/" returns instance 0,
whatever its constructor would do. -/
theorem createDirectory_cached_witness :
    (createDirectory CtorResult.system_error
      ([("file:///b/".toList, CtorResult.built),
        ("file:///c/".toList, CtorResult.system_error)].foldl
        (fun g c => (createDirectory c.2 g c.1).2)
        (createDirectory CtorResult.built (create []) "file:///a/".toList).2)
      "file:///a/".toList).1 = some 0 :=
  congrArg Prod.fst
    (createDirectory_cached (create []) "file:///a/".toList CtorResult.built 0
      [("file:///b/".toList, CtorResult.built), ("file:///c/".toList, CtorResult.system_error)]
      CtorResult.system_error [] [] (by decide)).1

/-- C17: when the MRL is not cached and the constructor of the directory fails with a
`std::system_error`, `createDirectory( mrl )` returns `nullptr` and leaves the factory,
its directory cache included, as it was; a later call constructs again and, when the
constructor succeeds, returns the new instance. -/
theorem createDirectory_failure (f : Factory) (mrl : Str)
    (hmiss : lookup f.m_dirs mrl = none) :
    createDirectory CtorResult.system_error f mrl = (none, f) ∧
    lookup (createDirectory CtorResult.system_error f mrl).2.m_dirs mrl = none ∧
    (createDirectory CtorResult.built
      (createDirectory CtorResult.system_error f mrl).2 mrl).1 = some f.constructed := by
  have h1 : createDirectory CtorResult.system_error f mrl = (none, f) := by
    unfold createDirectory
    rw [hmiss]
  refine ⟨h1, ?_, ?_⟩
  · rw [h1]
    exact hmiss
  · rw [h1]
    simp only
    rw [createDirectory_built f mrl hmiss]

/-- C17 (witness): a factory that has cached one directory; the creation of another
one fails. -/
theorem createDirectory_failure_witness :
    createDirectory CtorResult.system_error
        ⟨[("file:///a/".toList, 0)], [], 1⟩ "file:///b/".toList
      = (none, ⟨[("file:///a/".toList, 0)], [], 1⟩) :=
  (createDirectory_failure ⟨[("file:///a/".toList, 0)], [], 1⟩ "file:///b/".toList
    (by decide)).1

end FileSystemFactory

namespace FileSystemFactory

theorem lookup_emplace {β : Type} (m : List (Str × β)) (k k1 : Str) (v : β) :
    lookup (emplace m k1 v) k
      = match lookup m k with
        | some x => some x
        | none => if k1 = k then some v else none := by
  unfold emplace
  by_cases hany : m.any (fun p => p.1 == k1) = true
  · rw [if_pos hany]
    cases hl : lookup m k with
    | some x => rfl
    | none =>
      by_cases hk : k1 = k
      · subst hk
        rw [lookup_none_any m k1 hl] at hany
        exact absurd hany (by simp)
      · simp [hk]
  · rw [if_neg hany]
    exact lookup_append m k k1 v

theorem lookup_foldl_emplace (devices : List (Str × Str × Bool)) (uuid : Str) :
    ∀ c : List (Str × Device),
      lookup (devices.foldl (fun c d => emplace c d.1 ⟨d.1, d.2.1, d.2.2⟩) c) uuid
        = match lookup c uuid with
          | some x => some x
          | none =>
            (devices.find? (fun d => d.1 == uuid)).map (fun d => ⟨d.1, d.2.1, d.2.2⟩) := by
  induction devices with
  | nil =>
    intro c
    rw [List.foldl_nil]
    cases hl : lookup c uuid with
    | some x => rfl
    | none => rfl
  | cons d ds ih =>
    intro c
    rw [List.foldl_cons, ih, lookup_emplace]
    cases hl : lookup c uuid with
    | some x => rfl
    | none =>
      by_cases hk : d.1 = uuid
      · simp [hk]
      · simp [hk]

/-- C18: after `refreshDevices`, `createDevice( uuid )` returns the device built from
the first entry of the lister's list with that uuid (its uuid, mountpoint and removable
flag), and `nullptr` when the list has no entry with that uuid, whatever the device
cache held before; and the directory cache is empty. -/
theorem refreshDevices_cache (devices : List (Str × Str × Bool)) (f : Factory) (uuid : Str) :
    createDevice (refreshDevices devices f) uuid
      = (devices.find? (fun d => d.1 == uuid)).map (fun d => ⟨d.1, d.2.1, d.2.2⟩) ∧
    ((createDevice (refreshDevices devices f) uuid).isSome = true ↔
      ∃ d ∈ devices, d.1 = uuid) ∧
    (refreshDevices devices f).m_dirs = [] := by
  have h1 : createDevice (refreshDevices devices f) uuid
      = (devices.find? (fun d => d.1 == uuid)).map (fun d => ⟨d.1, d.2.1, d.2.2⟩) := by
    unfold createDevice refreshDevices
    cases devices with
    | nil => rfl
    | cons d ds =>
      simp only [List.isEmpty_cons, Bool.false_eq_true, if_false]
      rw [lookup_foldl_emplace]
      rfl
  refine ⟨h1, ?_, ?_⟩
  · rw [h1]
    cases hf : devices.find? (fun d => d.1 == uuid) with
    | some d =>
      have hm := List.mem_of_find?_eq_some hf
      have hp := List.find?_some hf
      simp only [Option.map_some', Option.isSome_some, true_iff]
      exact ⟨d, hm, by simpa using hp⟩
    | none =>
      rw [List.find?_eq_none] at hf
      simp only [Option.map_none', Option.isSome_none, Bool.false_eq_true, false_iff]
      rintro ⟨d, hd, hdu⟩
      exact hf d hd (by simp [hdu])
  · unfold refreshDevices
    split <;> rfl

end FileSystemFactory

/-! ## The Playlist table: mirror, foreign keys, `setName` -/

namespace PlaylistModel

open Playlist

theorem execUpdate_keys (Q : Nat → Nat → Prop) (wh : Row → Bool) (f : Row → Option Nat)
    (after : Table → Row → Option Table)
    (hafter : ∀ acc r t1, (∀ x ∈ acc, Q x.playlist_id x.media_id) → after acc r = some t1 →
      ∀ x ∈ t1, Q x.playlist_id x.media_id)
    (t t1 : Table) (h0 : ∀ x ∈ t, Q x.playlist_id x.media_id)
    (h : execUpdate wh f after t = some t1) : ∀ x ∈ t1, Q x.playlist_id x.media_id := by
  unfold execUpdate at h
  refine foldlM_some_invariant (fun t => ∀ x ∈ t, Q x.playlist_id x.media_id) _ ?_ _ _ _ h0 h
  intro acc i acc1 hacc hstep
  cases hget : acc.get? i with
  | none =>
    simp only [hget] at hstep
    cases hstep
    exact hacc
  | some r =>
    simp only [hget] at hstep
    refine hafter _ _ _ ?_ hstep
    intro x hx
    rcases List.mem_or_eq_of_mem_set hx with hx | hx
    · exact hacc x hx
    · rw [hx]
      exact hacc r (List.get?_mem hget)

theorem update_playlist_order_keys (Q : Nat → Nat → Prop) (recur : Bool) :
    ∀ (d : Nat) (t : Table) (new : Row) (t1 : Table),
      (∀ x ∈ t, Q x.playlist_id x.media_id) →
      update_playlist_order recur d t new = some t1 → ∀ x ∈ t1, Q x.playlist_id x.media_id := by
  intro d
  induction d with
  | zero => intro t new t1 _ h; simp [update_playlist_order] at h
  | succ d ih =>
    intro t new t1 h0 h
    rw [update_playlist_order] at h
    refine execUpdate_keys Q _ _ _ ?_ t t1 h0 h
    intro acc r t2 hacc hstep
    cases recur with
    | true => exact ih acc r t2 hacc (by simpa using hstep)
    | false =>
      simp at hstep
      rw [← hstep]
      exact hacc

theorem execInsert_keys (Q : Nat → Nat → Prop) (e : Engine) (t t1 : Table) (new : Row)
    (h0 : ∀ x ∈ t, Q x.playlist_id x.media_id) (hnew : Q new.playlist_id new.media_id)
    (h : execInsert e t new = some t1) : ∀ x ∈ t1, Q x.playlist_id x.media_id := by
  unfold execInsert at h
  split at h
  · exact absurd h (by simp)
  · have h1 : ∀ x ∈ t ++ [new], Q x.playlist_id x.media_id := by
      intro x hx
      rcases List.mem_append.mp hx with hx | hx
      · exact h0 x hx
      · simp at hx
        rw [hx]
        exact hnew
    cases happ : append_new_playlist_record e.recursive_triggers e.trigger_depth
        (t ++ [new]) new with
    | none => rw [happ] at h; exact absurd h (by simp)
    | some t2 =>
      rw [happ] at h
      simp only [Option.some_bind] at h
      have h2 : ∀ x ∈ t2, Q x.playlist_id x.media_id := by
        cases hd : e.trigger_depth with
        | zero => rw [hd] at happ; simp [append_new_playlist_record] at happ
        | succ d =>
          rw [hd, append_new_playlist_record] at happ
          split at happ
          · exact execUpdate_keys Q _ _ _
              (fun acc r t3 hacc hs => update_playlist_order_keys Q _ d acc r t3 hacc hs)
              _ _ h1 happ
          · cases happ
            exact h1
      cases hd : e.trigger_depth with
      | zero => rw [hd] at h; simp [update_playlist_order_on_insert] at h
      | succ d =>
        rw [hd, update_playlist_order_on_insert] at h
        split at h
        · exact execUpdate_keys Q _ _ _
            (fun acc r t3 hacc hs => update_playlist_order_keys Q _ d acc r t3 hacc hs)
            _ _ h2 h
        · cases h
          exact h2

theorem add_keys (Q : Nat → Nat → Prop) (e : Engine) (t : Table) (pl m p : Nat)
    (h0 : ∀ x ∈ t, Q x.playlist_id x.media_id) (hnew : Q pl m) :
    ∀ x ∈ (Playlist.add e t pl m p).2, Q x.playlist_id x.media_id := by
  unfold Playlist.add
  cases h : execInsert e t ⟨m, pl, foreignKey p⟩ with
  | none => exact h0
  | some t1 => exact execInsert_keys Q e t t1 _ h0 hnew h

theorem move_keys (Q : Nat → Nat → Prop) (e : Engine) (t : Table) (pl m p : Nat)
    (h0 : ∀ x ∈ t, Q x.playlist_id x.media_id) :
    ∀ x ∈ (Playlist.move e t pl m p).2, Q x.playlist_id x.media_id := by
  unfold Playlist.move
  split
  · exact h0
  · cases h : execUpdate (fun r => r.playlist_id == pl && r.media_id == m)
        (fun _ => some p) (update_playlist_order e.recursive_triggers e.trigger_depth) t with
    | none => exact h0
    | some t1 =>
      exact execUpdate_keys Q _ _ _
        (fun acc r t3 hacc hs => update_playlist_order_keys Q _ _ acc r t3 hacc hs) _ _ h0 h

theorem remove_keys (Q : Nat → Nat → Prop) (t : Table) (pl m : Nat)
    (h0 : ∀ x ∈ t, Q x.playlist_id x.media_id) :
    ∀ x ∈ (Playlist.remove t pl m).2, Q x.playlist_id x.media_id := by
  intro x hx
  exact h0 x (List.mem_of_mem_filter hx)

end PlaylistModel

namespace PlaylistModel

open Playlist

theorem parentsLive_iff (db : Database) (pl m : Nat) :
    parentsLive db pl m = true ↔ (∃ r ∈ db.playlist, r.id_playlist = pl) ∧ m ∈ db.media := by
  simp [parentsLive]

/-- A database whose relation rows keep parents: the relation rows come with keys that
were live before, or are live now, and no parent of a surviving row has gone. -/
theorem live_of_keys (db1 : Database)
    (h : ∀ r ∈ db1.relation, (∃ p ∈ db1.playlist, p.id_playlist = r.playlist_id) ∧
      r.media_id ∈ db1.media) : Live db1 := by
  intro r hr
  exact (parentsLive_iff db1 _ _).mpr (h r hr)

theorem Live.parents {db : Database} (h : Live db) :
    ∀ r ∈ db.relation, (∃ p ∈ db.playlist, p.id_playlist = r.playlist_id) ∧
      r.media_id ∈ db.media :=
  fun r hr => (parentsLive_iff db _ _).mp (h r hr)

theorem create_live (c : Connection) (db : Database) (name : String) (h : Live db) :
    Live (create c db name).2 := by
  unfold create insertPlaylist
  cases insert_playlist_fts c.engine.trigger_depth db.playlistFts ⟨nextId db, name⟩ with
  | none => exact h
  | some fts =>
    apply live_of_keys
    intro r hr
    obtain ⟨⟨p, hp, hpid⟩, hm⟩ := h.parents r hr
    exact ⟨⟨p, List.mem_append_left _ hp, hpid⟩, hm⟩

theorem updatePlaylistName_live (c : Connection) (db db1 : Database) (name : String)
    (id : Nat) (h : Live db) (hs : updatePlaylistName c db name id = some db1) : Live db1 := by
  unfold updatePlaylistName at hs
  split at hs
  · cases hf : update_playlist_fts c.engine.trigger_depth db.playlistFts ⟨id, name⟩ with
    | none => rw [hf] at hs; exact absurd hs (by simp)
    | some fts =>
      rw [hf] at hs
      cases hs
      apply live_of_keys
      intro r hr
      obtain ⟨⟨p, hp, hpid⟩, hm⟩ := h.parents r hr
      refine ⟨⟨_, List.mem_map_of_mem _ hp, ?_⟩, hm⟩
      by_cases hc : (p.id_playlist == id) = true
      · rw [if_pos hc]
        exact hpid
      · rw [if_neg hc]
        exact hpid
  · cases hs
    exact h

theorem setName_live (c : Connection) (self : Object) (db : Database) (name : String)
    (h : Live db) : Live (setName (executeUpdateName c) self db name).2.2 := by
  unfold setName
  split
  · exact h
  · unfold executeUpdateName
    cases hs : updatePlaylistName c db name self.m_id with
    | none => exact h
    | some db1 => exact updatePlaylistName_live c db db1 name self.m_id h hs

theorem deletePlaylist_live (c : Connection) (hfk : c.foreign_keys = true)
    (db db1 : Database) (id : Nat) (h : Live db) (hs : deletePlaylist c db id = some db1) :
    Live db1 ∧ ∀ r ∈ db1.relation, r.playlist_id ≠ id := by
  unfold deletePlaylist at hs
  cases hfind : db.playlist.find? (fun r => r.id_playlist == id) with
  | none =>
    simp only [hfind] at hs
    cases hs
    refine ⟨h, ?_⟩
    intro r hr hrid
    obtain ⟨⟨p, hp, hpid⟩, _⟩ := h.parents r hr
    rw [List.find?_eq_none] at hfind
    exact hfind p hp (by simp [hpid, hrid])
  | some old =>
    simp only [hfind] at hs
    cases hf : delete_playlist_fts c.engine.trigger_depth db.playlistFts old with
    | none => rw [hf] at hs; exact absurd hs (by simp)
    | some fts =>
      rw [hf] at hs
      cases hs
      simp only [hfk, if_true]
      constructor
      · apply live_of_keys
        intro r hr
        simp only at hr
        have hr' := List.mem_filter.mp hr
        obtain ⟨⟨p, hp, hpid⟩, hm⟩ := h.parents r hr'.1
        refine ⟨⟨p, List.mem_filter.mpr ⟨hp, ?_⟩, hpid⟩, hm⟩
        have := hr'.2
        simp at this ⊢
        rw [hpid]
        exact this
      · intro r hr
        have hr' := List.mem_filter.mp hr
        have := hr'.2
        simpa using this

theorem insertMedia_live (db db1 : Database) (id : Nat) (h : Live db)
    (hs : insertMedia db id = some db1) : Live db1 := by
  unfold insertMedia at hs
  split at hs
  · exact absurd hs (by simp)
  · cases hs
    apply live_of_keys
    intro r hr
    obtain ⟨hp, hm⟩ := h.parents r hr
    exact ⟨hp, List.mem_append_left _ hm⟩

theorem deleteMedia_live (c : Connection) (hfk : c.foreign_keys = true)
    (db db1 : Database) (id : Nat) (h : Live db) (hs : deleteMedia c db id = some db1) :
    Live db1 ∧ ∀ r ∈ db1.relation, r.media_id ≠ id := by
  unfold deleteMedia at hs
  cases hs
  simp only [hfk, if_true]
  constructor
  · apply live_of_keys
    intro r hr
    have hr' := List.mem_filter.mp hr
    obtain ⟨hp, hm⟩ := h.parents r hr'.1
    refine ⟨hp, List.mem_filter.mpr ⟨hm, ?_⟩⟩
    have := hr'.2
    simpa using this
  · intro r hr
    have hr' := List.mem_filter.mp hr
    have := hr'.2
    simpa using this

theorem addRow_live (c : Connection) (hfk : c.foreign_keys = true) (db : Database)
    (pl m p : Nat) (h : Live db) : Live (addRow c db pl m p).2 := by
  unfold addRow
  cases hp : parentsLive db pl m with
  | false =>
    simp only [hfk, Bool.not_false, Bool.and_self, if_true]
    exact h
  | true =>
    simp only [hfk, Bool.not_true, Bool.and_false, Bool.false_eq_true, if_false]
    intro r hr
    exact add_keys (fun a b => parentsLive db a b = true) c.engine db.relation pl m p h hp r hr

theorem dbStep_live (c : Connection) (hfk : c.foreign_keys = true) (db : Database)
    (op : DbOp) (h : Live db) : Live (dbStep c db op) := by
  cases op with
  | create name => exact create_live c db name h
  | setName self name => exact setName_live c self db name h
  | deletePlaylist id =>
    simp only [dbStep]
    cases hs : deletePlaylist c db id with
    | none => exact h
    | some db1 => exact (deletePlaylist_live c hfk db db1 id h hs).1
  | insertMedia id =>
    simp only [dbStep]
    cases hs : insertMedia db id with
    | none => exact h
    | some db1 => exact insertMedia_live db db1 id h hs
  | deleteMedia id =>
    simp only [dbStep]
    cases hs : deleteMedia c db id with
    | none => exact h
    | some db1 => exact (deleteMedia_live c hfk db db1 id h hs).1
  | entry pl op =>
    cases op with
    | append m => exact addRow_live c hfk db pl m 0 h
    | add m p => exact addRow_live c hfk db pl m p h
    | move m p =>
      intro r hr
      exact move_keys (fun a b => parentsLive db a b = true) c.engine db.relation pl m p h r hr
    | remove m =>
      intro r hr
      exact remove_keys (fun a b => parentsLive db a b = true) db.relation pl m h r hr

theorem dbRun_live (c : Connection) (hfk : c.foreign_keys = true) (ops : List DbOp) :
    ∀ db : Database, Live db → Live (dbRun c db ops) := by
  induction ops with
  | nil => intro db h; exact h
  | cons op ops ih =>
    intro db h
    simp only [dbRun, List.foldl_cons]
    exact ih _ (dbStep_live c hfk db op h)

end PlaylistModel

namespace Playlist

open PlaylistModel

/-- C12 (counterexample): on a connection that does not enforce foreign keys, media 1
is deleted while playlist 1 holds it, and playlist 1 is deleted while it holds media 2:
both relation rows stay, each referencing a row that is gone; and a row is added for a
playlist and a media that never existed. -/
theorem relation_row_dangles :
    (dbRun ⟨⟨true, 1000⟩, false⟩ Database.empty
      [DbOp.create "a", DbOp.insertMedia 1, DbOp.entry 1 (Op.append 1),
       DbOp.deleteMedia 1]).relation = [⟨1, 1, some 1⟩] ∧
    (dbRun ⟨⟨true, 1000⟩, false⟩ Database.empty
      [DbOp.create "a", DbOp.insertMedia 1, DbOp.entry 1 (Op.append 1),
       DbOp.deleteMedia 1]).media = [] ∧
    ¬ Live (dbRun ⟨⟨true, 1000⟩, false⟩ Database.empty
      [DbOp.create "a", DbOp.insertMedia 1, DbOp.entry 1 (Op.append 1),
       DbOp.deleteMedia 1]) ∧
    (dbRun ⟨⟨true, 1000⟩, false⟩ Database.empty
      [DbOp.create "a", DbOp.insertMedia 2, DbOp.entry 1 (Op.append 2),
       DbOp.deletePlaylist 1]).relation = [⟨2, 1, some 1⟩] ∧
    (dbRun ⟨⟨true, 1000⟩, false⟩ Database.empty
      [DbOp.create "a", DbOp.insertMedia 2, DbOp.entry 1 (Op.append 2),
       DbOp.deletePlaylist 1]).playlist = [] ∧
    ¬ Live (dbRun ⟨⟨true, 1000⟩, false⟩ Database.empty
      [DbOp.create "a", DbOp.insertMedia 2, DbOp.entry 1 (Op.append 2),
       DbOp.deletePlaylist 1]) ∧
    ¬ Live (dbRun ⟨⟨true, 1000⟩, false⟩ Database.empty [DbOp.entry 5 (Op.append 9)]) := by
  decide

/-- C12 (amended): on a connection that enforces foreign keys, in every database
reached from the empty one by creating, renaming and deleting playlists, inserting and
deleting media, and append, add, move and remove on playlists, every row of
`PlaylistMediaRelation` references a playlist row and a media row that exist. There the
deletion of a media succeeds, removes the media and removes exactly the relation rows
that reference it; the deletion of a playlist (one level of trigger nesting allowed)
succeeds, removes the playlist and removes exactly the relation rows that reference
it; after either deletion every relation row still references rows that exist; and
the insert of a relation row whose playlist or media does not exist is refused. -/
theorem relation_rows_live (c : Connection) (ops : List DbOp)
    (hfk : c.foreign_keys = true) :
    Live (dbRun c Database.empty ops) ∧
    (∀ id db1, deletePlaylist c (dbRun c Database.empty ops) id = some db1 →
      Live db1 ∧ ∀ r ∈ db1.relation, r.playlist_id ≠ id) ∧
    (∀ id db1, deleteMedia c (dbRun c Database.empty ops) id = some db1 →
      Live db1 ∧ ∀ r ∈ db1.relation, r.media_id ≠ id) ∧
    (∀ id, ∃ db1, deleteMedia c (dbRun c Database.empty ops) id = some db1 ∧
      id ∉ db1.media ∧
      db1.relation
        = (dbRun c Database.empty ops).relation.filter (fun r => !(r.media_id == id))) ∧
    (∀ id, 1 ≤ c.engine.trigger_depth →
      ∃ db1, deletePlaylist c (dbRun c Database.empty ops) id = some db1 ∧
        (∀ p ∈ db1.playlist, p.id_playlist ≠ id) ∧
        db1.relation
          = (dbRun c Database.empty ops).relation.filter (fun r => !(r.playlist_id == id))) ∧
    (∀ pl mediaId position, parentsLive (dbRun c Database.empty ops) pl mediaId = false →
      addRow c (dbRun c Database.empty ops) pl mediaId position
        = (false, dbRun c Database.empty ops)) ∧
    (∀ pl mediaId position, parentsLive (dbRun c Database.empty ops) pl mediaId = true →
      (addRow c (dbRun c Database.empty ops) pl mediaId position).2.relation
        = (add c.engine (dbRun c Database.empty ops).relation pl mediaId position).2) := by
  have hlive : Live (dbRun c Database.empty ops) :=
    dbRun_live c hfk ops Database.empty (by intro r hr; simp [Database.empty] at hr)
  refine ⟨hlive, fun id db1 hs => deletePlaylist_live c hfk _ db1 id hlive hs,
    fun id db1 hs => deleteMedia_live c hfk _ db1 id hlive hs, ?_, ?_, ?_, ?_⟩
  · intro id
    refine ⟨_, rfl, ?_, ?_⟩
    · simp
    · simp [hfk]
  · intro id hdepth
    obtain ⟨d, hd⟩ := Nat.exists_eq_add_of_le hdepth
    have hd1 : c.engine.trigger_depth = d + 1 := by omega
    unfold deletePlaylist
    cases hfind : (dbRun c Database.empty ops).playlist.find? (fun r => r.id_playlist == id) with
    | none =>
      rw [List.find?_eq_none] at hfind
      refine ⟨_, rfl, ?_, ?_⟩
      · intro p hp hpid
        exact hfind p hp (by simp [hpid])
      · symm
        rw [List.filter_eq_self]
        intro r hr
        obtain ⟨⟨p, hp, hpid⟩, _⟩ := hlive.parents r hr
        have := hfind p hp
        simp only [beq_iff_eq, Bool.not_eq_true', beq_eq_false_iff_ne, ne_eq] at this ⊢
        rw [← hpid]
        exact this
    | some old =>
      simp only [hd1, delete_playlist_fts]
      refine ⟨_, rfl, ?_, ?_⟩
      · intro p hp
        have := (List.mem_filter.mp hp).2
        simpa using this
      · simp [hfk]
  · intro pl mediaId position hp
    unfold addRow
    simp [hfk, hp]
  · intro pl mediaId position hp
    unfold addRow
    simp [hfk, hp]

/-- C12 (witness): two playlists holding media 1; playlist 1 is deleted and its
relation row goes with it. -/
theorem relation_rows_live_witness :
    (dbRun ⟨⟨true, 1000⟩, true⟩ Database.empty
      [DbOp.create "a", DbOp.create "b", DbOp.insertMedia 1, DbOp.entry 1 (Op.append 1),
       DbOp.entry 2 (Op.append 1), DbOp.deletePlaylist 1]).relation
      = [⟨1, 2, some 1⟩] ∧
    Live (dbRun ⟨⟨true, 1000⟩, true⟩ Database.empty
      [DbOp.create "a", DbOp.create "b", DbOp.insertMedia 1, DbOp.entry 1 (Op.append 1),
       DbOp.entry 2 (Op.append 1), DbOp.deletePlaylist 1]) :=
  ⟨by decide,
   (relation_rows_live ⟨⟨true, 1000⟩, true⟩
      [DbOp.create "a", DbOp.create "b", DbOp.insertMedia 1, DbOp.entry 1 (Op.append 1),
       DbOp.entry 2 (Op.append 1), DbOp.deletePlaylist 1] rfl).1⟩

end Playlist

namespace PlaylistModel

open Playlist

theorem foldl_max_ge (l : List PlaylistRow) :
    ∀ m0 : Nat, m0 ≤ l.foldl (fun m r => max m r.id_playlist) m0 ∧
      ∀ r ∈ l, r.id_playlist ≤ l.foldl (fun m r => max m r.id_playlist) m0 := by
  induction l with
  | nil => intro m0; exact ⟨Nat.le_refl _, by simp⟩
  | cons x xs ih =>
    intro m0
    rw [List.foldl_cons]
    obtain ⟨h1, h2⟩ := ih (max m0 x.id_playlist)
    refine ⟨by omega, ?_⟩
    intro r hr
    rcases List.mem_cons.mp hr with hr | hr
    · rw [hr]
      omega
    · exact h2 r hr

theorem nextId_fresh (db : Database) : ∀ r ∈ db.playlist, r.id_playlist < nextId db := by
  intro r hr
  have := (foldl_max_ge db.playlist db.sequence).2 r hr
  unfold nextId
  omega

theorem MirrorInv.rowids {db : Database} (h : MirrorInv db) :
    db.playlistFts.map (fun m => m.rowid) = db.playlist.map (fun r => r.id_playlist) := by
  have := congrArg (List.map Prod.fst) h.1
  simpa [List.map_map, Function.comp] using this

theorem MirrorInv.mirrored {db : Database} (h : MirrorInv db) : Mirrored db := by
  constructor
  · intro id
    rw [h.rowids]
  · intro r hr m hm hid
    have hmem : (m.rowid, m.name) ∈ db.playlist.map (fun r => (r.id_playlist, r.name)) := by
      rw [← h.1]
      exact List.mem_map_of_mem (fun m : FtsRow => (m.rowid, m.name)) hm
    obtain ⟨r1, hr1, heq⟩ := List.mem_map.mp hmem
    simp only [Prod.mk.injEq] at heq
    have : r1 = r := List.inj_on_of_nodup_map h.2 hr1 hr (by rw [heq.1, hid])
    rw [← heq.2, this]

theorem insertPlaylist_mirror (c : Connection) (db : Database) (name : String)
    (id : Nat) (db1 : Database) (h : MirrorInv db)
    (hs : insertPlaylist c db name = some (id, db1)) : MirrorInv db1 := by
  unfold insertPlaylist at hs
  cases hd : c.engine.trigger_depth with
  | zero => rw [hd] at hs; simp [insert_playlist_fts] at hs
  | succ d =>
    rw [hd] at hs
    by_cases hany : (db.playlistFts.any fun r => r.rowid == nextId db) = true
    · simp [insert_playlist_fts, hany] at hs
    · simp only [insert_playlist_fts, hany, Bool.false_eq_true, if_false, Option.some.injEq,
        Prod.mk.injEq] at hs
      rw [← hs.2]
      constructor
      · simp only [List.map_append, List.map_cons, List.map_nil]
        rw [h.1]
      · simp only [List.map_append, List.map_cons, List.map_nil]
        rw [List.nodup_append]
        refine ⟨h.2, by simp, ?_⟩
        intro k hk hk2
        simp at hk2
        obtain ⟨r, hr, hrk⟩ := List.mem_map.mp hk
        have := nextId_fresh db r hr
        omega

theorem updatePlaylistName_mirror (c : Connection) (db db1 : Database) (name : String)
    (id : Nat) (h : MirrorInv db) (hs : updatePlaylistName c db name id = some db1) :
    MirrorInv db1 := by
  unfold updatePlaylistName at hs
  split at hs
  · cases hd : c.engine.trigger_depth with
    | zero => rw [hd] at hs; simp [update_playlist_fts] at hs
    | succ d =>
      rw [hd] at hs
      simp only [update_playlist_fts] at hs
      cases hs
      constructor
      · simp only [List.map_map]
        have e1 : ((fun m : FtsRow => (m.rowid, m.name)) ∘
            fun r : FtsRow => if r.rowid == id then { r with name := name } else r)
            = (fun x : Nat × String => if x.1 == id then (x.1, name) else x) ∘
              (fun m : FtsRow => (m.rowid, m.name)) := by
          funext r
          simp only [Function.comp]
          by_cases hc : (r.rowid == id) = true
          · simp [hc]
          · simp [hc]
        have e2 : ((fun r : PlaylistRow => (r.id_playlist, r.name)) ∘
            fun r : PlaylistRow => if r.id_playlist == id then { r with name := name } else r)
            = (fun x : Nat × String => if x.1 == id then (x.1, name) else x) ∘
              (fun r : PlaylistRow => (r.id_playlist, r.name)) := by
          funext r
          simp only [Function.comp]
          by_cases hc : (r.id_playlist == id) = true
          · simp [hc]
          · simp [hc]
        rw [e1, e2, ← List.map_map, ← List.map_map, h.1]
      · simp only [List.map_map]
        have e3 : ((fun r : PlaylistRow => r.id_playlist) ∘
            fun r : PlaylistRow => if r.id_playlist == id then { r with name := name } else r)
            = fun r : PlaylistRow => r.id_playlist := by
          funext r
          simp only [Function.comp]
          split <;> rfl
        rw [e3]
        exact h.2
  · cases hs
    exact h

theorem deletePlaylist_mirror (c : Connection) (db db1 : Database) (id : Nat)
    (h : MirrorInv db) (hs : deletePlaylist c db id = some db1) : MirrorInv db1 := by
  unfold deletePlaylist at hs
  cases hfind : db.playlist.find? (fun r => r.id_playlist == id) with
  | none =>
    simp only [hfind] at hs
    cases hs
    exact h
  | some old =>
    simp only [hfind] at hs
    have hold : old.id_playlist = id := by
      have := List.find?_some hfind
      simpa using this
    cases hd : c.engine.trigger_depth with
    | zero => rw [hd] at hs; simp [delete_playlist_fts] at hs
    | succ d =>
      rw [hd] at hs
      simp only [delete_playlist_fts, hold] at hs
      cases hs
      constructor
      · simp only
        have e1 : db.playlistFts.filter (fun r => !(r.rowid == id))
            = db.playlistFts.filter
              ((fun x : Nat × String => !(x.1 == id)) ∘ fun m : FtsRow => (m.rowid, m.name)) := rfl
        have e2 : db.playlist.filter (fun r => !(r.id_playlist == id))
            = db.playlist.filter
              ((fun x : Nat × String => !(x.1 == id)) ∘
                fun r : PlaylistRow => (r.id_playlist, r.name)) := rfl
        rw [e1, e2, ← List.filter_map, ← List.filter_map, h.1]
      · exact List.Nodup.sublist (List.Sublist.map _ (List.filter_sublist _)) h.2

theorem dbStep_mirror (c : Connection) (db : Database) (op : DbOp) (h : MirrorInv db) :
    MirrorInv (dbStep c db op) := by
  cases op with
  | create name =>
    simp only [dbStep, create]
    cases hs : insertPlaylist c db name with
    | none => exact h
    | some r =>
      obtain ⟨id, db1⟩ := r
      exact insertPlaylist_mirror c db name id db1 h hs
  | setName self name =>
    simp only [dbStep, setName]
    split
    · exact h
    · unfold executeUpdateName
      cases hs : updatePlaylistName c db name self.m_id with
      | none => exact h
      | some db1 => exact updatePlaylistName_mirror c db db1 name self.m_id h hs
  | deletePlaylist id =>
    simp only [dbStep]
    cases hs : deletePlaylist c db id with
    | none => exact h
    | some db1 => exact deletePlaylist_mirror c db db1 id h hs
  | insertMedia id =>
    simp only [dbStep, insertMedia]
    split <;> exact h
  | deleteMedia id => exact h
  | entry pl op =>
    cases op with
    | append m =>
      simp only [dbStep, addRow]
      split <;> exact h
    | add m p =>
      simp only [dbStep, addRow]
      split <;> exact h
    | move m p => exact h
    | remove m => exact h

theorem dbRun_mirror (c : Connection) (ops : List DbOp) :
    ∀ db : Database, MirrorInv db → MirrorInv (dbRun c db ops) := by
  induction ops with
  | nil => intro db h; exact h
  | cons op ops ih =>
    intro db h
    simp only [dbRun, List.foldl_cons]
    exact ih _ (dbStep_mirror c db op h)

end PlaylistModel

namespace Playlist

open PlaylistModel

/-- C11: in every database reached from the empty one by a sequence of statements, among
them playlist inserts (`create`), name updates (`setName`) and playlist deletions, the
rowids of `PlaylistFts` are the `id_playlist` values of `Playlist`, and the name
mirrored for each of them is the name of the playlist row. -/
theorem fts_mirror_in_sync (c : Connection) (ops : List DbOp) :
    Mirrored (dbRun c Database.empty ops) :=
  (dbRun_mirror c ops Database.empty ⟨rfl, by simp [Database.empty]⟩).mirrored

/-- C13: when the new name equals the current one, `setName` returns true and leaves the
object and the database as they are, whatever the update helper would do (it is not
called); otherwise the UPDATE is issued with the new name and `m_id`: when it fails,
`setName` returns false and `name()` is unchanged, and when it succeeds, `setName`
returns true and `name()` is the new name. -/
theorem setName_result (executeUpdate : Database → String → Nat → Bool × Database)
    (self : Object) (db : Database) (newName : String) :
    (newName = self.m_name → setName executeUpdate self db newName = (true, self, db)) ∧
    (newName ≠ self.m_name → (executeUpdate db newName self.m_id).1 = false →
      (setName executeUpdate self db newName).1 = false ∧
      name (setName executeUpdate self db newName).2.1 = name self) ∧
    (newName ≠ self.m_name → (executeUpdate db newName self.m_id).1 = true →
      (setName executeUpdate self db newName).1 = true ∧
      name (setName executeUpdate self db newName).2.1 = newName ∧
      (setName executeUpdate self db newName).2.2 = (executeUpdate db newName self.m_id).2) := by
  refine ⟨?_, ?_, ?_⟩
  · intro h
    unfold setName
    rw [if_pos h]
  · intro h hf
    unfold setName
    rw [if_neg h]
    cases hx : executeUpdate db newName self.m_id with
    | mk ok db1 =>
      rw [hx] at hf
      simp only at hf
      subst hf
      exact ⟨rfl, rfl⟩
  · intro h hf
    unfold setName
    rw [if_neg h]
    cases hx : executeUpdate db newName self.m_id with
    | mk ok db1 =>
      rw [hx] at hf
      simp only at hf
      subst hf
      exact ⟨rfl, rfl, rfl⟩

/-- C13 (witness): the playlist "a" is renamed "b" with the statement of the model; the
same name again issues nothing; and with no trigger nesting allowed the UPDATE fails. -/
theorem setName_result_witness :
    setName (executeUpdateName ⟨⟨true, 1000⟩, true⟩) ⟨1, "a"⟩
        ⟨[⟨1, "a"⟩], 1, [⟨1, "a"⟩], [], []⟩ "b"
      = (true, ⟨1, "b"⟩, ⟨[⟨1, "b"⟩], 1, [⟨1, "b"⟩], [], []⟩) ∧
    setName (executeUpdateName ⟨⟨true, 0⟩, true⟩) ⟨1, "a"⟩
        ⟨[⟨1, "a"⟩], 1, [⟨1, "a"⟩], [], []⟩ "a"
      = (true, ⟨1, "a"⟩, ⟨[⟨1, "a"⟩], 1, [⟨1, "a"⟩], [], []⟩) ∧
    (setName (executeUpdateName ⟨⟨true, 0⟩, true⟩) ⟨1, "a"⟩
        ⟨[⟨1, "a"⟩], 1, [⟨1, "a"⟩], [], []⟩ "b").1 = false :=
  ⟨by decide,
   (setName_result (executeUpdateName ⟨⟨true, 0⟩, true⟩) ⟨1, "a"⟩
      ⟨[⟨1, "a"⟩], 1, [⟨1, "a"⟩], [], []⟩ "a").1 rfl,
   ((setName_result (executeUpdateName ⟨⟨true, 0⟩, true⟩) ⟨1, "a"⟩
      ⟨[⟨1, "a"⟩], 1, [⟨1, "a"⟩], [], []⟩ "b").2.1 (by decide) (by decide)).1⟩

end Playlist

/-! ## Metadata probe: claims -/

namespace VLCMetadataService


/-- C20: for a task whose media is not parsed yet (`duration()` is -1), when no event
with `parsed == true` arrives while `run` waits, `run` returns Fatal and leaves the
task, with its audio tracks, video tracks and meta fields, as it was. -/
theorem run_timeout (libvlc3 : Bool) (vlcMedia : VlcMedia) (task : Task)
    (hnew : task.mediaDuration = -1)
    (hsilent : ∀ parsed ∈ vlcMedia.parsedEvents, parsed = false) :
    run libvlc3 vlcMedia task = (Status.Fatal, task) := by
  have hdone : vlcMedia.parsedEvents.any (fun parsed => parsed) = false := by
    rw [List.any_eq_false]
    intro x hx
    rw [hsilent x hx]
    simp
  unfold run
  rw [if_neg (by rw [hnew]; simp)]
  simp only [hdone, if_true]

/-- C20 (witness): a probe that reports `parsed == false` once and would have one
track; the task stays as it was. -/
theorem run_timeout_witness :
    run true ⟨[false], [⟨0x6167706d, TrackType.Audio, 0, 0, 0, 0, 128000, 44100, 2, [], []⟩],
        fun _ => "x".toList, 1000⟩
      ⟨-1, [], [], [], 0, 0, [], [], [], [], [], [], [], 0, 0, 0⟩
      = (Status.Fatal, ⟨-1, [], [], [], 0, 0, [], [], [], [], [], [], [], 0, 0, 0⟩) :=
  run_timeout true
    ⟨[false], [⟨0x6167706d, TrackType.Audio, 0, 0, 0, 0, 128000, 44100, 2, [], []⟩],
      fun _ => "x".toList, 1000⟩
    ⟨-1, [], [], [], 0, 0, [], [], [], [], [], [], [], 0, 0, 0⟩ rfl (by decide)

end VLCMetadataService

namespace VLCMetadataService

/-- The loop over the tracks appends one entry per video track and one per audio track,
in the order of the tracks, and changes no other field of the task. -/
theorem foldl_addTrack (tracks : List MediaTrack) (task : Task) :
    tracks.foldl addTrack task =
      { task with
        videoTracks := task.videoTracks ++
          (tracks.filter (fun t => t.type == TrackType.Video)).map
            (fun t => ⟨fourcc t.codec, ⟨t.fpsNum, t.fpsDen⟩, t.width, t.height⟩)
        audioTracks := task.audioTracks ++
          (tracks.filter (fun t => t.type == TrackType.Audio)).map
            (fun t => ⟨fourcc t.codec, t.bitrate, t.rate, t.channels, t.language,
              t.description⟩) } := by
  induction tracks generalizing task with
  | nil => simp
  | cons t ts ih =>
    rw [List.foldl_cons, ih]
    cases ht : t.type <;> simp [addTrack, ht]

/-- When the media is not parsed yet, the probe completes and reports a track, `run`
returns Success with the task after the loop and `storeMeta`. -/
theorem run_success (libvlc3 : Bool) (vlcMedia : VlcMedia) (task : Task)
    (hnew : task.mediaDuration = -1)
    (hdone : vlcMedia.parsedEvents.any (fun parsed => parsed) = true)
    (htracks : vlcMedia.tracks ≠ []) :
    run libvlc3 vlcMedia task =
      (Status.Success, storeMeta libvlc3 (vlcMedia.tracks.foldl addTrack task) vlcMedia) := by
  have hlen : ¬ vlcMedia.tracks.length = 0 := by
    intro h
    exact htracks (List.length_eq_zero.mp h)
  unfold run
  rw [if_neg (by rw [hnew]; simp)]
  simp only [hdone, Bool.true_eq_false, if_false, hlen]

/-- C21: for a task whose media is not parsed yet, when the probe completes (an event
with `parsed == true` arrives) but reports no track, `run` returns Fatal and leaves the
task, with its track lists and meta fields, as it was. -/
theorem run_no_tracks (libvlc3 : Bool) (vlcMedia : VlcMedia) (task : Task)
    (hnew : task.mediaDuration = -1)
    (hdone : ∃ parsed ∈ vlcMedia.parsedEvents, parsed = true)
    (hzero : vlcMedia.tracks.length = 0) :
    run libvlc3 vlcMedia task = (Status.Fatal, task) := by
  have hany : vlcMedia.parsedEvents.any (fun parsed => parsed) = true := by
    obtain ⟨parsed, hmem, hp⟩ := hdone
    exact List.any_eq_true.mpr ⟨parsed, hmem, hp⟩
  unfold run
  rw [if_neg (by rw [hnew]; simp)]
  simp only [hany, Bool.true_eq_false, if_false, hzero, if_true]

/-- C21 (witness): a probe that completes with an empty track list and non-empty meta
strings; the task stays as it was. -/
theorem run_no_tracks_witness :
    run true ⟨[false, true], [], fun _ => "x".toList, 1000⟩
      ⟨-1, [], [], [], 0, 0, [], [], [], [], [], [], [], 0, 0, 0⟩
      = (Status.Fatal, ⟨-1, [], [], [], 0, 0, [], [], [], [], [], [], [], 0, 0, 0⟩) :=
  run_no_tracks true ⟨[false, true], [], fun _ => "x".toList, 1000⟩
    ⟨-1, [], [], [], 0, 0, [], [], [], [], [], [], [], 0, 0, 0⟩ rfl
    ⟨true, by decide, rfl⟩ rfl

/-- C22: for a task whose media has a duration other than -1, `run` returns Success and
the task as it was, whatever the probe would deliver (it is not consulted), and a second
run on the result, with any probe, gives the same status and task as the first. -/
theorem run_already_parsed (libvlc3 : Bool) (vlcMedia vlcMedia2 : VlcMedia) (task : Task)
    (hparsed : task.mediaDuration ≠ -1) :
    run libvlc3 vlcMedia task = (Status.Success, task) ∧
    run libvlc3 vlcMedia2 (run libvlc3 vlcMedia task).2 = run libvlc3 vlcMedia task := by
  have h : ∀ v : VlcMedia, run libvlc3 v task = (Status.Success, task) := by
    intro v
    unfold run
    rw [if_pos hparsed]
  rw [h vlcMedia]
  exact ⟨rfl, h vlcMedia2⟩

/-- C22 (witness): a task with media duration 1000 and one audio track already stored;
two probes that would each deliver a track are not consulted. -/
theorem run_already_parsed_witness :
    run true ⟨[true], [⟨0x6167706d, TrackType.Audio, 0, 0, 0, 0, 128000, 44100, 2, [], []⟩],
        fun _ => "x".toList, 1000⟩
      ⟨1000, [], [⟨"mpga".toList, 128000, 44100, 2, [], []⟩], [], 0, 0, [], [], [], [], [], [],
        [], 1000, 0, 0⟩
      = (Status.Success,
        ⟨1000, [], [⟨"mpga".toList, 128000, 44100, 2, [], []⟩], [], 0, 0, [], [], [], [], [],
          [], [], 1000, 0, 0⟩) :=
  (run_already_parsed true
    ⟨[true], [⟨0x6167706d, TrackType.Audio, 0, 0, 0, 0, 128000, 44100, 2, [], []⟩],
      fun _ => "x".toList, 1000⟩
    ⟨[true], [⟨0x6167706d, TrackType.Audio, 0, 0, 0, 0, 128000, 44100, 2, [], []⟩],
      fun _ => "y".toList, 2000⟩
    ⟨1000, [], [⟨"mpga".toList, 128000, 44100, 2, [], []⟩], [], 0, 0, [], [], [], [], [], [],
      [], 1000, 0, 0⟩ (by decide)).1

/-- The predicate of `run` is the duration of the media, which `run` does not write: a
second run on a task whose media duration is still -1 probes again and stores the tracks
a second time. -/
theorem run_twice_unparsed :
    (run true ⟨[true], [⟨0x6167706d, TrackType.Audio, 0, 0, 0, 0, 128000, 44100, 2, [], []⟩],
        fun _ => [], 1000⟩
      (run true ⟨[true], [⟨0x6167706d, TrackType.Audio, 0, 0, 0, 0, 128000, 44100, 2, [], []⟩],
          fun _ => [], 1000⟩
        ⟨-1, [], [], [], 0, 0, [], [], [], [], [], [], [], 0, 0, 0⟩).2).2.audioTracks
      = [⟨"mpga".toList, 128000, 44100, 2, [], []⟩, ⟨"mpga".toList, 128000, 44100, 2, [], []⟩] := by
  decide

/-- C23: when the media is not parsed yet and the probe completes with at least one
track, `run` returns Success, the audio tracks of the task are the former ones followed
by one entry per probed track of type Audio, in probe order, with that track's four
character codec, bitrate, sample rate, channel count, language and description, and the
video tracks are the former ones followed by one entry per probed track of type Video;
tracks of another type add nothing. -/
theorem run_tracks (libvlc3 : Bool) (vlcMedia : VlcMedia) (task : Task)
    (hnew : task.mediaDuration = -1)
    (hdone : vlcMedia.parsedEvents.any (fun parsed => parsed) = true)
    (htracks : vlcMedia.tracks ≠ []) :
    (run libvlc3 vlcMedia task).1 = Status.Success ∧
    (run libvlc3 vlcMedia task).2.audioTracks = task.audioTracks ++
      (vlcMedia.tracks.filter (fun t => t.type == TrackType.Audio)).map
        (fun t => ⟨fourcc t.codec, t.bitrate, t.rate, t.channels, t.language,
          t.description⟩) ∧
    (run libvlc3 vlcMedia task).2.videoTracks = task.videoTracks ++
      (vlcMedia.tracks.filter (fun t => t.type == TrackType.Video)).map
        (fun t => ⟨fourcc t.codec, ⟨t.fpsNum, t.fpsDen⟩, t.width, t.height⟩) := by
  rw [run_success libvlc3 vlcMedia task hnew hdone htracks, foldl_addTrack]
  exact ⟨rfl, rfl, rfl⟩

/-- C23 (witness): the probe of one mp3 file, a single audio track of codec `mpga`,
bitrate 128000, sample rate 44100 and 2 channels, gives exactly that audio track and no
video track. -/
theorem run_tracks_witness :
    (run true ⟨[true], [⟨0x6167706d, TrackType.Audio, 0, 0, 0, 0, 128000, 44100, 2, [], []⟩],
        fun _ => [], 1000⟩
      ⟨-1, [], [], [], 0, 0, [], [], [], [], [], [], [], 0, 0, 0⟩).2.audioTracks
      = [⟨"mpga".toList, 128000, 44100, 2, [], []⟩] ∧
    (run true ⟨[true], [⟨0x6167706d, TrackType.Audio, 0, 0, 0, 0, 128000, 44100, 2, [], []⟩],
        fun _ => [], 1000⟩
      ⟨-1, [], [], [], 0, 0, [], [], [], [], [], [], [], 0, 0, 0⟩).2.videoTracks = [] :=
  have h := run_tracks true
    ⟨[true], [⟨0x6167706d, TrackType.Audio, 0, 0, 0, 0, 128000, 44100, 2, [], []⟩],
      fun _ => [], 1000⟩
    ⟨-1, [], [], [], 0, 0, [], [], [], [], [], [], [], 0, 0, 0⟩ rfl (by decide) (by decide)
  ⟨h.2.1.trans (by decide), h.2.2.trans (by decide)⟩

end VLCMetadataService

namespace VLCMetadataService

/-- A digit is neither white space nor a sign. -/
theorem isDigit_not_space_sign (c : Char) (h : isDigit c = true) :
    isSpace c = false ∧ c ≠ Char.ofNat 45 ∧ c ≠ Char.ofNat 43 := by
  simp only [isDigit, Bool.and_eq_true, decide_eq_true_eq] at h
  refine ⟨?_, ?_, ?_⟩
  · simp only [isSpace, Bool.or_eq_false_iff, Bool.and_eq_false_iff, beq_eq_false_iff_ne,
      decide_eq_false_iff_not]
    omega
  · intro e
    have h2 : c.toNat = 45 := by rw [e]; decide
    omega
  · intro e
    have h2 : c.toNat = 43 := by rw [e]; decide
    omega

/-- White space at the front is dropped. -/
theorem dropWhile_isSpace_append (ws l : Str) (hws : ∀ c ∈ ws, isSpace c = true) :
    (ws ++ l).dropWhile isSpace = l.dropWhile isSpace := by
  induction ws with
  | nil => rfl
  | cons w ws ih =>
    have hw : isSpace w = true := hws w (List.mem_cons_self _ _)
    rw [List.cons_append, List.dropWhile_cons, if_pos hw]
    exact ih (fun c hc => hws c (List.mem_cons_of_mem _ hc))

/-- Nothing is dropped from a string whose first character fails the test. -/
theorem dropWhile_of_head (p : Char → Bool) (l : Str)
    (h : ∀ c, l.head? = some c → p c = false) : l.dropWhile p = l := by
  cases l with
  | nil => rfl
  | cons a l =>
    have ha : p a = false := h a rfl
    rw [List.dropWhile_cons]
    simp [ha]

/-- The run of digits at the front of `ds ++ rest`. -/
theorem takeWhile_isDigit_append (ds rest : Str) (hds : ∀ c ∈ ds, isDigit c = true)
    (hrest : ∀ c, rest.head? = some c → isDigit c = false) :
    (ds ++ rest).takeWhile isDigit = ds := by
  induction ds with
  | nil =>
    cases rest with
    | nil => rfl
    | cons a l =>
      have ha : isDigit a = false := hrest a rfl
      simp [List.takeWhile_cons, ha]
  | cons d ds ih =>
    have hd : isDigit d = true := hds d (List.mem_cons_self _ _)
    rw [List.cons_append, List.takeWhile_cons, if_pos hd,
      ih (fun c hc => hds c (List.mem_cons_of_mem _ hc))]

/-- What `std::stoi` reads: white space, an optional sign, the digits, and any text after
them. -/
theorem stoi_append (ws sign ds rest : Str)
    (hws : ∀ c ∈ ws, isSpace c = true)
    (hsign : sign = [] ∨ sign = [Char.ofNat 45] ∨ sign = [Char.ofNat 43])
    (hds : ∀ c ∈ ds, isDigit c = true)
    (hrest : ∀ c, rest.head? = some c → isDigit c = false)
    (hnone : ds = [] → sign = [] → ∀ c, rest.head? = some c →
      isSpace c = false ∧ c ≠ Char.ofNat 45 ∧ c ≠ Char.ofNat 43) :
    stoi (ws ++ sign ++ ds ++ rest) =
      (if ds = [] then none
       else if sign = [Char.ofNat 45] then
         (if (digitsValue ds : Int) ≤ 2147483648 then some (-(digitsValue ds : Int)) else none)
       else (if (digitsValue ds : Int) ≤ 2147483647 then some (digitsValue ds : Int)
         else none)) := by
  have hhead : ∀ c, (ds ++ rest).head? = some c →
      (sign = [] → isSpace c = false ∧ c ≠ Char.ofNat 45 ∧ c ≠ Char.ofNat 43) := by
    intro c hc hs
    cases ds with
    | nil => exact hnone rfl hs c (by simpa using hc)
    | cons d ds =>
      have : d = c := by simpa using hc
      subst this
      exact isDigit_not_space_sign d (hds d (List.mem_cons_self _ _))
  have htake := takeWhile_isDigit_append ds rest hds hrest
  have hnn : (0 : Int) ≤ (digitsValue ds : Int) := Int.ofNat_nonneg _
  rcases hsign with hs | hs | hs
  · subst hs
    have hbody : (ws ++ [] ++ ds ++ rest).dropWhile isSpace = ds ++ rest := by
      rw [List.append_nil, List.append_assoc, dropWhile_isSpace_append ws _ hws]
      exact dropWhile_of_head _ _ (fun c hc => (hhead c hc rfl).1)
    have h45 : ((ds ++ rest).head? == some (Char.ofNat 45)) = false := by
      cases hh : (ds ++ rest).head? with
      | none => rfl
      | some c =>
        have := (hhead c hh rfl).2.1
        simpa using this
    have h43 : ((ds ++ rest).head? == some (Char.ofNat 43)) = false := by
      cases hh : (ds ++ rest).head? with
      | none => rfl
      | some c =>
        have := (hhead c hh rfl).2.2
        simpa using this
    unfold stoi
    simp only [hbody, h45, h43, Bool.or_self, Bool.false_eq_true, if_false, htake]
    by_cases hd : ds = []
    · simp [hd]
    · have hd2 : ds.isEmpty = false := by
        cases ds with
        | nil => exact absurd rfl hd
        | cons a l => rfl
      simp only [hd2, Bool.false_eq_true, if_false, hd]
      have hne : ¬ (([] : Str) = [Char.ofNat 45]) := by simp
      rw [if_neg hne]
      by_cases hr : (digitsValue ds : Int) ≤ 2147483647
      · rw [if_pos ⟨by omega, hr⟩, if_pos hr]
      · rw [if_neg (fun h => hr h.2), if_neg hr]
  · subst hs
    have hbody : (ws ++ [Char.ofNat 45] ++ ds ++ rest).dropWhile isSpace =
        Char.ofNat 45 :: (ds ++ rest) := by
      rw [List.append_assoc, List.append_assoc, dropWhile_isSpace_append ws _ hws]
      exact dropWhile_of_head _ _ (fun c hc => by
        have : Char.ofNat 45 = c := by simpa using hc
        subst this
        decide)
    unfold stoi
    simp only [hbody, List.head?_cons, beq_self_eq_true, Bool.true_or, if_true, List.tail_cons,
      htake]
    by_cases hd : ds = []
    · simp [hd]
    · have hd2 : ds.isEmpty = false := by
        cases ds with
        | nil => exact absurd rfl hd
        | cons a l => rfl
      simp only [hd2, Bool.false_eq_true, if_false, hd, if_true]
      by_cases hr : (digitsValue ds : Int) ≤ 2147483648
      · rw [if_pos ⟨by omega, by omega⟩, if_pos hr]
      · rw [if_neg (fun h => hr (by omega)), if_neg hr]
  · subst hs
    have hbody : (ws ++ [Char.ofNat 43] ++ ds ++ rest).dropWhile isSpace =
        Char.ofNat 43 :: (ds ++ rest) := by
      rw [List.append_assoc, List.append_assoc, dropWhile_isSpace_append ws _ hws]
      exact dropWhile_of_head _ _ (fun c hc => by
        have : Char.ofNat 43 = c := by simpa using hc
        subst this
        decide)
    have hne2 : ((some (Char.ofNat 43) : Option Char) == some (Char.ofNat 45)) = false := by
      decide
    unfold stoi
    simp only [hbody, List.head?_cons, hne2, beq_self_eq_true, Bool.or_true, if_true,
      List.tail_cons, htake]
    by_cases hd : ds = []
    · simp [hd]
    · have hd2 : ds.isEmpty = false := by
        cases ds with
        | nil => exact absurd rfl hd
        | cons a l => rfl
      simp only [hd2, Bool.false_eq_true, if_false, hd]
      have hne : ¬ ([Char.ofNat 43] = [Char.ofNat 45]) := by decide
      rw [if_neg hne]
      by_cases hr : (digitsValue ds : Int) ≤ 2147483647
      · rw [if_pos ⟨by omega, hr⟩, if_pos hr]
      · rw [if_neg (fun h => hr h.2), if_neg hr]

/-- C24 (counterexample): the tag `12abc` is not entirely an integer, and `toInt` gives
12 for it, not 0; so does the track number that `storeMeta` stores. -/
theorem toInt_trailing_text :
    toInt ⟨[], [], fun _ => "12abc".toList, 0⟩ Meta.TrackNumber = 12 ∧
    (storeMeta true ⟨-1, [], [], [], 0, 0, [], [], [], [], [], [], [], 0, 0, 0⟩
      ⟨[], [], fun _ => "12abc".toList, 0⟩).trackNumber = 12 := by
  decide

/-- C24 (amended): `toInt` reads the integer at the front of the tag and ignores what
follows it.  For a tag made of white space, an optional sign, a run of digits and a rest
that does not start with a digit, the result is the signed value of the digits when it
lies in the `int` range, and 0 when there is no digit at that place or the value is out of
range; `storeMeta` stores this result for the TrackNumber and Episode tags. -/
theorem toInt_leading_integer (libvlc3 : Bool) (task : Task) (vlcMedia : VlcMedia)
    (meta : Meta) (ws sign ds rest : Str)
    (hmeta : vlcMedia.meta meta = ws ++ sign ++ ds ++ rest)
    (hws : ∀ c ∈ ws, isSpace c = true)
    (hsign : sign = [] ∨ sign = [Char.ofNat 45] ∨ sign = [Char.ofNat 43])
    (hds : ∀ c ∈ ds, isDigit c = true)
    (hrest : ∀ c, rest.head? = some c → isDigit c = false)
    (hnone : ds = [] → sign = [] → ∀ c, rest.head? = some c →
      isSpace c = false ∧ c ≠ Char.ofNat 45 ∧ c ≠ Char.ofNat 43) :
    toInt vlcMedia meta =
      (if ds = [] then 0
       else if sign = [Char.ofNat 45] then
         (if (digitsValue ds : Int) ≤ 2147483648 then -(digitsValue ds : Int) else 0)
       else (if (digitsValue ds : Int) ≤ 2147483647 then (digitsValue ds : Int) else 0)) ∧
    (storeMeta libvlc3 task vlcMedia).trackNumber = toInt vlcMedia Meta.TrackNumber ∧
    (storeMeta libvlc3 task vlcMedia).episode = toInt vlcMedia Meta.Episode := by
  refine ⟨?_, rfl, rfl⟩
  unfold toInt
  by_cases he : (vlcMedia.meta meta).isEmpty = false
  · rw [if_pos he, hmeta, stoi_append ws sign ds rest hws hsign hds hrest hnone]
    by_cases hd : ds = []
    · simp [hd]
    · simp only [hd, if_false]
      by_cases hs : sign = [Char.ofNat 45]
      · simp only [hs, if_true]
        by_cases hr : (digitsValue ds : Int) ≤ 2147483648
        · simp only [hr, if_true]
        · simp only [hr, if_false]
      · simp only [hs, if_false]
        by_cases hr : (digitsValue ds : Int) ≤ 2147483647
        · simp only [hr, if_true]
        · simp only [hr, if_false]
  · rw [if_neg he]
    have hempty : ws ++ sign ++ ds ++ rest = [] := by
      rw [← hmeta]
      cases hm : vlcMedia.meta meta with
      | nil => rfl
      | cons a l => rw [hm] at he; exact absurd rfl he
    have hd : ds = [] := by
      cases ds with
      | nil => rfl
      | cons a l => simp at hempty
    simp [hd]

/-- C24 (witness): the tag `3/12` gives track number 3. -/
theorem toInt_leading_integer_witness :
    toInt ⟨[], [], fun _ => "3/12".toList, 0⟩ Meta.TrackNumber = 3 :=
  (toInt_leading_integer true ⟨-1, [], [], [], 0, 0, [], [], [], [], [], [], [], 0, 0, 0⟩
    ⟨[], [], fun _ => "3/12".toList, 0⟩ Meta.TrackNumber [] [] "3".toList "/12".toList
    rfl (by simp) (Or.inl rfl) (by decide) (by decide) (by simp)).1.trans (by decide)

end VLCMetadataService

namespace VLCMetadataService

/-- C25 (counterexample): in a build against a libvlc older than 3.0 a successful probe
with AlbumArtist `A`, DiscNumber `2` and DiscTotal `3` leaves the album artist of the task
as it was (here `old`) and stores 0 for the disc number and the disc total. -/
theorem run_old_libvlc :
    (run false
      ⟨[true], [⟨0x6167706d, TrackType.Audio, 0, 0, 0, 0, 128000, 44100, 2, [], []⟩],
        fun m => if m = Meta.AlbumArtist then "A".toList
          else if m = Meta.DiscNumber then "2".toList
          else if m = Meta.DiscTotal then "3".toList else [], 1000⟩
      ⟨-1, [], [], "old".toList, 7, 7, [], [], [], [], [], [], [], 0, 0, 0⟩)
      = (Status.Success,
        ⟨-1, [], [⟨"mpga".toList, 128000, 44100, 2, [], []⟩], "old".toList, 0, 0, [], [], [],
          [], [], [], [], 1000, 0, 0⟩) := by
  decide

/-- C25 (amended): after a successful probe the task holds the probe's value of Title,
Artist, Album, Genre, Date, ShowName and ArtworkURL and the probed duration.  In a build
against libvlc 3.0 or later it also holds the value of AlbumArtist, and DiscNumber and
DiscTotal as read by `toInt`; in an older build the album artist is the one the task had
and the disc number and disc total are 0. -/
theorem run_stores_meta (libvlc3 : Bool) (vlcMedia : VlcMedia) (task : Task)
    (hnew : task.mediaDuration = -1)
    (hdone : vlcMedia.parsedEvents.any (fun parsed => parsed) = true)
    (htracks : vlcMedia.tracks ≠ []) :
    (run libvlc3 vlcMedia task).1 = Status.Success ∧
    (run libvlc3 vlcMedia task).2.title = vlcMedia.meta Meta.Title ∧
    (run libvlc3 vlcMedia task).2.artist = vlcMedia.meta Meta.Artist ∧
    (run libvlc3 vlcMedia task).2.albumName = vlcMedia.meta Meta.Album ∧
    (run libvlc3 vlcMedia task).2.genre = vlcMedia.meta Meta.Genre ∧
    (run libvlc3 vlcMedia task).2.releaseDate = vlcMedia.meta Meta.Date ∧
    (run libvlc3 vlcMedia task).2.showName = vlcMedia.meta Meta.ShowName ∧
    (run libvlc3 vlcMedia task).2.artworkMrl = vlcMedia.meta Meta.ArtworkURL ∧
    (run libvlc3 vlcMedia task).2.duration = vlcMedia.duration ∧
    (run libvlc3 vlcMedia task).2.albumArtist =
      (if libvlc3 then vlcMedia.meta Meta.AlbumArtist else task.albumArtist) ∧
    (run libvlc3 vlcMedia task).2.discNumber =
      (if libvlc3 then toInt vlcMedia Meta.DiscNumber else 0) ∧
    (run libvlc3 vlcMedia task).2.discTotal =
      (if libvlc3 then toInt vlcMedia Meta.DiscTotal else 0) := by
  rw [run_success libvlc3 vlcMedia task hnew hdone htracks, foldl_addTrack]
  exact ⟨rfl, rfl, rfl, rfl, rfl, rfl, rfl, rfl, rfl, rfl, rfl, rfl⟩

/-- C25 (witness): a build against libvlc 3.0 stores the album artist `A` and the disc
number 2 of 3. -/
theorem run_stores_meta_witness :
    (run true
      ⟨[true], [⟨0x6167706d, TrackType.Audio, 0, 0, 0, 0, 128000, 44100, 2, [], []⟩],
        fun m => if m = Meta.AlbumArtist then "A".toList
          else if m = Meta.DiscNumber then "2".toList
          else if m = Meta.DiscTotal then "3".toList else [], 1000⟩
      ⟨-1, [], [], "old".toList, 7, 7, [], [], [], [], [], [], [], 0, 0, 0⟩).2.albumArtist
      = "A".toList ∧
    (run true
      ⟨[true], [⟨0x6167706d, TrackType.Audio, 0, 0, 0, 0, 128000, 44100, 2, [], []⟩],
        fun m => if m = Meta.AlbumArtist then "A".toList
          else if m = Meta.DiscNumber then "2".toList
          else if m = Meta.DiscTotal then "3".toList else [], 1000⟩
      ⟨-1, [], [], "old".toList, 7, 7, [], [], [], [], [], [], [], 0, 0, 0⟩).2.discNumber
      = 2 :=
  have h := run_stores_meta true
    ⟨[true], [⟨0x6167706d, TrackType.Audio, 0, 0, 0, 0, 128000, 44100, 2, [], []⟩],
      fun m => if m = Meta.AlbumArtist then "A".toList
        else if m = Meta.DiscNumber then "2".toList
        else if m = Meta.DiscTotal then "3".toList else [], 1000⟩
    ⟨-1, [], [], "old".toList, 7, 7, [], [], [], [], [], [], [], 0, 0, 0⟩
    rfl (by decide) (by decide)
  ⟨h.2.2.2.2.2.2.2.2.2.1.trans (by decide), h.2.2.2.2.2.2.2.2.2.2.1.trans (by decide)⟩

/-- C26: `run` gives a status for every task and every outcome of the probe, whether or
not an event arrives in time, whatever the tracks (also none, or video tracks with a
zero fps denominator) and whatever the meta strings, and this status is Success or
Fatal, never Retry or Discarded. -/
theorem run_status (libvlc3 : Bool) (vlcMedia : VlcMedia) (task : Task) :
    ((run libvlc3 vlcMedia task).1 = Status.Success ∨
      (run libvlc3 vlcMedia task).1 = Status.Fatal) ∧
    (run libvlc3 vlcMedia task).1 ≠ Status.Retry ∧
    (run libvlc3 vlcMedia task).1 ≠ Status.Discarded := by
  have h : (run libvlc3 vlcMedia task).1 = Status.Success ∨
      (run libvlc3 vlcMedia task).1 = Status.Fatal := by
    unfold run
    by_cases h1 : task.mediaDuration ≠ -1
    · rw [if_pos h1]; exact Or.inl rfl
    · rw [if_neg h1]
      by_cases h2 : vlcMedia.parsedEvents.any (fun parsed => parsed) = false
      · rw [if_pos h2]; exact Or.inr rfl
      · rw [if_neg h2]
        by_cases h3 : vlcMedia.tracks.length = 0
        · rw [if_pos h3]; exact Or.inr rfl
        · rw [if_neg h3]; exact Or.inl rfl
  refine ⟨h, ?_, ?_⟩
  · rcases h with h | h <;> rw [h] <;> decide
  · rcases h with h | h <;> rw [h] <;> decide

end VLCMetadataService

/-! ## MPEG video packetizer: lemmas and claims -/

namespace MpegVideo

/-- The DVR-MS case leaves the output format and the sync flags as they are. -/
theorem finishDvr_frame (core : Core) (st : Decoder) (p_pic : Block) (n : Nat) :
    (finishDvr core st p_pic n).2.fmt_out = st.fmt_out ∧
    (finishDvr core st p_pic n).2.b_waiting_iframe = st.b_waiting_iframe ∧
    (finishDvr core st p_pic n).2.b_sync_on_intra_frame = st.b_sync_on_intra_frame := by
  unfold finishDvr
  dsimp only
  split_ifs <;> exact ⟨rfl, rfl, rfl⟩

/-- The general case leaves the output format and the sync flags as they are. -/
theorem finishGeneral_frame (core : Core) (st : Decoder) (p_pic : Block) (n : Nat) :
    (finishGeneral core st p_pic n).2.fmt_out = st.fmt_out ∧
    (finishGeneral core st p_pic n).2.b_waiting_iframe = st.b_waiting_iframe ∧
    (finishGeneral core st p_pic n).2.b_sync_on_intra_frame = st.b_sync_on_intra_frame := by
  unfold finishGeneral
  dsimp only
  split_ifs <;> exact ⟨rfl, rfl, rfl⟩

/-- Ending a picture leaves the output format and the sync flags as they are. -/
theorem finishPicture_frame (core : Core) (st : Decoder) (p_frag : Block) :
    (finishPicture core st p_frag).2.2.fmt_out = st.fmt_out ∧
    (finishPicture core st p_frag).2.2.b_waiting_iframe = st.b_waiting_iframe ∧
    (finishPicture core st p_frag).2.2.b_sync_on_intra_frame = st.b_sync_on_intra_frame := by
  unfold finishPicture
  dsimp only
  by_cases h : st.is_dvr = true
  · rw [if_pos h]
    exact finishDvr_frame core st _ _
  · rw [if_neg h]
    exact finishGeneral_frame core st _ _

/-- Reading a fragment leaves the sample aspect ratio of the output format and the sync
flags as they are. -/
theorem parseFragment_frame (core : Core) (st : Decoder) (p_frag : Block) :
    (parseFragment core st p_frag).fmt_out.i_sar_num = st.fmt_out.i_sar_num ∧
    (parseFragment core st p_frag).fmt_out.i_sar_den = st.fmt_out.i_sar_den ∧
    (parseFragment core st p_frag).b_waiting_iframe = st.b_waiting_iframe ∧
    (parseFragment core st p_frag).b_sync_on_intra_frame = st.b_sync_on_intra_frame := by
  unfold parseFragment
  split_ifs
  · unfold parseGroup
    split
    · split_ifs <;> exact ⟨rfl, rfl, rfl, rfl⟩
    · exact ⟨rfl, rfl, rfl, rfl⟩
  · exact ⟨rfl, rfl, rfl, rfl⟩
  · unfold parseExtension
    dsimp only
    split_ifs <;> exact ⟨rfl, rfl, rfl, rfl⟩
  · exact ⟨rfl, rfl, rfl, rfl⟩
  · unfold parsePicture
    dsimp only
    split_ifs <;> exact ⟨rfl, rfl, rfl, rfl⟩
  · exact ⟨rfl, rfl, rfl, rfl⟩
  · exact ⟨rfl, rfl, rfl, rfl⟩

/-- The check for the end of a picture leaves the output format and the sync flags as
they are. -/
theorem endPicture_frame (core : Core) (st : Decoder) (p_frag : Block) :
    (endPicture core st p_frag).2.2.fmt_out = st.fmt_out ∧
    (endPicture core st p_frag).2.2.b_waiting_iframe = st.b_waiting_iframe ∧
    (endPicture core st p_frag).2.2.b_sync_on_intra_frame = st.b_sync_on_intra_frame := by
  unfold endPicture
  split_ifs
  · exact ⟨rfl, rfl, rfl⟩
  · exact finishPicture_frame core st p_frag
  · exact ⟨rfl, rfl, rfl⟩

/-- Flushing the closed captions leaves the output format and the sync flags as they
are. -/
theorem flushCc_frame (core : Core) (p_pic : Option Block) (st : Decoder) :
    (flushCc core p_pic st).fmt_out = st.fmt_out ∧
    (flushCc core p_pic st).b_waiting_iframe = st.b_waiting_iframe ∧
    (flushCc core p_pic st).b_sync_on_intra_frame = st.b_sync_on_intra_frame := by
  unfold flushCc
  split_ifs <;> exact ⟨rfl, rfl, rfl⟩

/-- `ParseMPEGBlock` leaves the sample aspect ratio of the output format and the sync
flags as they are. -/
theorem ParseMPEGBlock_frame (core : Core) (st : Decoder) (p_frag : Block) :
    (ParseMPEGBlock core st p_frag).2.fmt_out.i_sar_num = st.fmt_out.i_sar_num ∧
    (ParseMPEGBlock core st p_frag).2.fmt_out.i_sar_den = st.fmt_out.i_sar_den ∧
    (ParseMPEGBlock core st p_frag).2.b_waiting_iframe = st.b_waiting_iframe ∧
    (ParseMPEGBlock core st p_frag).2.b_sync_on_intra_frame = st.b_sync_on_intra_frame := by
  have he := endPicture_frame core st p_frag
  have hc := flushCc_frame core (endPicture core st p_frag).2.1 (endPicture core st p_frag).2.2
  unfold ParseMPEGBlock
  dsimp only
  cases hr : (endPicture core st p_frag).1 with
  | none =>
    dsimp only
    rw [hc.1, hc.2.1, hc.2.2, he.1, he.2.1, he.2.2]
    exact ⟨rfl, rfl, rfl, rfl⟩
  | some frag =>
    dsimp only
    have hf := parseFragment_frame core
      (flushCc core (endPicture core st p_frag).2.1 (endPicture core st p_frag).2.2) frag
    rw [hf.1, hf.2.1, hf.2.2.1, hf.2.2.2, hc.1, hc.2.1, hc.2.2, he.1, he.2.1, he.2.2]
    exact ⟨rfl, rfl, rfl, rfl⟩

/-- `PacketizeParse` leaves the sync flags as they are. -/
theorem PacketizeParse_sync (core : Core) (st : Decoder) (p_block : Block) :
    (PacketizeParse core st p_block).2.2.b_waiting_iframe = st.b_waiting_iframe ∧
    (PacketizeParse core st p_block).2.2.b_sync_on_intra_frame = st.b_sync_on_intra_frame := by
  have h := ParseMPEGBlock_frame core st p_block
  unfold PacketizeParse
  dsimp only
  cases hr : (ParseMPEGBlock core st p_block).1 with
  | none => exact ⟨h.2.2.1, h.2.2.2⟩
  | some p_pic => exact ⟨h.2.2.1, h.2.2.2⟩

end MpegVideo

namespace MpegVideo

/-- The picture that `ParseMPEGBlock` returns is the one found by the check for the end
of a picture. -/
theorem ParseMPEGBlock_fst (core : Core) (st : Decoder) (p_frag : Block) :
    (ParseMPEGBlock core st p_frag).1 = (endPicture core st p_frag).2.1 := by
  unfold ParseMPEGBlock
  dsimp only
  cases (endPicture core st p_frag).1 <;> rfl

/-- A picture is found only when a sequence header is stored. -/
theorem endPicture_some (core : Core) (st : Decoder) (p_frag : Block)
    (h : (endPicture core st p_frag).2.1.isSome = true) : st.p_seq.isSome = true := by
  unfold endPicture at h
  by_cases h1 : (pictureEnd st p_frag && st.p_seq.isNone) = true
  · rw [if_pos h1] at h
    exact absurd h (by simp)
  · rw [if_neg h1] at h
    by_cases h2 : pictureEnd st p_frag = true
    · rw [h2] at h1
      cases hs : st.p_seq with
      | none => rw [hs] at h1; exact absurd rfl h1
      | some s => rfl
    · rw [if_neg h2] at h
      exact absurd h (by simp)

/-- A picture that ends while no sequence header is stored is dropped. -/
theorem endPicture_drop (core : Core) (st : Decoder) (p_frag : Block)
    (hend : pictureEnd st p_frag = true) (hseq : st.p_seq = none) :
    endPicture core st p_frag =
      (some p_frag, none, { st with p_frame := [], b_frame_slice := false }) := by
  unfold endPicture
  rw [if_pos (by rw [hend, hseq]; rfl)]

/-- Without a stored sequence header, a fragment that is not a slice leaves the chain of
the frame and `b_frame_slice` as they are. -/
theorem parseFragment_no_seq (core : Core) (st : Decoder) (p_frag : Block)
    (hseq : st.p_seq = none) (hcode : p_frag.byte 3 = 0x00 ∨ p_frag.byte 3 > 0xaf) :
    (parseFragment core st p_frag).p_frame = st.p_frame ∧
    (parseFragment core st p_frag).b_frame_slice = st.b_frame_slice := by
  unfold parseFragment
  split_ifs with h1 h2 h3 h4 h5 h6
  · unfold parseGroup
    rw [hseq]
    exact ⟨rfl, rfl⟩
  · exact ⟨rfl, rfl⟩
  · unfold parseExtension
    dsimp only
    split_ifs <;> exact ⟨rfl, rfl⟩
  · exact ⟨rfl, rfl⟩
  · unfold parsePicture
    dsimp only
    split_ifs <;> exact ⟨rfl, rfl⟩
  · exfalso
    rcases hcode with h | h
    · exact h5 h
    · omega
  · exact ⟨rfl, rfl⟩

/-- What `PacketizeValidate` does while the packetizer waits for an intra frame. -/
theorem PacketizeValidate_waiting (st : Decoder) (p_au : Block)
    (hwait : st.b_waiting_iframe = true) :
    ((PacketizeValidate st p_au).1 = true → p_au.i_flags.type_i = true) ∧
    (p_au.i_flags.type_i = false →
      (PacketizeValidate st p_au).1 = false ∧ (PacketizeValidate st p_au).2.1 = st) ∧
    (p_au.i_flags.type_i = true →
      (PacketizeValidate st p_au).1 = hasTimestamp st ∧
      (PacketizeValidate st p_au).2.1.b_waiting_iframe = false) := by
  cases hI : p_au.i_flags.type_i with
  | false =>
    have h : PacketizeValidate st p_au = (false, st, p_au) := by
      unfold PacketizeValidate
      rw [if_pos (by rw [hwait, hI]; rfl)]
    rw [h]
    simp
  | true =>
    have hc : ¬ ((st.b_waiting_iframe && p_au.i_flags.type_i == false) = true) := by
      rw [hwait, hI]; simp
    refine ⟨fun _ => rfl, fun h => absurd h (by simp), fun _ => ?_⟩
    unfold PacketizeValidate
    rw [if_neg hc]
    simp only [hwait, if_true]
    by_cases ht : st.i_dts ≤ VLC_TS_INVALID ∧ st.i_pts ≤ VLC_TS_INVALID ∧
        date_Get st.dts ≤ VLC_TS_INVALID
    · rw [if_pos ht]
      refine ⟨?_, rfl⟩
      simp [hasTimestamp, ht.1, ht.2.1, ht.2.2]
    · rw [if_neg ht]
      refine ⟨?_, rfl⟩
      simp only [hasTimestamp]
      by_cases a : st.i_dts ≤ VLC_TS_INVALID
      · by_cases b : st.i_pts ≤ VLC_TS_INVALID
        · by_cases c : date_Get st.dts ≤ VLC_TS_INVALID
          · exact absurd ⟨a, b, c⟩ ht
          · simp [a, b, c]
        · simp [a, b]
      · simp [a]

/-- The first success among the validations of a sequence of calls, for a packetizer that
waits for an intra frame. -/
theorem validations_first_success (core : Core) (calls : List Call) :
    ∀ (st : Decoder) (pre : List Validation) (v : Validation) (post : List Validation),
      st.b_sync_on_intra_frame = true → st.b_waiting_iframe = true →
      (∀ u ∈ validations core st calls, u.st.b_waiting_iframe = true →
        u.p_au.i_flags.type_i = true → hasTimestamp u.st = true) →
      validations core st calls = pre ++ v :: post →
      (∀ u ∈ pre, u.success = false) → v.success = true →
      v.p_au.i_flags.type_i = true ∧ v.st.b_waiting_iframe = true ∧
      ∀ u ∈ pre, u.p_au.i_flags.type_i = false ∧ u.st.b_waiting_iframe = true := by
  induction calls with
  | nil =>
    intro st pre v post _ _ _ hv
    simp [validations] at hv
  | cons call calls ih =>
    intro st pre v post hsync hwait hts hv hpre hsucc
    cases call with
    | reset =>
      have e : validations core st (Call.reset :: calls) =
          validations core (PacketizeReset st) calls := rfl
      rw [e] at hts hv
      exact ih (PacketizeReset st) pre v post hsync hsync hts hv hpre hsucc
    | parse b =>
      have e : validations core st (Call.parse b :: calls) =
          validations core (PacketizeParse core st b).2.2 calls := rfl
      rw [e] at hts hv
      have hp := PacketizeParse_sync core st b
      exact ih _ pre v post (hp.2.trans hsync) (hp.1.trans hwait) hts hv hpre hsucc
    | validate au =>
      have e : validations core st (Call.validate au :: calls) =
          ⟨st, au, (PacketizeValidate st au).1⟩ ::
            validations core (PacketizeValidate st au).2.1 calls := rfl
      rw [e] at hts hv
      have hw := PacketizeValidate_waiting st au hwait
      cases pre with
      | nil =>
        rw [List.nil_append] at hv
        have hv1 : (⟨st, au, (PacketizeValidate st au).1⟩ : Validation) = v :=
          (List.cons.inj hv).1
        subst hv1
        exact ⟨hw.1 hsucc, hwait, fun u hu => absurd hu (List.not_mem_nil u)⟩
      | cons u pre =>
        rw [List.cons_append] at hv
        have hu : (⟨st, au, (PacketizeValidate st au).1⟩ : Validation) = u :=
          (List.cons.inj hv).1
        have hrest := (List.cons.inj hv).2
        have hufail : (PacketizeValidate st au).1 = false := by
          have := hpre u (List.mem_cons_self _ _)
          rw [← hu] at this
          exact this
        have hnonI : au.i_flags.type_i = false := by
          cases hI : au.i_flags.type_i with
          | false => rfl
          | true =>
            have h1 := hts ⟨st, au, (PacketizeValidate st au).1⟩ (List.mem_cons_self _ _)
              hwait hI
            have h2 := (hw.2.2 hI).1
            rw [hufail] at h2
            rw [← h2] at h1
            exact absurd h1 (by simp)
        have hst := (hw.2.1 hnonI).2
        rw [hst] at hrest hts
        have hi := ih st pre v post hsync hwait
          (fun w hw2 => hts w (List.mem_cons_of_mem _ hw2)) hrest
          (fun w hw2 => hpre w (List.mem_cons_of_mem _ hw2)) hsucc
        refine ⟨hi.1, hi.2.1, ?_⟩
        intro w hw2
        rcases List.mem_cons.mp hw2 with h | h
        · rw [h, ← hu]
          exact ⟨hnonI, hwait⟩
        · exact hi.2.2 w h

end MpegVideo

namespace MpegVideo

/-- C27: for every decoder and every fragment, sequence headers and sequence extensions
included, `ParseMPEGBlock` leaves `fmt_out.video.i_sar_num` and `i_sar_den` as they were;
and every video track entry of the task after `VLCMetadataService::run` is either one the
task had or is built from the codec, the fps operands, the width and the height of a
probed track of type Video, and from nothing else. -/
theorem ParseMPEGBlock_keeps_sar (core : Core) (st : Decoder) (p_frag : Block)
    (libvlc3 : Bool) (vlcMedia : VLCMetadataService.VlcMedia)
    (task : VLCMetadataService.Task) :
    (ParseMPEGBlock core st p_frag).2.fmt_out.i_sar_num = st.fmt_out.i_sar_num ∧
    (ParseMPEGBlock core st p_frag).2.fmt_out.i_sar_den = st.fmt_out.i_sar_den ∧
    ∀ v ∈ (VLCMetadataService.run libvlc3 vlcMedia task).2.videoTracks,
      v ∈ task.videoTracks ∨
      ∃ t ∈ vlcMedia.tracks, t.type = VLCMetadataService.TrackType.Video ∧
        v = ⟨VLCMetadataService.fourcc t.codec, ⟨t.fpsNum, t.fpsDen⟩, t.width, t.height⟩ := by
  have h := ParseMPEGBlock_frame core st p_frag
  refine ⟨h.1, h.2.1, ?_⟩
  intro v hv
  unfold VLCMetadataService.run at hv
  by_cases h1 : task.mediaDuration ≠ -1
  · rw [if_pos h1] at hv
    exact Or.inl hv
  · rw [if_neg h1] at hv
    by_cases h2 : vlcMedia.parsedEvents.any (fun parsed => parsed) = false
    · rw [if_pos h2] at hv
      exact Or.inl hv
    · rw [if_neg h2] at hv
      by_cases h3 : vlcMedia.tracks.length = 0
      · rw [if_pos h3] at hv
        exact Or.inl hv
      · rw [if_neg h3, VLCMetadataService.foldl_addTrack] at hv
        have hv2 : v ∈ task.videoTracks ++
            (vlcMedia.tracks.filter
              (fun t => t.type == VLCMetadataService.TrackType.Video)).map
              (fun t => (⟨VLCMetadataService.fourcc t.codec, ⟨t.fpsNum, t.fpsDen⟩,
                t.width, t.height⟩ : VLCMetadataService.VideoTrack)) := hv
        rcases List.mem_append.mp hv2 with hm | hm
        · exact Or.inl hm
        · obtain ⟨t, ht, rfl⟩ := List.mem_map.mp hm
          have ht2 := List.mem_filter.mp ht
          exact Or.inr ⟨t, ht2.1, by simpa using ht2.2, rfl⟩

/-- C27 (witness): a sequence header for 720x576 with aspect_ratio_info 2, then a sequence
extension: the sample aspect ratio stays the 0/0 of `Open`. -/
theorem ParseMPEGBlock_keeps_sar_witness :
    ((ParseMPEGBlock exampleCore
      (ParseMPEGBlock exampleCore (Open false false [])
        ⟨[0, 0, 1, 0xb3, 0x2d, 0x02, 0x40, 0x23, 0, 0, 0, 0], 0, Flags.zero, 0, 0, 0⟩).2
      ⟨[0, 0, 1, 0xb5, 0x14, 0x8a, 0, 1, 0, 0], 0, Flags.zero, 0, 0, 0⟩).2.fmt_out)
      = ⟨720, 576, 25, 1, 0, 0, Primaries.UNDEF, Transfer.UNDEF, Space.UNDEF⟩ ∧
    (ParseMPEGBlock exampleCore
      (ParseMPEGBlock exampleCore (Open false false [])
        ⟨[0, 0, 1, 0xb3, 0x2d, 0x02, 0x40, 0x23, 0, 0, 0, 0], 0, Flags.zero, 0, 0, 0⟩).2
      ⟨[0, 0, 1, 0xb5, 0x14, 0x8a, 0, 1, 0, 0], 0, Flags.zero, 0, 0, 0⟩).2.fmt_out.i_sar_num
      = 0 :=
  ⟨by decide,
   (ParseMPEGBlock_keeps_sar exampleCore
      (ParseMPEGBlock exampleCore (Open false false [])
        ⟨[0, 0, 1, 0xb3, 0x2d, 0x02, 0x40, 0x23, 0, 0, 0, 0], 0, Flags.zero, 0, 0, 0⟩).2
      ⟨[0, 0, 1, 0xb5, 0x14, 0x8a, 0, 1, 0, 0], 0, Flags.zero, 0, 0, 0⟩ true
      ⟨[true], [], fun _ => [], 0⟩
      ⟨-1, [], [], [], 0, 0, [], [], [], [], [], [], [], 0, 0, 0⟩).1.trans (by decide)⟩

/-- Outside the calling order of the helper: `PacketizeValidate` is called on an I access
unit right after `Open`, before any call of `PacketizeParse`, while no timestamp is known.
The unit is rejected and the waiting is over, so that the P access unit presented after a
picture start code with dts 1000 is accepted. -/
theorem validate_before_parse :
    (validations exampleCore (Open false true [])
      [Call.validate ⟨[0, 0, 1, 0, 0, 8], 0, { Flags.zero with type_i := true }, 0, 0, 0⟩,
       Call.parse ⟨[0, 0, 1, 0, 0, 0x50], 0, Flags.zero, 0, 1000, 0⟩,
       Call.validate ⟨[0, 0, 1, 0, 0, 0x50], 0, { Flags.zero with type_p := true }, 0, 0, 0⟩]).map
      (fun v => (v.p_au.i_flags.type_i, v.success)) = [(true, false), (false, true)] ∧
    helperCalls exampleCore (Open false true []) none
      [Call.validate ⟨[0, 0, 1, 0, 0, 8], 0, { Flags.zero with type_i := true }, 0, 0, 0⟩,
       Call.parse ⟨[0, 0, 1, 0, 0, 0x50], 0, Flags.zero, 0, 1000, 0⟩,
       Call.validate ⟨[0, 0, 1, 0, 0, 0x50], 0, { Flags.zero with type_p := true }, 0, 0, 0⟩]
      = false := by
  decide

/-- C29: `PacketizeValidate` returns `VLC_SUCCESS` exactly when the packetizer is not
waiting for an intra frame or the access unit has `BLOCK_FLAG_TYPE_I`, and one of the
stored dts, the stored pts and the dts date is above `VLC_TS_INVALID`.  On success an
access unit whose dts is not above `VLC_TS_INVALID` gets its pts as dts; in every other
case the access unit is returned as it was. -/
theorem PacketizeValidate_iff (st : Decoder) (p_au : Block) :
    ((PacketizeValidate st p_au).1 = true ↔
      (st.b_waiting_iframe = false ∨ p_au.i_flags.type_i = true) ∧
      (st.i_dts > VLC_TS_INVALID ∨ st.i_pts > VLC_TS_INVALID ∨
        date_Get st.dts > VLC_TS_INVALID)) ∧
    (PacketizeValidate st p_au).2.2 =
      (if (PacketizeValidate st p_au).1 = true ∧ p_au.i_dts ≤ VLC_TS_INVALID
       then { p_au with i_dts := p_au.i_pts } else p_au) := by
  unfold PacketizeValidate
  by_cases h1 : (st.b_waiting_iframe && p_au.i_flags.type_i == false) = true
  · rw [if_pos h1]
    have h1b : st.b_waiting_iframe = true ∧ p_au.i_flags.type_i = false := by
      simpa using h1
    refine ⟨?_, ?_⟩
    · constructor
      · intro h; exact absurd h (by simp)
      · rintro ⟨h | h, _⟩
        · rw [h1b.1] at h; exact absurd h (by simp)
        · rw [h1b.2] at h; exact absurd h (by simp)
    · simp
  · rw [if_neg h1]
    have h1b : st.b_waiting_iframe = false ∨ p_au.i_flags.type_i = true := by
      cases hw : st.b_waiting_iframe with
      | false => exact Or.inl rfl
      | true =>
        cases hi : p_au.i_flags.type_i with
        | true => exact Or.inr rfl
        | false => rw [hw, hi] at h1; exact absurd rfl h1
    have hts : ∀ s : Decoder, s = (if st.b_waiting_iframe = true then
        { st with b_waiting_iframe := false } else st) →
        s.i_dts = st.i_dts ∧ s.i_pts = st.i_pts ∧ s.dts = st.dts := by
      intro s hs
      rw [hs]
      split_ifs <;> exact ⟨rfl, rfl, rfl⟩
    obtain ⟨e1, e2, e3⟩ := hts _ rfl
    dsimp only
    rw [e1, e2, e3]
    by_cases h2 : st.i_dts ≤ VLC_TS_INVALID ∧ st.i_pts ≤ VLC_TS_INVALID ∧
        date_Get st.dts ≤ VLC_TS_INVALID
    · rw [if_pos h2]
      refine ⟨?_, ?_⟩
      · constructor
        · intro h; exact absurd h (by simp)
        · rintro ⟨_, h | h | h⟩
          · exact absurd h2.1 (not_le.mpr h)
          · exact absurd h2.2.1 (not_le.mpr h)
          · exact absurd h2.2.2 (not_le.mpr h)
      · simp
    · rw [if_neg h2]
      refine ⟨?_, ?_⟩
      · constructor
        · intro _
          refine ⟨h1b, ?_⟩
          by_contra hn
          push_neg at hn
          exact h2 hn
        · intro _; rfl
      · by_cases h3 : p_au.i_dts ≤ VLC_TS_INVALID
        · simp [h3]
        · simp [h3]

/-- C29 (witness): a decoder that is not waiting and knows a stream pts accepts an access
unit without dts and gives it its pts as dts; the decoder of `Open`, without any
timestamp, rejects it. -/
theorem PacketizeValidate_iff_witness :
    (PacketizeValidate { Open false false [] with i_pts := 9000 }
        ⟨[0, 0, 1, 0], 0, Flags.zero, 9000, 0, 0⟩).1 = true ∧
    (PacketizeValidate { Open false false [] with i_pts := 9000 }
        ⟨[0, 0, 1, 0], 0, Flags.zero, 9000, 0, 0⟩).2.2
      = ⟨[0, 0, 1, 0], 0, Flags.zero, 9000, 9000, 0⟩ ∧
    (PacketizeValidate (Open false false []) ⟨[0, 0, 1, 0], 0, Flags.zero, 9000, 0, 0⟩).1
      = false :=
  ⟨(PacketizeValidate_iff { Open false false [] with i_pts := 9000 }
      ⟨[0, 0, 1, 0], 0, Flags.zero, 9000, 0, 0⟩).1.mpr
      ⟨Or.inl rfl, Or.inr (Or.inl (by decide))⟩,
   by decide, by decide⟩

/-- C30: `ParseMPEGBlock` returns a picture only if a sequence header is stored.  When a
picture ends (slices were seen and the fragment is a picture start code or has a start
code above 0xaf) while no sequence header is stored, nothing is returned, `b_frame_slice`
is cleared and the accumulated frame is discarded: the chain then holds the current
fragment only. -/
theorem ParseMPEGBlock_needs_sequence (core : Core) (st : Decoder) (p_frag : Block) :
    ((ParseMPEGBlock core st p_frag).1.isSome = true → st.p_seq.isSome = true) ∧
    (st.b_frame_slice = true → (p_frag.byte 3 = 0x00 ∨ p_frag.byte 3 > 0xaf) →
      st.p_seq = none →
      (ParseMPEGBlock core st p_frag).1 = none ∧
      (ParseMPEGBlock core st p_frag).2.b_frame_slice = false ∧
      (ParseMPEGBlock core st p_frag).2.p_frame = [p_frag]) := by
  refine ⟨?_, ?_⟩
  · intro h
    rw [ParseMPEGBlock_fst] at h
    exact endPicture_some core st p_frag h
  · intro hslice hcode hseq
    have hend : pictureEnd st p_frag = true := by
      unfold pictureEnd
      rw [hslice]
      rcases hcode with h | h
      · simp [h]
      · simp [h]
    have hdrop := endPicture_drop core st p_frag hend hseq
    have hfl : (flushCc core none
        ({ st with p_frame := [], b_frame_slice := false } : Decoder)).p_seq = none ∧
        (flushCc core none
        ({ st with p_frame := [], b_frame_slice := false } : Decoder)).p_frame = [] ∧
        (flushCc core none
        ({ st with p_frame := [], b_frame_slice := false } : Decoder)).b_frame_slice
          = false := by
      unfold flushCc
      split_ifs
      · exact ⟨hseq, rfl, rfl⟩
      · exact ⟨hseq, rfl, rfl⟩
    have hpf := parseFragment_no_seq core
      (flushCc core none ({ st with p_frame := [], b_frame_slice := false } : Decoder))
      p_frag hfl.1 hcode
    unfold ParseMPEGBlock
    dsimp only
    rw [hdrop]
    dsimp only
    rw [hpf.1, hpf.2, hfl.2.1, hfl.2.2]
    exact ⟨rfl, rfl, rfl⟩

/-- C30 (witness): after a sequence header, a picture start code and a slice, the next
picture start code returns a picture, and a sequence header is stored; after a picture
start code and a slice only, the next picture start code returns nothing, clears
`b_frame_slice` and leaves itself alone in the chain. -/
theorem ParseMPEGBlock_needs_sequence_witness :
    ([Call.parse ⟨[0, 0, 1, 0xb3, 0x2d, 0x02, 0x40, 0x23, 0, 0, 0, 0], 0, Flags.zero, 0, 0, 0⟩,
      Call.parse ⟨[0, 0, 1, 0, 0, 8], 0, Flags.zero, 0, 0, 0⟩,
      Call.parse ⟨[0, 0, 1, 1, 255], 0, Flags.zero, 0, 0, 0⟩].foldl (step exampleCore)
        (Open false false [])).p_seq.isSome = true ∧
    ((ParseMPEGBlock exampleCore
      ([Call.parse ⟨[0, 0, 1, 0, 0, 8], 0, Flags.zero, 0, 0, 0⟩,
        Call.parse ⟨[0, 0, 1, 1, 255], 0, Flags.zero, 0, 0, 0⟩].foldl (step exampleCore)
        (Open false false []))
      ⟨[0, 0, 1, 0, 0, 0x50], 0, Flags.zero, 0, 0, 0⟩).1 = none ∧
     (ParseMPEGBlock exampleCore
      ([Call.parse ⟨[0, 0, 1, 0, 0, 8], 0, Flags.zero, 0, 0, 0⟩,
        Call.parse ⟨[0, 0, 1, 1, 255], 0, Flags.zero, 0, 0, 0⟩].foldl (step exampleCore)
        (Open false false []))
      ⟨[0, 0, 1, 0, 0, 0x50], 0, Flags.zero, 0, 0, 0⟩).2.b_frame_slice = false ∧
     (ParseMPEGBlock exampleCore
      ([Call.parse ⟨[0, 0, 1, 0, 0, 8], 0, Flags.zero, 0, 0, 0⟩,
        Call.parse ⟨[0, 0, 1, 1, 255], 0, Flags.zero, 0, 0, 0⟩].foldl (step exampleCore)
        (Open false false []))
      ⟨[0, 0, 1, 0, 0, 0x50], 0, Flags.zero, 0, 0, 0⟩).2.p_frame
        = [⟨[0, 0, 1, 0, 0, 0x50], 0, Flags.zero, 0, 0, 0⟩]) :=
  ⟨(ParseMPEGBlock_needs_sequence exampleCore
      ([Call.parse ⟨[0, 0, 1, 0xb3, 0x2d, 0x02, 0x40, 0x23, 0, 0, 0, 0], 0, Flags.zero, 0, 0, 0⟩,
        Call.parse ⟨[0, 0, 1, 0, 0, 8], 0, Flags.zero, 0, 0, 0⟩,
        Call.parse ⟨[0, 0, 1, 1, 255], 0, Flags.zero, 0, 0, 0⟩].foldl (step exampleCore)
        (Open false false []))
      ⟨[0, 0, 1, 0, 0, 0x50], 0, Flags.zero, 0, 0, 0⟩).1 (by decide),
   (ParseMPEGBlock_needs_sequence exampleCore
      ([Call.parse ⟨[0, 0, 1, 0, 0, 8], 0, Flags.zero, 0, 0, 0⟩,
        Call.parse ⟨[0, 0, 1, 1, 255], 0, Flags.zero, 0, 0, 0⟩].foldl (step exampleCore)
        (Open false false []))
      ⟨[0, 0, 1, 0, 0, 0x50], 0, Flags.zero, 0, 0, 0⟩).2 (by decide) (Or.inl (by decide))
      (by decide)⟩

end MpegVideo

/-! ## MPEG video packetizer: timestamps, bounds and flags -/

namespace MpegVideo

/-- The picture and the decoder of the general case. -/
theorem finishGeneral_timestamps (core : Core) (st : Decoder) (p_pic : Block) (n : Nat) :
    (finishGeneral core st p_pic n).1.i_pts =
      (if st.i_pts > VLC_TS_INVALID then st.i_pts
       else if st.i_picture_type = 0x03 then (finishGeneral core st p_pic n).1.i_dts
       else VLC_TS_INVALID) ∧
    (finishGeneral core st p_pic n).1.i_dts =
      (if (st.b_low_delay || st.i_picture_type == 0x03) = true then
         (if st.i_dts > VLC_TS_INVALID then st.i_dts
          else if st.i_pts > VLC_TS_INVALID then st.i_pts
          else date_Get st.dts)
       else
         (if st.i_dts > VLC_TS_INVALID then st.i_dts
          else if st.i_last_ref_pts > VLC_TS_INVALID ∧ st.b_second_field = false
            then st.i_last_ref_pts
          else date_Get st.dts)) ∧
    (finishGeneral core st p_pic n).1.i_length =
      date_Get (finishGeneral core st p_pic n).2.dts - (finishGeneral core st p_pic n).1.i_dts ∧
    (finishGeneral core st p_pic n).1.i_flags = p_pic.i_flags ∧
    (finishGeneral core st p_pic n).1.p_buffer = p_pic.p_buffer := by
  unfold finishGeneral
  dsimp only
  refine ⟨rfl, ?_, rfl, rfl, rfl⟩
  split_ifs <;> rfl

/-- The picture that `ParseMPEGBlock` returns, when it returns one. -/
theorem ParseMPEGBlock_some (core : Core) (st : Decoder) (p_frag p_pic : Block)
    (h : (ParseMPEGBlock core st p_frag).1 = some p_pic) :
    pictureEnd st p_frag = true ∧ st.p_seq.isSome = true ∧
    p_pic = (finishPicture core st p_frag).2.1 := by
  rw [ParseMPEGBlock_fst] at h
  have hs := endPicture_some core st p_frag (by rw [h]; rfl)
  unfold endPicture at h
  have hn : st.p_seq.isNone = false := by
    cases hp : st.p_seq with
    | none => rw [hp] at hs; exact absurd hs (by simp)
    | some s => rfl
  rw [hn, Bool.and_false] at h
  rw [if_neg (by simp)] at h
  by_cases h2 : pictureEnd st p_frag = true
  · rw [if_pos h2] at h
    exact ⟨h2, hs, (Option.some.inj h).symm⟩
  · rw [if_neg h2] at h
    exact absurd h (by simp)

end MpegVideo

namespace MpegVideo

/-- The DVR-MS case does not write the parsed fields. -/
theorem finishDvr_parsedFields (core : Core) (st : Decoder) (p_pic : Block) (n : Nat) :
    parsedFields (finishDvr core st p_pic n).2 = parsedFields st := by
  unfold finishDvr
  dsimp only
  split_ifs <;> rfl

/-- The general case does not write the parsed fields. -/
theorem finishGeneral_parsedFields (core : Core) (st : Decoder) (p_pic : Block) (n : Nat) :
    parsedFields (finishGeneral core st p_pic n).2 = parsedFields st := by
  unfold finishGeneral
  dsimp only
  split_ifs <;> rfl

/-- The branch that ends a picture does not write the parsed fields. -/
theorem finishPicture_parsedFields (core : Core) (st : Decoder) (p_frag : Block) :
    parsedFields (finishPicture core st p_frag).2.2 = parsedFields st := by
  have hd := finishDvr_parsedFields core st
  have hg := finishGeneral_parsedFields core st
  unfold parsedFields at hd hg ⊢
  unfold finishPicture
  dsimp only
  by_cases h : st.is_dvr = true
  · rw [if_pos h]
    exact hd _ _
  · rw [if_neg h]
    exact hg _ _

/-- Ending a picture does not write the parsed fields. -/
theorem endPicture_parsedFields (core : Core) (st : Decoder) (p_frag : Block) :
    parsedFields (endPicture core st p_frag).2.2 = parsedFields st := by
  unfold endPicture
  split_ifs
  · rfl
  · exact finishPicture_parsedFields core st p_frag
  · rfl

/-- Flushing the closed captions does not write the parsed fields. -/
theorem flushCc_parsedFields (core : Core) (p_pic : Option Block) (st : Decoder) :
    parsedFields (flushCc core p_pic st) = parsedFields st := by
  unfold flushCc
  split_ifs <;> rfl

/-- The fragment is still there after the check for the end of a picture, unless it is
a sequence end code. -/
theorem endPicture_frag (core : Core) (st : Decoder) (p_frag : Block)
    (h : p_frag.byte 3 ≠ 0xb7) : (endPicture core st p_frag).1 = some p_frag := by
  unfold endPicture
  split_ifs
  · rfl
  · unfold finishPicture
    dsimp only
    have hb : (p_frag.byte 3 == 0xb7) = false := by simpa using h
    rw [hb]
    rfl
  · rfl

/-- The decoder after `ParseMPEGBlock` for a fragment that is not a sequence end code: the
fragment is read in the decoder left by the check for the end of a picture and the
flush of the closed captions, then it is appended to the chain. -/
theorem ParseMPEGBlock_snd (core : Core) (st : Decoder) (p_frag : Block)
    (h : p_frag.byte 3 ≠ 0xb7) :
    (ParseMPEGBlock core st p_frag).2 =
      { parseFragment core
          (flushCc core (endPicture core st p_frag).2.1 (endPicture core st p_frag).2.2)
          p_frag with
        p_frame := block_ChainLastAppend
          (parseFragment core
            (flushCc core (endPicture core st p_frag).2.1 (endPicture core st p_frag).2.2)
            p_frag).p_frame p_frag } := by
  unfold ParseMPEGBlock
  dsimp only
  rw [endPicture_frag core st p_frag h]

/-- A sequence end code is not read as a fragment: the parsed fields stay. -/
theorem parseFragment_b7 (core : Core) (st : Decoder) (p_frag : Block)
    (h : p_frag.byte 3 = 0xb7) : parseFragment core st p_frag = st := by
  unfold parseFragment
  rw [h]
  simp

/-- The parsed fields after `ParseMPEGBlock` are those after reading the fragment in a
decoder with the parsed fields of the decoder before. -/
theorem ParseMPEGBlock_parsedFields (core : Core) (st : Decoder) (p_frag : Block) :
    ∃ st1 : Decoder, parsedFields st1 = parsedFields st ∧
      parsedFields (ParseMPEGBlock core st p_frag).2 =
        parsedFields (parseFragment core st1 p_frag) := by
  have h1 : parsedFields
      (flushCc core (endPicture core st p_frag).2.1 (endPicture core st p_frag).2.2)
      = parsedFields st :=
    (flushCc_parsedFields core _ _).trans (endPicture_parsedFields core st p_frag)
  by_cases h : p_frag.byte 3 = 0xb7
  · refine ⟨flushCc core (endPicture core st p_frag).2.1 (endPicture core st p_frag).2.2,
      h1, ?_⟩
    rw [parseFragment_b7 core _ p_frag h]
    unfold ParseMPEGBlock
    dsimp only
    cases hr : (endPicture core st p_frag).1 with
    | none => rfl
    | some frag =>
      dsimp only
      have hb : frag.byte 3 = 0xb7 := by
        unfold endPicture at hr
        split_ifs at hr
        · rw [← Option.some.inj hr]; exact h
        · unfold finishPicture at hr
          dsimp only at hr
          have hb : (p_frag.byte 3 == 0xb7) = true := by simpa using h
          rw [hb] at hr
          exact absurd hr (by simp)
        · rw [← Option.some.inj hr]; exact h
      rw [parseFragment_b7 core _ frag hb]
      rfl
  · refine ⟨flushCc core (endPicture core st p_frag).2.1 (endPicture core st p_frag).2.2,
      h1, ?_⟩
    rw [ParseMPEGBlock_snd core st p_frag h]
    rfl

end MpegVideo

namespace MpegVideo

/-- Every row of the frame-rate table has a rate of at least 1 and the base 1 or 1001. -/
theorem code_to_frame_rate_row (i : Nat) (h : i < 16) :
    1 ≤ (code_to_frame_rate.getD i (0, 0)).1 ∧
    ((code_to_frame_rate.getD i (0, 0)).2 = 1 ∨ (code_to_frame_rate.getD i (0, 0)).2 = 1001) := by
  have hall : ∀ j, j < 16 → 1 ≤ (code_to_frame_rate.getD j (0, 0)).1 ∧
      ((code_to_frame_rate.getD j (0, 0)).2 = 1 ∨
        (code_to_frame_rate.getD j (0, 0)).2 = 1001) := by
    decide
  exact hall i h

/-- The index into the frame-rate table is below 16. -/
theorem frame_rate_index_lt (b : Nat) : b &&& 0x0f < 16 :=
  Nat.and_lt_two_pow b (by decide : (0x0f : Nat) < 2 ^ 4)

/-- A byte is below 256. -/
theorem Block.byte_lt (b : Block) (i : Nat) : b.byte i < 256 := by
  unfold Block.byte
  exact Nat.mod_lt _ (by decide)

/-- Reading a fragment keeps the frame rate at 1 or more and its base at 1 or 1001. -/
theorem parseFragment_rate (core : Core) (st : Decoder) (p_frag : Block)
    (h : 1 ≤ st.i_frame_rate ∧ (st.i_frame_rate_base = 1 ∨ st.i_frame_rate_base = 1001)) :
    1 ≤ (parseFragment core st p_frag).i_frame_rate ∧
    ((parseFragment core st p_frag).i_frame_rate_base = 1 ∨
      (parseFragment core st p_frag).i_frame_rate_base = 1001) := by
  unfold parseFragment
  split_ifs
  · unfold parseGroup
    split
    · split_ifs <;> exact h
    · exact h
  · exact code_to_frame_rate_row _ (frame_rate_index_lt _)
  · unfold parseExtension
    dsimp only
    split_ifs <;> exact h
  · exact h
  · unfold parsePicture
    dsimp only
    split_ifs <;> exact h
  · exact h
  · exact h

/-- Reading a fragment keeps the temporal reference at 1023 or less and the picture type
at 3 or less. -/
theorem parseFragment_picture (core : Core) (st : Decoder) (p_frag : Block)
    (h : st.i_temporal_ref ≤ 1023 ∧ st.i_picture_type ≤ 3) :
    (parseFragment core st p_frag).i_temporal_ref ≤ 1023 ∧
    (parseFragment core st p_frag).i_picture_type ≤ 3 := by
  unfold parseFragment
  split_ifs
  · unfold parseGroup
    split
    · split_ifs <;> exact h
    · exact h
  · exact h
  · unfold parseExtension
    dsimp only
    split_ifs <;> exact h
  · exact h
  · unfold parsePicture
    dsimp only
    split_ifs
    · refine ⟨?_, ?_⟩
      · have h4 := Block.byte_lt p_frag 4
        have h5 := Block.byte_lt p_frag 5
        have e1 : p_frag.byte 4 <<< 2 < 2 ^ 10 := by
          rw [Nat.shiftLeft_eq]; omega
        have e2 : p_frag.byte 5 >>> 6 < 2 ^ 10 := by
          rw [Nat.shiftRight_eq_div_pow]
          have : p_frag.byte 5 / 2 ^ 6 ≤ p_frag.byte 5 := Nat.div_le_self _ _
          omega
        have := Nat.or_lt_two_pow e1 e2
        show p_frag.byte 4 <<< 2 ||| p_frag.byte 5 >>> 6 ≤ 1023
        omega
      · show (p_frag.byte 5 >>> 3) &&& 0x03 ≤ 3
        exact Nat.and_le_right
    · exact h
  · exact h
  · exact h

/-- Reading a fragment leaves `i_prev_temporal_ref` and `i_next_block_flags` as they
are. -/
theorem parseFragment_keeps (core : Core) (st : Decoder) (p_frag : Block) :
    (parseFragment core st p_frag).i_prev_temporal_ref = st.i_prev_temporal_ref ∧
    (parseFragment core st p_frag).i_next_block_flags = st.i_next_block_flags := by
  unfold parseFragment
  split_ifs
  · unfold parseGroup
    split
    · split_ifs <;> exact ⟨rfl, rfl⟩
    · exact ⟨rfl, rfl⟩
  · exact ⟨rfl, rfl⟩
  · unfold parseExtension
    dsimp only
    split_ifs <;> exact ⟨rfl, rfl⟩
  · exact ⟨rfl, rfl⟩
  · unfold parsePicture
    dsimp only
    split_ifs <;> exact ⟨rfl, rfl⟩
  · exact ⟨rfl, rfl⟩
  · exact ⟨rfl, rfl⟩

/-- The parsed fields of two decoders, field by field. -/
theorem parsedFields_eq {a b : Decoder} (h : parsedFields a = parsedFields b) :
    a.fmt_out = b.fmt_out ∧ a.p_seq = b.p_seq ∧ a.p_ext = b.p_ext ∧
    a.i_frame_rate = b.i_frame_rate ∧ a.i_frame_rate_base = b.i_frame_rate_base ∧
    a.b_seq_progressive = b.b_seq_progressive ∧ a.b_low_delay = b.b_low_delay ∧
    a.i_aspect_ratio_info = b.i_aspect_ratio_info ∧ a.i_temporal_ref = b.i_temporal_ref ∧
    a.i_picture_type = b.i_picture_type ∧ a.i_next_block_flags = b.i_next_block_flags := by
  simpa only [parsedFields, Prod.mk.injEq] using h

/-- `ParseMPEGBlock` keeps the frame rate at 1 or more and its base at 1 or 1001, and
the temporal reference and the picture type within their bits; it leaves
`i_next_block_flags` as it is. -/
theorem ParseMPEGBlock_bounds (core : Core) (st : Decoder) (p_frag : Block) :
    ((1 ≤ st.i_frame_rate ∧ (st.i_frame_rate_base = 1 ∨ st.i_frame_rate_base = 1001)) →
      1 ≤ (ParseMPEGBlock core st p_frag).2.i_frame_rate ∧
      ((ParseMPEGBlock core st p_frag).2.i_frame_rate_base = 1 ∨
        (ParseMPEGBlock core st p_frag).2.i_frame_rate_base = 1001)) ∧
    ((st.i_temporal_ref ≤ 1023 ∧ st.i_picture_type ≤ 3) →
      (ParseMPEGBlock core st p_frag).2.i_temporal_ref ≤ 1023 ∧
      (ParseMPEGBlock core st p_frag).2.i_picture_type ≤ 3) ∧
    (ParseMPEGBlock core st p_frag).2.i_next_block_flags = st.i_next_block_flags := by
  obtain ⟨st1, h1, h2⟩ := ParseMPEGBlock_parsedFields core st p_frag
  have e1 := parsedFields_eq h1
  have e2 := parsedFields_eq h2
  refine ⟨?_, ?_, ?_⟩
  · intro h
    have := parseFragment_rate core st1 p_frag
      (by rw [e1.2.2.2.1, e1.2.2.2.2.1]; exact h)
    rw [e2.2.2.2.1, e2.2.2.2.2.1]
    exact this
  · intro h
    have := parseFragment_picture core st1 p_frag
      (by rw [e1.2.2.2.2.2.2.2.2.1, e1.2.2.2.2.2.2.2.2.2.1]; exact h)
    rw [e2.2.2.2.2.2.2.2.2.1, e2.2.2.2.2.2.2.2.2.2.1]
    exact this
  · rw [e2.2.2.2.2.2.2.2.2.2.2, (parseFragment_keeps core st1 p_frag).2,
      e1.2.2.2.2.2.2.2.2.2.2]

/-- What `PacketizeParse` returns, from what `ParseMPEGBlock` returns. -/
theorem PacketizeParse_eq (core : Core) (st : Decoder) (p_block : Block) :
    PacketizeParse core st p_block =
      (match (ParseMPEGBlock core st p_block).1 with
       | some p_pic =>
         (p_block.byte 3 == 0x00,
          some { p_pic with
            i_flags := p_pic.i_flags.or (ParseMPEGBlock core st p_block).2.i_next_block_flags },
          { (ParseMPEGBlock core st p_block).2 with i_next_block_flags := Flags.zero })
       | none => (p_block.byte 3 == 0x00, none, (ParseMPEGBlock core st p_block).2)) := by
  unfold PacketizeParse
  dsimp only

/-- The decoder after `PacketizeValidate` is the one before, but for `b_waiting_iframe`. -/
theorem PacketizeValidate_st (st : Decoder) (p_au : Block) :
    (PacketizeValidate st p_au).2.1 = st ∨
    (PacketizeValidate st p_au).2.1 = { st with b_waiting_iframe := false } := by
  unfold PacketizeValidate
  by_cases h1 : (st.b_waiting_iframe && p_au.i_flags.type_i == false) = true
  · rw [if_pos h1]
    exact Or.inl rfl
  · rw [if_neg h1]
    dsimp only
    by_cases hw : st.b_waiting_iframe = true
    · right
      rw [if_pos hw]
      split_ifs <;> rfl
    · left
      rw [if_neg hw]
      split_ifs <;> rfl

end MpegVideo

namespace MpegVideo

/-- C31: in the general case (the input is not DVR-MS) every picture that `ParseMPEGBlock`
returns has as pts the stored stream pts when that is above `VLC_TS_INVALID`, else its
own dts when the picture type is B (3), else `VLC_TS_INVALID`; and its dts is the dts
date after the correction by the stream timestamps: the stored dts when valid, else, for
a low-delay sequence or a B picture, the stored pts when valid, and, for the other
pictures, the pts of the last reference picture when valid and the picture is not a
second field, else the date as it was. -/
theorem general_case_timestamps (core : Core) (st : Decoder) (p_frag p_pic : Block)
    (hdvr : st.is_dvr = false)
    (hpic : (ParseMPEGBlock core st p_frag).1 = some p_pic) :
    p_pic.i_pts =
      (if st.i_pts > VLC_TS_INVALID then st.i_pts
       else if st.i_picture_type = 0x03 then p_pic.i_dts
       else VLC_TS_INVALID) ∧
    p_pic.i_dts =
      (if (st.b_low_delay || st.i_picture_type == 0x03) = true then
         (if st.i_dts > VLC_TS_INVALID then st.i_dts
          else if st.i_pts > VLC_TS_INVALID then st.i_pts
          else date_Get st.dts)
       else
         (if st.i_dts > VLC_TS_INVALID then st.i_dts
          else if st.i_last_ref_pts > VLC_TS_INVALID ∧ st.b_second_field = false
            then st.i_last_ref_pts
          else date_Get st.dts)) := by
  obtain ⟨_, _, hp⟩ := ParseMPEGBlock_some core st p_frag p_pic hpic
  have hg := finishGeneral_timestamps core st
  unfold finishPicture at hp
  dsimp only at hp
  rw [if_neg (by rw [hdvr]; simp)] at hp
  rw [hp]
  exact ⟨(hg _ _).1, (hg _ _).2.1⟩

/-- C31 (witness): after a sequence header, the start code of an I picture that came with
pts 9000 and no dts, and a slice, the next picture start code returns the I picture with
pts 9000 and dts 9000. -/
theorem general_case_timestamps_witness :
    (9000 : Int) = (if (9000 : Int) > VLC_TS_INVALID then 9000 else VLC_TS_INVALID) ∧
    (ParseMPEGBlock exampleCore
      ([Call.parse ⟨[0, 0, 1, 0xb3, 0x2d, 0x02, 0x40, 0x23, 0, 0, 0, 0], 0, Flags.zero, 0, 0, 0⟩,
        Call.parse ⟨[0, 0, 1, 0, 0, 8], 0, Flags.zero, 9000, 0, 0⟩,
        Call.parse ⟨[0, 0, 1, 1, 255], 0, Flags.zero, 0, 0, 0⟩].foldl (step exampleCore)
        (Open false false []))
      ⟨[0, 0, 1, 0, 0, 0x50], 0, Flags.zero, 0, 0, 0⟩).1
      = some ⟨[0, 0, 1, 179, 45, 2, 64, 35, 0, 0, 0, 0, 0, 0, 1, 0, 0, 8, 0, 0, 1, 1, 255],
          0, { Flags.zero with type_i := true }, 9000, 9000, 40000⟩ :=
  ⟨((general_case_timestamps exampleCore
      ([Call.parse ⟨[0, 0, 1, 0xb3, 0x2d, 0x02, 0x40, 0x23, 0, 0, 0, 0], 0, Flags.zero, 0, 0, 0⟩,
        Call.parse ⟨[0, 0, 1, 0, 0, 8], 0, Flags.zero, 9000, 0, 0⟩,
        Call.parse ⟨[0, 0, 1, 1, 255], 0, Flags.zero, 0, 0, 0⟩].foldl (step exampleCore)
        (Open false false []))
      ⟨[0, 0, 1, 0, 0, 0x50], 0, Flags.zero, 0, 0, 0⟩
      ⟨[0, 0, 1, 179, 45, 2, 64, 35, 0, 0, 0, 0, 0, 0, 1, 0, 0, 8, 0, 0, 1, 1, 255],
        0, { Flags.zero with type_i := true }, 9000, 9000, 40000⟩
      (by decide) (by decide)).1).trans (by decide),
   by decide⟩

/-- Apart from a 4-byte extension fragment, every index that `ParseMPEGBlock` reads in a
fragment of at least 4 bytes is below the length of the fragment. -/
theorem reads_in_bounds (p_frag : Block) (hlen : 4 ≤ p_frag.i_buffer)
    (hext : ¬ (p_frag.byte 3 = 0xb5 ∧ p_frag.i_buffer = 4)) :
    ∀ i ∈ reads p_frag, i < p_frag.i_buffer := by
  intro i hi
  unfold reads at hi
  rcases List.mem_cons.mp hi with h3 | hi
  · omega
  · split_ifs at hi with h1 h2 h3 h4 h5 h6 h7 h8 h9 h10 h11 <;>
      simp only [List.mem_cons, List.mem_singleton, List.not_mem_nil, or_false] at hi <;>
      omega

/-- C32 (failing input): the 4-byte extension fragment 00 00 01 b5.  `ParseMPEGBlock`
reads index 4, which is not below the length 4, and what it does depends on the byte
found there: with 0x10 after the buffer the fragment is stored as sequence extension,
with 0x00 it is not. -/
theorem ParseMPEGBlock_reads_past_end :
    (⟨[0, 0, 1, 0xb5], 0x10, Flags.zero, 0, 0, 0⟩ : Block).i_buffer = 4 ∧
    4 ∈ reads ⟨[0, 0, 1, 0xb5], 0x10, Flags.zero, 0, 0, 0⟩ ∧
    (ParseMPEGBlock exampleCore (Open false false [])
      ⟨[0, 0, 1, 0xb5], 0x10, Flags.zero, 0, 0, 0⟩).2.p_ext
      = some ⟨[0, 0, 1, 0xb5], 0x10, Flags.zero, 0, 0, 0⟩ ∧
    (ParseMPEGBlock exampleCore (Open false false [])
      ⟨[0, 0, 1, 0xb5], 0x00, Flags.zero, 0, 0, 0⟩).2.p_ext = none := by
  decide

/-- The frame rate is at least 1 and its base is 1 or 1001 in every decoder that the
packetizer can be in; so are the temporal reference at most 1023 and the picture type at
most 3. -/
theorem Reachable.bounds {core : Core} {st : Decoder} (h : Reachable core st) :
    (1 ≤ st.i_frame_rate ∧ (st.i_frame_rate_base = 1 ∨ st.i_frame_rate_base = 1001)) ∧
    (st.i_temporal_ref ≤ 1023 ∧ st.i_picture_type ≤ 3) := by
  induction h with
  | start is_dvr sync_iframe cc0 => exact ⟨⟨le_refl _, Or.inl rfl⟩, Nat.zero_le _, Nat.zero_le _⟩
  | reset _ ih => exact ih
  | @block st0 p_frag _ ih =>
    have hb := ParseMPEGBlock_bounds core st0 p_frag
    exact ⟨hb.1 ih.1, hb.2.1 ih.2⟩
  | @parse st0 p_block _ ih =>
    have hb := ParseMPEGBlock_bounds core st0 p_block
    rw [PacketizeParse_eq]
    cases (ParseMPEGBlock core st0 p_block).1 with
    | none => exact ⟨hb.1 ih.1, hb.2.1 ih.2⟩
    | some p_pic => exact ⟨hb.1 ih.1, hb.2.1 ih.2⟩
  | @validate st0 p_au _ ih =>
    rcases PacketizeValidate_st st0 p_au with e | e
    · rw [e]; exact ih
    · rw [e]; exact ih

/-- C33: in every decoder reachable from `Open` by calls of `ParseMPEGBlock` and
`PacketizeReset` (and of `PacketizeParse` and `PacketizeValidate`), `i_frame_rate` is at
least 1 and `i_frame_rate_base` is 1 or 1001, hence at least 1, so the division on a
group start code has a divisor other than zero; and for every fragment the index
`byte 7 & 0x0f` is below the 16 rows of the frame-rate table. -/
theorem frame_rate_positive (core : Core) (st : Decoder) (p_frag : Block)
    (h : Reachable core st) :
    1 ≤ st.i_frame_rate ∧ (st.i_frame_rate_base = 1 ∨ st.i_frame_rate_base = 1001) ∧
    1 ≤ st.i_frame_rate_base ∧ st.i_frame_rate_base ≠ 0 ∧
    p_frag.byte 7 &&& 0x0f < code_to_frame_rate.length := by
  have hb := (Reachable.bounds h).1
  refine ⟨hb.1, hb.2, ?_, ?_, frame_rate_index_lt _⟩
  · rcases hb.2 with e | e <;> omega
  · rcases hb.2 with e | e <;> omega

/-- C33 (witness): after a sequence header with frame rate code 4 the rate is 30000 with
base 1001. -/
theorem frame_rate_positive_witness :
    (ParseMPEGBlock exampleCore (Open false false [])
      ⟨[0, 0, 1, 0xb3, 0x2d, 0x02, 0x40, 0x24, 0, 0, 0, 0], 0, Flags.zero, 0, 0, 0⟩).2.i_frame_rate
      = 30000 ∧
    (ParseMPEGBlock exampleCore (Open false false [])
      ⟨[0, 0, 1, 0xb3, 0x2d, 0x02, 0x40, 0x24, 0, 0, 0, 0], 0, Flags.zero, 0, 0,
        0⟩).2.i_frame_rate_base ≠ 0 :=
  ⟨by decide,
   (frame_rate_positive exampleCore
      (ParseMPEGBlock exampleCore (Open false false [])
        ⟨[0, 0, 1, 0xb3, 0x2d, 0x02, 0x40, 0x24, 0, 0, 0, 0], 0, Flags.zero, 0, 0, 0⟩).2
      ⟨[0, 0, 1, 0xb3, 0x2d, 0x02, 0x40, 0x24, 0, 0, 0, 0], 0, Flags.zero, 0, 0, 0⟩
      (Reachable.block _ (Reachable.start false false []))).2.2.2.1⟩

end MpegVideo

namespace MpegVideo

/-- Joining a shifted value and a value that fits below the shift is an addition. -/
theorem shiftLeft_or_eq (a c k : Nat) (h : c < 2 ^ k) : a <<< k ||| c = a * 2 ^ k + c := by
  rw [Nat.shiftLeft_eq, Nat.mul_comm, ← Nat.mul_add_lt_is_or h]

/-- The decoder after a sequence header of at least 8 bytes was read. -/
theorem parseFragment_sequence_header (core : Core) (st : Decoder) (p_frag : Block)
    (hcode : p_frag.byte 3 = 0xb3) (hlen : 8 ≤ p_frag.i_buffer) :
    parseFragment core st p_frag = parseSequenceHeader core st p_frag := by
  unfold parseFragment
  rw [if_neg (by rw [hcode]; decide), if_pos ⟨hcode, hlen⟩]

/-- A sequence header of less than 8 bytes is not read. -/
theorem parseFragment_short_header (core : Core) (st : Decoder) (p_frag : Block)
    (hcode : p_frag.byte 3 = 0xb3) (hlen : p_frag.i_buffer < 8) :
    parseFragment core st p_frag = st := by
  unfold parseFragment
  rw [if_neg (by rw [hcode]; decide), if_neg (by omega), if_neg (by rw [hcode]; decide),
    if_neg (by rw [hcode]; simp), if_neg (by rw [hcode]; decide),
    if_neg (by rw [hcode]; decide)]

/-- C34: for a sequence header fragment (start code 0xb3) of at least 8 bytes,
`ParseMPEGBlock` sets the output width to byte4 * 16 + byte5 / 16 and the output height
to (byte5 mod 16) * 256 + byte6, both below 4096, records aspect_ratio_info =
byte7 / 16, sets `b_seq_progressive` and `b_low_delay` to true and drops the stored
sequence extension; for a sequence header fragment of less than 8 bytes the width, the
height, aspect_ratio_info, `b_seq_progressive`, `b_low_delay` and the stored sequence
extension are as they were. -/
theorem sequence_header_fields (core : Core) (st : Decoder) (p_frag : Block)
    (hcode : p_frag.byte 3 = 0xb3) :
    (8 ≤ p_frag.i_buffer →
      (ParseMPEGBlock core st p_frag).2.fmt_out.i_width
        = p_frag.byte 4 * 16 + p_frag.byte 5 / 16 ∧
      (ParseMPEGBlock core st p_frag).2.fmt_out.i_height
        = p_frag.byte 5 % 16 * 256 + p_frag.byte 6 ∧
      (ParseMPEGBlock core st p_frag).2.fmt_out.i_width < 4096 ∧
      (ParseMPEGBlock core st p_frag).2.fmt_out.i_height < 4096 ∧
      (ParseMPEGBlock core st p_frag).2.i_aspect_ratio_info = p_frag.byte 7 / 16 ∧
      (ParseMPEGBlock core st p_frag).2.b_seq_progressive = true ∧
      (ParseMPEGBlock core st p_frag).2.b_low_delay = true ∧
      (ParseMPEGBlock core st p_frag).2.p_ext = none) ∧
    (p_frag.i_buffer < 8 →
      (ParseMPEGBlock core st p_frag).2.fmt_out.i_width = st.fmt_out.i_width ∧
      (ParseMPEGBlock core st p_frag).2.fmt_out.i_height = st.fmt_out.i_height ∧
      (ParseMPEGBlock core st p_frag).2.i_aspect_ratio_info = st.i_aspect_ratio_info ∧
      (ParseMPEGBlock core st p_frag).2.b_seq_progressive = st.b_seq_progressive ∧
      (ParseMPEGBlock core st p_frag).2.b_low_delay = st.b_low_delay ∧
      (ParseMPEGBlock core st p_frag).2.p_ext = st.p_ext) := by
  obtain ⟨st1, h1, h2⟩ := ParseMPEGBlock_parsedFields core st p_frag
  have e1 := parsedFields_eq h1
  refine ⟨?_, ?_⟩
  · intro hlen
    rw [parseFragment_sequence_header core st1 p_frag hcode hlen] at h2
    have e2 := parsedFields_eq h2
    have h4 := Block.byte_lt p_frag 4
    have h5 := Block.byte_lt p_frag 5
    have h6 := Block.byte_lt p_frag 6
    have hw : (ParseMPEGBlock core st p_frag).2.fmt_out.i_width
        = p_frag.byte 4 * 16 + p_frag.byte 5 / 16 := by
      rw [e2.1]
      show p_frag.byte 4 <<< 4 ||| p_frag.byte 5 >>> 4 = _
      rw [Nat.shiftRight_eq_div_pow, shiftLeft_or_eq _ _ 4 (by omega)]
      norm_num
    have hh : (ParseMPEGBlock core st p_frag).2.fmt_out.i_height
        = p_frag.byte 5 % 16 * 256 + p_frag.byte 6 := by
      rw [e2.1]
      show (p_frag.byte 5 &&& 0x0f) <<< 8 ||| p_frag.byte 6 = _
      have hm : p_frag.byte 5 &&& 0x0f = p_frag.byte 5 % 16 :=
        Nat.and_pow_two_sub_one_eq_mod _ 4
      rw [hm, shiftLeft_or_eq _ _ 8 (by omega)]
      norm_num
    refine ⟨hw, hh, ?_, ?_, ?_, ?_, ?_, ?_⟩
    · rw [hw]; omega
    · rw [hh]; omega
    · rw [e2.2.2.2.2.2.2.2.1]
      show p_frag.byte 7 >>> 4 = _
      rw [Nat.shiftRight_eq_div_pow]
    · rw [e2.2.2.2.2.2.1]; rfl
    · rw [e2.2.2.2.2.2.2.1]; rfl
    · rw [e2.2.2.1]; rfl
  · intro hlen
    rw [parseFragment_short_header core st1 p_frag hcode hlen] at h2
    have e2 := parsedFields_eq h2
    refine ⟨?_, ?_, ?_, ?_, ?_, ?_⟩
    · rw [e2.1, e1.1]
    · rw [e2.1, e1.1]
    · rw [e2.2.2.2.2.2.2.2.1, e1.2.2.2.2.2.2.2.1]
    · rw [e2.2.2.2.2.2.1, e1.2.2.2.2.2.1]
    · rw [e2.2.2.2.2.2.2.1, e1.2.2.2.2.2.2.1]
    · rw [e2.2.2.1, e1.2.2.1]

/-- C34 (witness): the sequence header 2d 02 40 23 gives 720x576 with aspect_ratio_info 2
and drops the sequence extension that was stored; the same start code in a fragment of 7
bytes leaves the width 720. -/
theorem sequence_header_fields_witness :
    (ParseMPEGBlock exampleCore
        { Open false false [] with
          p_ext := some ⟨[0, 0, 1, 0xb5, 0x14, 0x8a, 0, 1, 0, 0], 0, Flags.zero, 0, 0, 0⟩ }
        ⟨[0, 0, 1, 0xb3, 0x2d, 0x02, 0x40, 0x23], 0, Flags.zero, 0, 0, 0⟩).2.fmt_out.i_width
      = 720 ∧
    (ParseMPEGBlock exampleCore
        { Open false false [] with
          p_ext := some ⟨[0, 0, 1, 0xb5, 0x14, 0x8a, 0, 1, 0, 0], 0, Flags.zero, 0, 0, 0⟩ }
        ⟨[0, 0, 1, 0xb3, 0x2d, 0x02, 0x40, 0x23], 0, Flags.zero, 0, 0, 0⟩).2.p_ext = none ∧
    (ParseMPEGBlock exampleCore
        (ParseMPEGBlock exampleCore (Open false false [])
          ⟨[0, 0, 1, 0xb3, 0x2d, 0x02, 0x40, 0x23], 0, Flags.zero, 0, 0, 0⟩).2
        ⟨[0, 0, 1, 0xb3, 0x16, 0x01, 0x20], 0, Flags.zero, 0, 0, 0⟩).2.fmt_out.i_width
      = 720 :=
  ⟨((sequence_header_fields exampleCore
        { Open false false [] with
          p_ext := some ⟨[0, 0, 1, 0xb5, 0x14, 0x8a, 0, 1, 0, 0], 0, Flags.zero, 0, 0, 0⟩ }
        ⟨[0, 0, 1, 0xb3, 0x2d, 0x02, 0x40, 0x23], 0, Flags.zero, 0, 0, 0⟩
        (by decide)).1 (by decide)).1.trans (by decide),
   ((sequence_header_fields exampleCore
        { Open false false [] with
          p_ext := some ⟨[0, 0, 1, 0xb5, 0x14, 0x8a, 0, 1, 0, 0], 0, Flags.zero, 0, 0, 0⟩ }
        ⟨[0, 0, 1, 0xb3, 0x2d, 0x02, 0x40, 0x23], 0, Flags.zero, 0, 0, 0⟩
        (by decide)).1 (by decide)).2.2.2.2.2.2.2,
   ((sequence_header_fields exampleCore
        (ParseMPEGBlock exampleCore (Open false false [])
          ⟨[0, 0, 1, 0xb3, 0x2d, 0x02, 0x40, 0x23], 0, Flags.zero, 0, 0, 0⟩).2
        ⟨[0, 0, 1, 0xb3, 0x16, 0x01, 0x20], 0, Flags.zero, 0, 0, 0⟩
        (by decide)).2 (by decide)).1.trans (by decide)⟩

/-- C35: the number of fields handed to `date_Increment` for a picture is 2 in a
progressive sequence, or 4 when repeat_first_field = 1 and top_field_first = 0, or 6
when repeat_first_field = 1 and top_field_first = 1; in a sequence that is not
progressive it is 1 for a field picture (picture_structure other than 3), 2 for a frame
picture, and 3 for a frame picture with progressive_frame and repeat_first_field both
set.  It is always one of 1, 2, 3, 4, 6, and the dts date after a picture has ended is
a date advanced by that number of fields. -/
theorem numFields_values (core : Core) (st : Decoder) (p_frag : Block) :
    numFields st =
      (if st.b_seq_progressive = true then
         (if st.i_repeat_first_field = 1 ∧ st.i_top_field_first = 0 then 4
          else if st.i_repeat_first_field = 1 ∧ st.i_top_field_first = 1 then 6
          else 2)
       else
         (if st.i_picture_structure ≠ 0x03 then 1
          else if st.i_progressive_frame ≠ 0 ∧ st.i_repeat_first_field ≠ 0 then 3
          else 2)) ∧
    numFields st ∈ [1, 2, 3, 4, 6] ∧
    ∃ d : Date, (finishPicture core st p_frag).2.2.dts = core.date_Increment d (numFields st) := by
  have hval : numFields st =
      (if st.b_seq_progressive = true then
         (if st.i_repeat_first_field = 1 ∧ st.i_top_field_first = 0 then 4
          else if st.i_repeat_first_field = 1 ∧ st.i_top_field_first = 1 then 6
          else 2)
       else
         (if st.i_picture_structure ≠ 0x03 then 1
          else if st.i_progressive_frame ≠ 0 ∧ st.i_repeat_first_field ≠ 0 then 3
          else 2)) := by
    unfold numFields
    cases hp : st.b_seq_progressive with
    | true =>
      simp only [Bool.true_eq_false, false_and, if_false, if_true]
      split_ifs <;> first | rfl | omega
    | false =>
      simp only [Bool.false_eq_true, true_and, if_false]
      split_ifs <;> first | rfl | omega
  refine ⟨hval, ?_, ?_⟩
  · rw [hval]
    split_ifs <;> simp
  · unfold finishPicture
    dsimp only
    by_cases hd : st.is_dvr = true
    · rw [if_pos hd]
      unfold finishDvr
      exact ⟨_, rfl⟩
    · rw [if_neg hd]
      unfold finishGeneral
      exact ⟨_, rfl⟩

end MpegVideo

namespace MpegVideo

/-- Joining flags with no flag changes nothing. -/
theorem Flags.or_zero (a : Flags) : a.or Flags.zero = a := by
  cases a
  simp [Flags.or, Flags.zero]

/-- The blocks returned after a call of `PacketizeParse` that returned none. -/
theorem parses_parse_none (core : Core) (st : Decoder) (p_block : Block) (calls : List Call)
    (h : (ParseMPEGBlock core st p_block).1 = none) :
    step core st (Call.parse p_block) = (ParseMPEGBlock core st p_block).2 ∧
    parses core st (Call.parse p_block :: calls) =
      parses core (ParseMPEGBlock core st p_block).2 calls := by
  have hs : step core st (Call.parse p_block) = (ParseMPEGBlock core st p_block).2 := by
    show (PacketizeParse core st p_block).2.2 = _
    rw [PacketizeParse_eq, h]
  refine ⟨hs, ?_⟩
  rw [parses, h, hs]

/-- The blocks returned from a call of `PacketizeParse` that returned one. -/
theorem parses_parse_some (core : Core) (st : Decoder) (p_block p_pic : Block)
    (calls : List Call) (h : (ParseMPEGBlock core st p_block).1 = some p_pic) :
    step core st (Call.parse p_block) =
      { (ParseMPEGBlock core st p_block).2 with i_next_block_flags := Flags.zero } ∧
    parses core st (Call.parse p_block :: calls) =
      ⟨st, p_pic,
        { p_pic with
          i_flags := p_pic.i_flags.or (ParseMPEGBlock core st p_block).2.i_next_block_flags },
        { (ParseMPEGBlock core st p_block).2 with i_next_block_flags := Flags.zero }⟩ ::
      parses core
        { (ParseMPEGBlock core st p_block).2 with i_next_block_flags := Flags.zero } calls := by
  have hs : step core st (Call.parse p_block) =
      { (ParseMPEGBlock core st p_block).2 with i_next_block_flags := Flags.zero } := by
    show (PacketizeParse core st p_block).2.2 = _
    rw [PacketizeParse_eq, h]
  have ho : (PacketizeParse core st p_block).2.1 =
      some { p_pic with
        i_flags := p_pic.i_flags.or (ParseMPEGBlock core st p_block).2.i_next_block_flags } := by
    rw [PacketizeParse_eq, h]
  refine ⟨hs, ?_⟩
  rw [parses, h, ho, hs]

/-- `PacketizeValidate` leaves `i_next_block_flags` and `i_prev_temporal_ref` as they
are. -/
theorem PacketizeValidate_keeps (st : Decoder) (p_au : Block) :
    (PacketizeValidate st p_au).2.1.i_next_block_flags = st.i_next_block_flags ∧
    (PacketizeValidate st p_au).2.1.i_prev_temporal_ref = st.i_prev_temporal_ref := by
  rcases PacketizeValidate_st st p_au with e | e <;> rw [e] <;> exact ⟨rfl, rfl⟩

/-- Once `i_next_block_flags` is 0 and until the next reset, `PacketizeParse` returns the
pictures of `ParseMPEGBlock` as they are. -/
theorem parses_unflagged (core : Core) (calls : List Call) :
    ∀ st : Decoder, Call.reset ∉ calls → st.i_next_block_flags = Flags.zero →
      ∀ r ∈ parses core st calls,
        r.p_block = r.p_pic ∧ r.st.i_next_block_flags = Flags.zero := by
  induction calls with
  | nil =>
    intro st _ _ r hr
    simp [parses] at hr
  | cons call calls ih =>
    intro st hno hz r hr
    have hno2 : Call.reset ∉ calls := fun h => hno (List.mem_cons_of_mem _ h)
    cases call with
    | reset => exact absurd (List.mem_cons_self _ _) hno
    | validate p_au =>
      have e : parses core st (Call.validate p_au :: calls) =
          parses core (PacketizeValidate st p_au).2.1 calls := rfl
      rw [e] at hr
      exact ih _ hno2 ((PacketizeValidate_keeps st p_au).1.trans hz) r hr
    | parse p_block =>
      have hk := (ParseMPEGBlock_bounds core st p_block).2.2
      cases hp : (ParseMPEGBlock core st p_block).1 with
      | none =>
        rw [(parses_parse_none core st p_block calls hp).2] at hr
        exact ih _ hno2 (hk.trans hz) r hr
      | some p_pic =>
        rw [(parses_parse_some core st p_block p_pic calls hp).2] at hr
        rcases List.mem_cons.mp hr with h | h
        · rw [h]
          refine ⟨?_, rfl⟩
          show ({ p_pic with
            i_flags := p_pic.i_flags.or (ParseMPEGBlock core st p_block).2.i_next_block_flags }
              : Block) = p_pic
          rw [hk, hz, Flags.or_zero]
        · exact ih _ hno2 rfl r h

/-- After a reset and until the next one, the first block that `PacketizeParse` returns
carries the discontinuity flag and the later ones are returned as they are. -/
theorem parses_after_reset (core : Core) (calls : List Call) :
    ∀ st : Decoder, Call.reset ∉ calls →
      st.i_next_block_flags = { Flags.zero with discontinuity := true } →
      (∀ o ∈ (parses core st calls).head?,
        o.p_block.i_flags.discontinuity = true ∧ o.st.i_next_block_flags = Flags.zero) ∧
      (∀ r ∈ (parses core st calls).tail,
        r.p_block = r.p_pic ∧ r.st.i_next_block_flags = Flags.zero) := by
  induction calls with
  | nil =>
    intro st _ _
    simp [parses]
  | cons call calls ih =>
    intro st hno hd
    have hno2 : Call.reset ∉ calls := fun h => hno (List.mem_cons_of_mem _ h)
    cases call with
    | reset => exact absurd (List.mem_cons_self _ _) hno
    | validate p_au =>
      have e : parses core st (Call.validate p_au :: calls) =
          parses core (PacketizeValidate st p_au).2.1 calls := rfl
      rw [e]
      exact ih _ hno2 ((PacketizeValidate_keeps st p_au).1.trans hd)
    | parse p_block =>
      have hk := (ParseMPEGBlock_bounds core st p_block).2.2
      cases hp : (ParseMPEGBlock core st p_block).1 with
      | none =>
        rw [(parses_parse_none core st p_block calls hp).2]
        exact ih _ hno2 (hk.trans hd)
      | some p_pic =>
        rw [(parses_parse_some core st p_block p_pic calls hp).2]
        refine ⟨?_, ?_⟩
        · intro o ho
          have ho2 : o = _ := (Option.mem_some_iff.mp ho).symm
          rw [ho2]
          refine ⟨?_, rfl⟩
          show (p_pic.i_flags.or
            (ParseMPEGBlock core st p_block).2.i_next_block_flags).discontinuity = true
          rw [hk, hd]
          simp [Flags.or]
        · intro r hr
          exact parses_unflagged core calls _ hno2 rfl r hr

end MpegVideo

namespace MpegVideo

/-- C36: after `PacketizeReset` and until the next reset, in every sequence of calls of
`PacketizeParse` and `PacketizeValidate`, the first block that `PacketizeParse` returns
carries `BLOCK_FLAG_DISCONTINUITY`, `i_next_block_flags` is 0 after it, and every later
block is returned exactly as `ParseMPEGBlock` gave it, with no flag added, and leaves
`i_next_block_flags` at 0. -/
theorem discontinuity_once (core : Core) (st : Decoder) (calls : List Call)
    (hcalls : Call.reset ∉ calls) :
    (∀ o ∈ (parses core (PacketizeReset st) calls).head?,
      o.p_block.i_flags.discontinuity = true ∧ o.st.i_next_block_flags = Flags.zero) ∧
    (∀ r ∈ (parses core (PacketizeReset st) calls).tail,
      r.p_block = r.p_pic ∧ r.st.i_next_block_flags = Flags.zero) :=
  parses_after_reset core calls (PacketizeReset st) hcalls rfl

/-- C36 (witness): after a reset, a sequence header and two pictures of one slice each,
closed by a third picture start code: two blocks are returned, the first with the
discontinuity flag, the second without it and as `ParseMPEGBlock` gave it. -/
theorem discontinuity_once_witness :
    (parses exampleCore (PacketizeReset (Open false false []))
      [Call.parse ⟨[0, 0, 1, 0xb3, 0x2d, 0x02, 0x40, 0x23], 0, Flags.zero, 0, 0, 0⟩,
       Call.parse ⟨[0, 0, 1, 0, 0, 8], 0, Flags.zero, 9000, 0, 0⟩,
       Call.parse ⟨[0, 0, 1, 1, 255], 0, Flags.zero, 0, 0, 0⟩,
       Call.parse ⟨[0, 0, 1, 0, 0, 0x50], 0, Flags.zero, 0, 0, 0⟩,
       Call.parse ⟨[0, 0, 1, 1, 255], 0, Flags.zero, 0, 0, 0⟩,
       Call.parse ⟨[0, 0, 1, 0, 0, 0x50], 0, Flags.zero, 0, 0, 0⟩]).map
      (fun r => r.p_block.i_flags.discontinuity) = [true, false] ∧
    (parses exampleCore (PacketizeReset (Open false false []))
      [Call.parse ⟨[0, 0, 1, 0xb3, 0x2d, 0x02, 0x40, 0x23], 0, Flags.zero, 0, 0, 0⟩,
       Call.parse ⟨[0, 0, 1, 0, 0, 8], 0, Flags.zero, 9000, 0, 0⟩,
       Call.parse ⟨[0, 0, 1, 1, 255], 0, Flags.zero, 0, 0, 0⟩,
       Call.parse ⟨[0, 0, 1, 0, 0, 0x50], 0, Flags.zero, 0, 0, 0⟩,
       Call.parse ⟨[0, 0, 1, 1, 255], 0, Flags.zero, 0, 0, 0⟩,
       Call.parse ⟨[0, 0, 1, 0, 0, 0x50], 0, Flags.zero, 0, 0, 0⟩]).tail.all
      (fun r => decide (r.p_block = r.p_pic)) = true :=
  ⟨by decide,
   List.all_eq_true.mpr (fun r hr => decide_eq_true
    ((discontinuity_once exampleCore (Open false false [])
      [Call.parse ⟨[0, 0, 1, 0xb3, 0x2d, 0x02, 0x40, 0x23], 0, Flags.zero, 0, 0, 0⟩,
       Call.parse ⟨[0, 0, 1, 0, 0, 8], 0, Flags.zero, 9000, 0, 0⟩,
       Call.parse ⟨[0, 0, 1, 1, 255], 0, Flags.zero, 0, 0, 0⟩,
       Call.parse ⟨[0, 0, 1, 0, 0, 0x50], 0, Flags.zero, 0, 0, 0⟩,
       Call.parse ⟨[0, 0, 1, 1, 255], 0, Flags.zero, 0, 0, 0⟩,
       Call.parse ⟨[0, 0, 1, 0, 0, 0x50], 0, Flags.zero, 0, 0, 0⟩]
      (by decide)).2 r hr).1)⟩

/-- When the check for the end of a picture finds none, the fragment is still there and
`i_prev_temporal_ref` is as it was. -/
theorem endPicture_none (core : Core) (st : Decoder) (p_frag : Block)
    (h : (endPicture core st p_frag).2.1 = none) :
    (endPicture core st p_frag).1 = some p_frag ∧
    (endPicture core st p_frag).2.2.i_prev_temporal_ref = st.i_prev_temporal_ref := by
  unfold endPicture at h ⊢
  split_ifs at h ⊢
  · exact ⟨rfl, rfl⟩
  · exact ⟨rfl, rfl⟩

/-- A call of `ParseMPEGBlock` that returns no picture leaves `i_prev_temporal_ref` as it
was. -/
theorem ParseMPEGBlock_none_prev (core : Core) (st : Decoder) (p_frag : Block)
    (h : (ParseMPEGBlock core st p_frag).1 = none) :
    (ParseMPEGBlock core st p_frag).2.i_prev_temporal_ref = st.i_prev_temporal_ref := by
  rw [ParseMPEGBlock_fst] at h
  obtain ⟨h1, h2⟩ := endPicture_none core st p_frag h
  have hf : (flushCc core (endPicture core st p_frag).2.1
      (endPicture core st p_frag).2.2).i_prev_temporal_ref
      = (endPicture core st p_frag).2.2.i_prev_temporal_ref := by
    unfold flushCc
    split_ifs <;> rfl
  unfold ParseMPEGBlock
  dsimp only
  rw [h1]
  dsimp only
  rw [(parseFragment_keeps core _ p_frag).1, hf, h2]

/-- The decoder after a sequence of calls on a reachable decoder is reachable. -/
theorem Reachable.foldl {core : Core} (calls : List Call) :
    ∀ st : Decoder, Reachable core st → Reachable core (calls.foldl (step core) st) := by
  induction calls with
  | nil => intro st h; exact h
  | cons call calls ih =>
    intro st h
    rw [List.foldl_cons]
    apply ih
    cases call with
    | reset => exact Reachable.reset h
    | parse p_block => exact Reachable.parse p_block h
    | validate p_au => exact Reachable.validate p_au h

/-- While no block is returned, `i_prev_temporal_ref` keeps the value 2048. -/
theorem foldl_prev_temporal_ref (core : Core) (calls : List Call) :
    ∀ st : Decoder, st.i_prev_temporal_ref = 2048 → parses core st calls = [] →
      (calls.foldl (step core) st).i_prev_temporal_ref = 2048 := by
  induction calls with
  | nil => intro st h _; exact h
  | cons call calls ih =>
    intro st h hq
    rw [List.foldl_cons]
    cases call with
    | reset =>
      have e : parses core st (Call.reset :: calls) =
          parses core (PacketizeReset st) calls := rfl
      rw [e] at hq
      exact ih (PacketizeReset st) rfl hq
    | validate p_au =>
      have e : parses core st (Call.validate p_au :: calls) =
          parses core (PacketizeValidate st p_au).2.1 calls := rfl
      rw [e] at hq
      exact ih _ ((PacketizeValidate_keeps st p_au).2.trans h) hq
    | parse p_block =>
      cases hp : (ParseMPEGBlock core st p_block).1 with
      | none =>
        obtain ⟨hs, he⟩ := parses_parse_none core st p_block calls hp
        rw [he] at hq
        rw [hs]
        exact ih _ ((ParseMPEGBlock_none_prev core st p_block hp).trans h) hq
      | some p_pic =>
        rw [(parses_parse_some core st p_block p_pic calls hp).2] at hq
        exact absurd hq (by simp)

/-- C37: in every decoder that the packetizer can be in, the temporal reference is at
most 1023 and the picture type at most 3, so the temporal reference is never 2048.  From
the decoder of `Open` or the one after a `PacketizeReset`, as long as no block has been
returned, `i_prev_temporal_ref` is 2048, so that `b_first_xmited` is true for the
picture that ends next. -/
theorem first_picture_first_xmited (core : Core) (st0 : Decoder) (calls : List Call)
    (hstart : (∃ is_dvr sync_iframe cc0, st0 = Open is_dvr sync_iframe cc0) ∨
      (∃ st, Reachable core st ∧ st0 = PacketizeReset st))
    (hquiet : parses core st0 calls = []) :
    (∀ st, Reachable core st →
      st.i_temporal_ref ≤ 1023 ∧ st.i_picture_type ≤ 3 ∧ st.i_temporal_ref ≠ 2048) ∧
    (calls.foldl (step core) st0).i_prev_temporal_ref = 2048 ∧
    (calls.foldl (step core) st0).i_temporal_ref ≤ 1023 ∧
    b_first_xmited (calls.foldl (step core) st0) = true := by
  have hinv : ∀ st, Reachable core st →
      st.i_temporal_ref ≤ 1023 ∧ st.i_picture_type ≤ 3 ∧ st.i_temporal_ref ≠ 2048 := by
    intro st h
    have hb := (Reachable.bounds h).2
    exact ⟨hb.1, hb.2, by omega⟩
  have h0 : Reachable core st0 ∧ st0.i_prev_temporal_ref = 2048 := by
    rcases hstart with ⟨is_dvr, sync_iframe, cc0, e⟩ | ⟨st, hr, e⟩
    · rw [e]; exact ⟨Reachable.start _ _ _, rfl⟩
    · rw [e]; exact ⟨Reachable.reset hr, rfl⟩
  have hprev := foldl_prev_temporal_ref core calls st0 h0.2 hquiet
  have hb := hinv _ (Reachable.foldl calls st0 h0.1)
  refine ⟨hinv, hprev, hb.1, ?_⟩
  unfold b_first_xmited
  rw [hprev]
  exact decide_eq_true (by omega)

/-- C37 (witness): a DVR-MS input; after `Open`, a sequence header, the start code of a
picture with temporal reference 1023 and a slice return no block, and the picture that
ends next is first transmitted. -/
theorem first_picture_first_xmited_witness :
    ([Call.parse ⟨[0, 0, 1, 0xb3, 0x2d, 0x02, 0x40, 0x23], 0, Flags.zero, 0, 0, 0⟩,
      Call.parse ⟨[0, 0, 1, 0, 0xff, 0xc8], 0, Flags.zero, 9000, 0, 0⟩,
      Call.parse ⟨[0, 0, 1, 1, 255], 0, Flags.zero, 0, 0, 0⟩].foldl (step exampleCore)
        (Open true false [])).i_temporal_ref = 1023 ∧
    b_first_xmited
      ([Call.parse ⟨[0, 0, 1, 0xb3, 0x2d, 0x02, 0x40, 0x23], 0, Flags.zero, 0, 0, 0⟩,
        Call.parse ⟨[0, 0, 1, 0, 0xff, 0xc8], 0, Flags.zero, 9000, 0, 0⟩,
        Call.parse ⟨[0, 0, 1, 1, 255], 0, Flags.zero, 0, 0, 0⟩].foldl (step exampleCore)
        (Open true false [])) = true :=
  ⟨by decide,
   (first_picture_first_xmited exampleCore (Open true false [])
      [Call.parse ⟨[0, 0, 1, 0xb3, 0x2d, 0x02, 0x40, 0x23], 0, Flags.zero, 0, 0, 0⟩,
       Call.parse ⟨[0, 0, 1, 0, 0xff, 0xc8], 0, Flags.zero, 9000, 0, 0⟩,
       Call.parse ⟨[0, 0, 1, 1, 255], 0, Flags.zero, 0, 0, 0⟩]
      (Or.inl ⟨true, false, [], rfl⟩) (by decide)).2.2.2⟩

end MpegVideo

/-! ## MPEG video packetizer: the calls of the packetizer helper -/

namespace MpegVideo

/-- The core of the examples is a clock. -/
theorem exampleCore_clock : Clock exampleCore := by
  refine ⟨?_, fun _ _ => ⟨rfl, rfl⟩, fun _ _ _ => rfl, fun _ _ _ => ⟨rfl, rfl⟩⟩
  intro d n hn h1 h2
  show d.date < d.date + ((n * 1000000 * d.i_divider_den / d.i_divider_num : Nat) : Int)
  have hle : d.i_divider_num ≤ n * 1000000 * d.i_divider_den := by
    calc d.i_divider_num ≤ 1000000 * d.i_divider_den := h2
      _ = 1 * (1000000 * d.i_divider_den) := (Nat.one_mul _).symm
      _ ≤ n * (1000000 * d.i_divider_den) := Nat.mul_le_mul_right _ hn
      _ = n * 1000000 * d.i_divider_den := (Nat.mul_assoc _ _ _).symm
  have hpos : 0 < n * 1000000 * d.i_divider_den / d.i_divider_num :=
    Nat.div_pos hle (by omega)
  omega

/-- An increment of a date that is not below `VLC_TS_INVALID` gives a date above it, with
the same scale. -/
theorem Clock.increment_sane {core : Core} (hclock : Clock core) (d : Date) (n : Nat)
    (hn : 1 ≤ n) (h0 : VLC_TS_INVALID ≤ date_Get d) (h1 : 1 ≤ d.i_divider_num)
    (h2 : d.i_divider_num ≤ 1000000 * d.i_divider_den) :
    VLC_TS_INVALID < date_Get (core.date_Increment d n) ∧
    1 ≤ (core.date_Increment d n).i_divider_num ∧
    (core.date_Increment d n).i_divider_num
      ≤ 1000000 * (core.date_Increment d n).i_divider_den := by
  have ha := hclock.increment_date d n hn h1 h2
  have hb := hclock.increment_scale d n
  rw [hb.1, hb.2]
  exact ⟨lt_of_le_of_lt h0 ha, h1, h2⟩

/-- A picture has one field or more. -/
theorem numFields_pos (st : Decoder) : 1 ≤ numFields st := by
  unfold numFields
  dsimp only
  split_ifs <;> omega

/-- The date that the general case increments: the dts date, or the dts date set to a
timestamp above `VLC_TS_INVALID`. -/
theorem finishGeneral_dts (core : Core) (st : Decoder) (p_pic : Block) (n : Nat) :
    ∃ d1, (finishGeneral core st p_pic n).2.dts = core.date_Increment d1 n ∧
      d1.i_divider_num = st.dts.i_divider_num ∧ d1.i_divider_den = st.dts.i_divider_den ∧
      (date_Get d1 = date_Get st.dts ∨ VLC_TS_INVALID < date_Get d1) ∧
      (finishGeneral core st p_pic n).2.is_dvr = st.is_dvr ∧
      (finishGeneral core st p_pic n).2.i_dts = st.i_dts := by
  unfold finishGeneral
  dsimp only
  split_ifs
  all_goals
    first
    | exact ⟨_, rfl, rfl, rfl, Or.inl rfl, rfl, rfl⟩
    | exact ⟨_, rfl, rfl, rfl, Or.inr (by assumption), rfl, rfl⟩
    | exact ⟨_, rfl, rfl, rfl, Or.inr (And.left (by assumption)), rfl, rfl⟩

/-- The date that the DVR-MS case increments: the dts date, or the dts date set to a
timestamp above `VLC_TS_INVALID`. -/
theorem finishDvr_dts (core : Core) (st : Decoder) (p_pic : Block) (n : Nat)
    (h : VLC_TS_INVALID ≤ st.i_dts) :
    ∃ d1, (finishDvr core st p_pic n).2.dts = core.date_Increment d1 n ∧
      d1.i_divider_num = st.dts.i_divider_num ∧ d1.i_divider_den = st.dts.i_divider_den ∧
      (date_Get d1 = date_Get st.dts ∨ VLC_TS_INVALID < date_Get d1) ∧
      (finishDvr core st p_pic n).2.is_dvr = st.is_dvr ∧
      (finishDvr core st p_pic n).2.i_dts = st.i_dts := by
  unfold finishDvr
  dsimp only
  split_ifs
  all_goals
    first
    | exact ⟨_, rfl, rfl, rfl, Or.inl rfl, rfl, rfl⟩
    | exact ⟨_, rfl, rfl, rfl, Or.inr (lt_of_le_of_ne h (Ne.symm (by assumption))), rfl, rfl⟩
    | exact ⟨_, rfl, rfl, rfl, Or.inr (show VLC_TS_INVALID < VLC_TS_0 by decide), rfl, rfl⟩

/-- After a picture is ended the dts date is above `VLC_TS_INVALID`. -/
theorem finishPicture_sane (core : Core) (hclock : Clock core) (dvr : Bool) (st : Decoder)
    (p_frag : Block) (h : DtsSane dvr st) :
    DtsSane dvr (finishPicture core st p_frag).2.2 ∧
    VLC_TS_INVALID < date_Get (finishPicture core st p_frag).2.2.dts := by
  obtain ⟨hdvr, h0, h1, h2, h3⟩ := h
  have key : ∀ (r : Block × Decoder) (n : Nat), 1 ≤ n →
      (∃ d1, r.2.dts = core.date_Increment d1 n ∧
        d1.i_divider_num = st.dts.i_divider_num ∧ d1.i_divider_den = st.dts.i_divider_den ∧
        (date_Get d1 = date_Get st.dts ∨ VLC_TS_INVALID < date_Get d1) ∧
        r.2.is_dvr = st.is_dvr ∧ r.2.i_dts = st.i_dts) →
      (r.2.is_dvr = dvr ∧ VLC_TS_INVALID ≤ date_Get r.2.dts ∧ 1 ≤ r.2.dts.i_divider_num ∧
        r.2.dts.i_divider_num ≤ 1000000 * r.2.dts.i_divider_den ∧
        (dvr = true → VLC_TS_INVALID ≤ r.2.i_dts)) ∧
      VLC_TS_INVALID < date_Get r.2.dts := by
    intro r n hn ⟨d1, e, en, ed, hdate, edvr, edts⟩
    have hd0 : VLC_TS_INVALID ≤ date_Get d1 := by
      rcases hdate with hd | hd
      · rw [hd]; exact h0
      · exact le_of_lt hd
    have hs := hclock.increment_sane d1 n hn hd0 (by rw [en]; exact h1)
      (by rw [en, ed]; exact h2)
    rw [e, edvr, edts]
    exact ⟨⟨hdvr, le_of_lt hs.1, hs.2.1, hs.2.2, h3⟩, hs.1⟩
  unfold DtsSane finishPicture
  dsimp only
  cases hd : st.is_dvr with
  | true =>
    simp only [if_true]
    exact key _ _ (numFields_pos st)
      (finishDvr_dts core st _ _ (h3 (by rw [← hdvr, hd])))
  | false =>
    simp only [Bool.false_eq_true, if_false]
    exact key _ _ (numFields_pos st) (finishGeneral_dts core st _ _)

/-- The check for the end of a picture keeps the dts date usable, and leaves it above
`VLC_TS_INVALID` when a picture is returned. -/
theorem endPicture_sane (core : Core) (hclock : Clock core) (dvr : Bool) (st : Decoder)
    (p_frag : Block) (h : DtsSane dvr st) :
    DtsSane dvr (endPicture core st p_frag).2.2 ∧
    ((endPicture core st p_frag).2.1 ≠ none →
      VLC_TS_INVALID < date_Get (endPicture core st p_frag).2.2.dts) ∧
    (∀ f, (endPicture core st p_frag).1 = some f → f = p_frag) := by
  unfold endPicture
  split_ifs with h1 h2
  · exact ⟨h, fun hc => absurd rfl hc, fun f hf => (Option.some.inj hf).symm⟩
  · have hf := finishPicture_sane core hclock dvr st p_frag h
    refine ⟨hf.1, fun _ => hf.2, ?_⟩
    intro f hfe
    unfold finishPicture at hfe
    dsimp only at hfe
    split_ifs at hfe
    exact (Option.some.inj hfe).symm
  · exact ⟨h, fun hc => absurd rfl hc, fun f hf => (Option.some.inj hf).symm⟩

/-- The flush of the closed captions leaves the dts date and the stored dts alone. -/
theorem flushCc_sane (core : Core) (dvr : Bool) (p_pic : Option Block) (st : Decoder)
    (h : DtsSane dvr st) :
    DtsSane dvr (flushCc core p_pic st) ∧ (flushCc core p_pic st).dts = st.dts := by
  unfold flushCc
  split_ifs
  · exact ⟨h, rfl⟩
  · exact ⟨h, rfl⟩

/-- Every row of the frame-rate table gives a scale of one microsecond or more a field. -/
theorem code_to_frame_rate_scale (b : Nat) :
    1 ≤ 2 * (code_to_frame_rate.getD (b &&& 0x0f) (0, 0)).1 ∧
    2 * (code_to_frame_rate.getD (b &&& 0x0f) (0, 0)).1
      ≤ 1000000 * (code_to_frame_rate.getD (b &&& 0x0f) (0, 0)).2 := by
  have hall : ∀ j, j < 16 → 1 ≤ 2 * (code_to_frame_rate.getD j (0, 0)).1 ∧
      2 * (code_to_frame_rate.getD j (0, 0)).1
        ≤ 1000000 * (code_to_frame_rate.getD j (0, 0)).2 := by
    decide
  exact hall _ (frame_rate_index_lt b)

/-- Reading a fragment keeps the dts date usable and does not move it. -/
theorem parseFragment_sane (core : Core) (hclock : Clock core) (dvr : Bool) (st : Decoder)
    (p_frag : Block) (h : DtsSane dvr st) (hfrag : dvr = true → VLC_TS_INVALID ≤ p_frag.i_dts) :
    DtsSane dvr (parseFragment core st p_frag) ∧
    date_Get (parseFragment core st p_frag).dts = date_Get st.dts := by
  obtain ⟨hdvr, h0, h1, h2, h3⟩ := h
  unfold parseFragment
  split_ifs with c1 c2 c3 c4 c5 c6
  · unfold parseGroup
    split
    · split_ifs <;> exact ⟨⟨hdvr, h0, h1, h2, h3⟩, rfl⟩
    · exact ⟨⟨hdvr, h0, h1, h2, h3⟩, rfl⟩
  · unfold parseSequenceHeader DtsSane
    dsimp only
    have hrow := code_to_frame_rate_scale (p_frag.byte 7)
    split_ifs
    · have hc := hclock.change_scale st.dts
        (2 * (code_to_frame_rate.getD (p_frag.byte 7 &&& 0x0f) (0, 0)).1)
        (code_to_frame_rate.getD (p_frag.byte 7 &&& 0x0f) (0, 0)).2
      rw [hclock.change_date, hc.1, hc.2]
      exact ⟨⟨hdvr, h0, hrow.1, hrow.2, h3⟩, rfl⟩
    · exact ⟨⟨hdvr, h0, h1, h2, h3⟩, rfl⟩
  · unfold parseExtension
    dsimp only
    split_ifs <;> exact ⟨⟨hdvr, h0, h1, h2, h3⟩, rfl⟩
  · exact ⟨⟨hdvr, h0, h1, h2, h3⟩, rfl⟩
  · unfold parsePicture
    dsimp only
    split_ifs <;> exact ⟨⟨hdvr, h0, h1, h2, hfrag⟩, rfl⟩
  · exact ⟨⟨hdvr, h0, h1, h2, h3⟩, rfl⟩
  · exact ⟨⟨hdvr, h0, h1, h2, h3⟩, rfl⟩

/-- `ParseMPEGBlock` keeps the dts date usable, and leaves it above `VLC_TS_INVALID` when
it returns a picture. -/
theorem ParseMPEGBlock_sane (core : Core) (hclock : Clock core) (dvr : Bool) (st : Decoder)
    (p_frag : Block) (h : DtsSane dvr st) (hfrag : dvr = true → VLC_TS_INVALID ≤ p_frag.i_dts) :
    DtsSane dvr (ParseMPEGBlock core st p_frag).2 ∧
    ((ParseMPEGBlock core st p_frag).1 ≠ none →
      VLC_TS_INVALID < date_Get (ParseMPEGBlock core st p_frag).2.dts) := by
  have he := endPicture_sane core hclock dvr st p_frag h
  have hc := flushCc_sane core dvr (endPicture core st p_frag).2.1
    (endPicture core st p_frag).2.2 he.1
  unfold ParseMPEGBlock
  dsimp only
  cases hr : (endPicture core st p_frag).1 with
  | none =>
    dsimp only
    refine ⟨hc.1, ?_⟩
    intro hp
    rw [hc.2]
    exact he.2.1 hp
  | some f =>
    dsimp only
    have hf : f = p_frag := he.2.2 f hr
    have hp := parseFragment_sane core hclock dvr
      (flushCc core (endPicture core st p_frag).2.1 (endPicture core st p_frag).2.2) f hc.1
      (by rw [hf]; exact hfrag)
    refine ⟨hp.1, ?_⟩
    intro hpic
    show VLC_TS_INVALID < date_Get (parseFragment core _ f).dts
    rw [hp.2, hc.2]
    exact he.2.1 hpic

/-- `PacketizeParse` keeps the dts date usable, and leaves it above `VLC_TS_INVALID` when
it returns a block. -/
theorem PacketizeParse_sane (core : Core) (hclock : Clock core) (dvr : Bool) (st : Decoder)
    (p_block : Block) (h : DtsSane dvr st)
    (hfrag : dvr = true → VLC_TS_INVALID ≤ p_block.i_dts) :
    DtsSane dvr (PacketizeParse core st p_block).2.2 ∧
    ((PacketizeParse core st p_block).2.1 ≠ none →
      VLC_TS_INVALID < date_Get (PacketizeParse core st p_block).2.2.dts) := by
  have hp := ParseMPEGBlock_sane core hclock dvr st p_block h hfrag
  rw [PacketizeParse_eq]
  cases hr : (ParseMPEGBlock core st p_block).1 with
  | none =>
    dsimp only
    exact ⟨hp.1, fun hc => absurd rfl hc⟩
  | some p_pic =>
    dsimp only
    exact ⟨hp.1, fun _ => hp.2 (by rw [hr]; simp)⟩

/-- `PacketizeValidate` leaves the dts date and the stored timestamps alone. -/
theorem PacketizeValidate_sane (dvr : Bool) (st : Decoder) (p_au : Block)
    (h : DtsSane dvr st) : DtsSane dvr (PacketizeValidate st p_au).2.1 := by
  rcases PacketizeValidate_st st p_au with e | e <;> rw [e] <;> exact h

/-- `PacketizeReset` sets the dts date and the stored dts to `VLC_TS_INVALID`. -/
theorem PacketizeReset_sane (dvr : Bool) (st : Decoder) (h : DtsSane dvr st) :
    DtsSane dvr (PacketizeReset st) := by
  obtain ⟨hdvr, h0, h1, h2, h3⟩ := h
  exact ⟨hdvr, le_refl _, h1, h2, fun _ => le_refl _⟩

/-- The decoder of `Open` has a usable dts date. -/
theorem Open_sane (is_dvr sync_iframe : Bool) (cc0 : Cc) :
    DtsSane is_dvr (Open is_dvr sync_iframe cc0) :=
  ⟨rfl, le_refl _, le_refl _, (show (1 : Nat) ≤ 1000000 * 1 by decide), fun _ => le_refl _⟩

/-- Every call keeps the option as it is. -/
theorem step_sync (core : Core) (st : Decoder) (call : Call) :
    (step core st call).b_sync_on_intra_frame = st.b_sync_on_intra_frame := by
  cases call with
  | reset => rfl
  | parse b => exact (PacketizeParse_sync core st b).2
  | validate au =>
    show (PacketizeValidate st au).2.1.b_sync_on_intra_frame = st.b_sync_on_intra_frame
    rcases PacketizeValidate_st st au with e | e <;> rw [e]

/-- A sequence of calls keeps the option as it is. -/
theorem foldl_sync (core : Core) (calls : List Call) :
    ∀ st : Decoder,
      (calls.foldl (step core) st).b_sync_on_intra_frame = st.b_sync_on_intra_frame := by
  induction calls with
  | nil => intro st; rfl
  | cons call calls ih =>
    intro st
    rw [List.foldl_cons, ih, step_sync]

/-- The calls of the helper: the decoder keeps a usable dts date, and what follows a
prefix of the calls is again in the order of the helper. -/
theorem helperCalls_split (core : Core) (hclock : Clock core) (dvr : Bool)
    (a b : List Call) :
    ∀ (st : Decoder) (pending : Option Block), DtsSane dvr st →
      (pending ≠ none → VLC_TS_INVALID < date_Get st.dts) →
      helperCalls core st pending (a ++ b) = true →
      (dvr = true → dtsFromZero (a ++ b) = true) →
      ∃ pending1, DtsSane dvr (a.foldl (step core) st) ∧
        (pending1 ≠ none → VLC_TS_INVALID < date_Get (a.foldl (step core) st).dts) ∧
        helperCalls core (a.foldl (step core) st) pending1 b = true ∧
        (dvr = true → dtsFromZero b = true) := by
  induction a with
  | nil =>
    intro st pending hs hp hh hd
    exact ⟨pending, hs, hp, hh, hd⟩
  | cons call a ih =>
    intro st pending hs hp hh hd
    rw [List.cons_append] at hh hd
    rw [List.foldl_cons]
    have hd1 : dvr = true → dtsFromZero (a ++ b) = true := by
      intro hv
      have := hd hv
      unfold dtsFromZero at this ⊢
      rw [List.all_cons] at this
      exact (Bool.and_eq_true _ _ ▸ this).2
    cases call with
    | reset =>
      have e : helperCalls core st pending (Call.reset :: (a ++ b)) =
          helperCalls core (step core st Call.reset) none (a ++ b) := by
        cases pending <;> rfl
      rw [e] at hh
      exact ih _ none (PacketizeReset_sane dvr st hs) (fun hc => absurd rfl hc) hh hd1
    | parse p_block =>
      have e : helperCalls core st pending (Call.parse p_block :: (a ++ b)) =
          helperCalls core (step core st (Call.parse p_block))
            (PacketizeParse core st p_block).2.1 (a ++ b) := by
        cases pending <;> rfl
      rw [e] at hh
      have hfrag : dvr = true → VLC_TS_INVALID ≤ p_block.i_dts := by
        intro hv
        have := hd hv
        unfold dtsFromZero at this
        rw [List.all_cons] at this
        have h1 := (Bool.and_eq_true _ _ ▸ this).1
        exact of_decide_eq_true h1
      have hps := PacketizeParse_sane core hclock dvr st p_block hs hfrag
      exact ih _ _ hps.1 hps.2 hh hd1
    | validate p_au =>
      have e : helperCalls core st pending (Call.validate p_au :: (a ++ b)) =
          (pending == some p_au &&
            helperCalls core (step core st (Call.validate p_au)) none (a ++ b)) := rfl
      rw [e] at hh
      have hh2 := (Bool.and_eq_true _ _ ▸ hh).2
      exact ih _ none (PacketizeValidate_sane dvr st p_au hs) (fun hc => absurd rfl hc) hh2 hd1

/-- In the calls of the helper a starting timestamp is known at every call of
`PacketizeValidate`: the dts date is above `VLC_TS_INVALID`. -/
theorem helperCalls_hasTimestamp (core : Core) (hclock : Clock core) (dvr : Bool)
    (calls : List Call) :
    ∀ (st : Decoder) (pending : Option Block), DtsSane dvr st →
      (pending ≠ none → VLC_TS_INVALID < date_Get st.dts) →
      helperCalls core st pending calls = true →
      (dvr = true → dtsFromZero calls = true) →
      ∀ u ∈ validations core st calls,
        hasTimestamp u.st = true ∧ u.success = (PacketizeValidate u.st u.p_au).1 := by
  induction calls with
  | nil =>
    intro st pending _ _ _ _ u hu
    simp [validations] at hu
  | cons call calls ih =>
    intro st pending hs hp hh hd u hu
    obtain ⟨p1, hs1, hp1, hh1, hd1⟩ :=
      helperCalls_split core hclock dvr [call] calls st pending hs hp hh hd
    cases call with
    | reset => exact ih _ p1 hs1 hp1 hh1 hd1 u hu
    | parse p_block => exact ih _ p1 hs1 hp1 hh1 hd1 u hu
    | validate p_au =>
      have e : validations core st (Call.validate p_au :: calls) =
          ⟨st, p_au, (PacketizeValidate st p_au).1⟩ ::
            validations core (step core st (Call.validate p_au)) calls := rfl
      rw [e] at hu
      rcases List.mem_cons.mp hu with hu | hu
      · rw [hu]
        refine ⟨?_, rfl⟩
        have e2 : helperCalls core st pending (Call.validate p_au :: calls) =
            (pending == some p_au &&
              helperCalls core (step core st (Call.validate p_au)) none calls) := rfl
        rw [e2] at hh
        have hpen := (Bool.and_eq_true _ _ ▸ hh).1
        have hne : pending ≠ none := by
          intro hc
          rw [hc] at hpen
          exact absurd hpen (by simp)
        have hdate := hp hne
        unfold hasTimestamp
        have hnot : ¬ date_Get st.dts ≤ VLC_TS_INVALID := not_le.mpr hdate
        simp [hnot]
      · exact ih _ p1 hs1 hp1 hh1 hd1 u hu

end MpegVideo

namespace MpegVideo

/-- C28: with the sync-on-intra-frame option set, take the calls that the packetizer
helper makes after `Open` (`PacketizeValidate` is called only on the block that the call
of `PacketizeParse` right before it returned), with a `date_Increment` that moves a date
forward and, for a DVR-MS input, no dts below `VLC_TS_INVALID`.  Right after `Open` and
right after any `PacketizeReset` the packetizer waits for an intra frame; from there, the
first access unit for which `PacketizeValidate` returns success carries
`BLOCK_FLAG_TYPE_I`, the packetizer waited until then, every access unit presented before
it is a non-I unit, and every access unit presented while the packetizer waits is
accepted if it is an I unit and rejected if it is not. -/
theorem sync_on_first_intra (core : Core) (is_dvr : Bool) (cc0 : Cc)
    (calls0 calls : List Call)
    (pre : List Validation) (v : Validation) (post : List Validation)
    (hclock : Clock core)
    (hhelper : helperCalls core (Open is_dvr true cc0) none (calls0 ++ calls) = true)
    (hdts : is_dvr = true → dtsFromZero (calls0 ++ calls) = true)
    (hstart : calls0 = [] ∨ ∃ c, calls0 = c ++ [Call.reset])
    (hv : validations core (calls0.foldl (step core) (Open is_dvr true cc0)) calls
      = pre ++ v :: post)
    (hpre : ∀ u ∈ pre, u.success = false) (hsucc : v.success = true) :
    (calls0.foldl (step core) (Open is_dvr true cc0)).b_waiting_iframe = true ∧
    v.p_au.i_flags.type_i = true ∧ v.st.b_waiting_iframe = true ∧
    (∀ u ∈ pre, u.p_au.i_flags.type_i = false ∧ u.st.b_waiting_iframe = true) ∧
    (∀ u ∈ validations core (calls0.foldl (step core) (Open is_dvr true cc0)) calls,
      u.st.b_waiting_iframe = true → u.success = u.p_au.i_flags.type_i) := by
  obtain ⟨p1, hs1, hp1, hh1, hd1⟩ :=
    helperCalls_split core hclock is_dvr calls0 calls (Open is_dvr true cc0) none
      (Open_sane is_dvr true cc0) (fun hc => absurd rfl hc) hhelper hdts
  have hts := helperCalls_hasTimestamp core hclock is_dvr calls _ p1 hs1 hp1 hh1 hd1
  have hsync : (calls0.foldl (step core) (Open is_dvr true cc0)).b_sync_on_intra_frame
      = true := by
    rw [foldl_sync]
    rfl
  have hwait : (calls0.foldl (step core) (Open is_dvr true cc0)).b_waiting_iframe
      = true := by
    rcases hstart with h | ⟨c, h⟩
    · rw [h]
      rfl
    · rw [h, List.foldl_append]
      show (c.foldl (step core) (Open is_dvr true cc0)).b_sync_on_intra_frame = true
      rw [foldl_sync]
      rfl
  have h := validations_first_success core calls _ pre v post hsync hwait
    (fun u hu _ _ => (hts u hu).1) hv hpre hsucc
  refine ⟨hwait, h.1, h.2.1, h.2.2, ?_⟩
  intro u hu hw
  obtain ⟨ht, hsuc⟩ := hts u hu
  have hwv := PacketizeValidate_waiting u.st u.p_au hw
  rw [hsuc]
  cases hI : u.p_au.i_flags.type_i with
  | false => exact (hwv.2.1 hI).1
  | true => rw [(hwv.2.2 hI).1, ht]

end MpegVideo

namespace MpegVideo

/-- C28 (witness): after `Open` with the option set the helper parses a sequence header,
a P picture and an I picture.  `PacketizeParse` returns the P picture, which
`PacketizeValidate` rejects, then the I picture, which is the first success. -/
theorem sync_on_first_intra_witness :
    (validations exampleCore (Open false true [])
      [Call.parse ⟨[0, 0, 1, 0xb3, 0x2d, 0x02, 0x40, 0x23], 0, Flags.zero, 0, 0, 0⟩,
       Call.parse ⟨[0, 0, 1, 0, 0, 0x10], 0, Flags.zero, 0, 0, 0⟩,
       Call.parse ⟨[0, 0, 1, 1], 0, Flags.zero, 0, 0, 0⟩,
       Call.parse ⟨[0, 0, 1, 0, 0, 0x08], 0, Flags.zero, 0, 0, 0⟩,
       Call.validate ⟨[0, 0, 1, 0xb3, 0x2d, 0x02, 0x40, 0x23, 0, 0, 1, 0, 0, 0x10, 0, 0, 1, 1],
         0, { Flags.zero with type_p := true }, 0, 0, 40000⟩,
       Call.parse ⟨[0, 0, 1, 1], 0, Flags.zero, 0, 0, 0⟩,
       Call.parse ⟨[0, 0, 1, 0, 0, 0x10], 0, Flags.zero, 0, 0, 0⟩,
       Call.validate ⟨[0, 0, 1, 0, 0, 0x08, 0, 0, 1, 1], 0, { Flags.zero with type_i := true },
         0, 40000, 40000⟩]).map
      (fun v => (v.p_au.i_flags.type_i, v.success)) = [(false, false), (true, true)] ∧
    (⟨[0, 0, 1, 0, 0, 0x08, 0, 0, 1, 1], 0, { Flags.zero with type_i := true },
        0, 40000, 40000⟩ : Block).i_flags.type_i = true ∧
    ([Call.parse ⟨[0, 0, 1, 0xb3, 0x2d, 0x02, 0x40, 0x23], 0, Flags.zero, 0, 0, 0⟩,
      Call.parse ⟨[0, 0, 1, 0, 0, 0x10], 0, Flags.zero, 0, 0, 0⟩,
      Call.parse ⟨[0, 0, 1, 1], 0, Flags.zero, 0, 0, 0⟩,
      Call.parse ⟨[0, 0, 1, 0, 0, 0x08], 0, Flags.zero, 0, 0, 0⟩,
      Call.validate ⟨[0, 0, 1, 0xb3, 0x2d, 0x02, 0x40, 0x23, 0, 0, 1, 0, 0, 0x10, 0, 0, 1, 1],
        0, { Flags.zero with type_p := true }, 0, 0, 40000⟩,
      Call.parse ⟨[0, 0, 1, 1], 0, Flags.zero, 0, 0, 0⟩,
      Call.parse ⟨[0, 0, 1, 0, 0, 0x10], 0, Flags.zero, 0, 0, 0⟩].foldl
        (step exampleCore) (Open false true [])).b_waiting_iframe = true :=
  ⟨by decide,
   (sync_on_first_intra exampleCore false [] []
      [Call.parse ⟨[0, 0, 1, 0xb3, 0x2d, 0x02, 0x40, 0x23], 0, Flags.zero, 0, 0, 0⟩,
       Call.parse ⟨[0, 0, 1, 0, 0, 0x10], 0, Flags.zero, 0, 0, 0⟩,
       Call.parse ⟨[0, 0, 1, 1], 0, Flags.zero, 0, 0, 0⟩,
       Call.parse ⟨[0, 0, 1, 0, 0, 0x08], 0, Flags.zero, 0, 0, 0⟩,
       Call.validate ⟨[0, 0, 1, 0xb3, 0x2d, 0x02, 0x40, 0x23, 0, 0, 1, 0, 0, 0x10, 0, 0, 1, 1],
         0, { Flags.zero with type_p := true }, 0, 0, 40000⟩,
       Call.parse ⟨[0, 0, 1, 1], 0, Flags.zero, 0, 0, 0⟩,
       Call.parse ⟨[0, 0, 1, 0, 0, 0x10], 0, Flags.zero, 0, 0, 0⟩,
       Call.validate ⟨[0, 0, 1, 0, 0, 0x08, 0, 0, 1, 1], 0, { Flags.zero with type_i := true },
         0, 40000, 40000⟩]
      [⟨[Call.parse ⟨[0, 0, 1, 0xb3, 0x2d, 0x02, 0x40, 0x23], 0, Flags.zero, 0, 0, 0⟩,
         Call.parse ⟨[0, 0, 1, 0, 0, 0x10], 0, Flags.zero, 0, 0, 0⟩,
         Call.parse ⟨[0, 0, 1, 1], 0, Flags.zero, 0, 0, 0⟩,
         Call.parse ⟨[0, 0, 1, 0, 0, 0x08], 0, Flags.zero, 0, 0, 0⟩].foldl
           (step exampleCore) (Open false true []),
        ⟨[0, 0, 1, 0xb3, 0x2d, 0x02, 0x40, 0x23, 0, 0, 1, 0, 0, 0x10, 0, 0, 1, 1],
         0, { Flags.zero with type_p := true }, 0, 0, 40000⟩, false⟩]
      ⟨[Call.parse ⟨[0, 0, 1, 0xb3, 0x2d, 0x02, 0x40, 0x23], 0, Flags.zero, 0, 0, 0⟩,
        Call.parse ⟨[0, 0, 1, 0, 0, 0x10], 0, Flags.zero, 0, 0, 0⟩,
        Call.parse ⟨[0, 0, 1, 1], 0, Flags.zero, 0, 0, 0⟩,
        Call.parse ⟨[0, 0, 1, 0, 0, 0x08], 0, Flags.zero, 0, 0, 0⟩,
        Call.validate ⟨[0, 0, 1, 0xb3, 0x2d, 0x02, 0x40, 0x23, 0, 0, 1, 0, 0, 0x10, 0, 0, 1, 1],
          0, { Flags.zero with type_p := true }, 0, 0, 40000⟩,
        Call.parse ⟨[0, 0, 1, 1], 0, Flags.zero, 0, 0, 0⟩,
        Call.parse ⟨[0, 0, 1, 0, 0, 0x10], 0, Flags.zero, 0, 0, 0⟩].foldl
          (step exampleCore) (Open false true []),
       ⟨[0, 0, 1, 0, 0, 0x08, 0, 0, 1, 1], 0, { Flags.zero with type_i := true },
         0, 40000, 40000⟩, true⟩
      []
      exampleCore_clock (by decide) (fun h => absurd h (by decide)) (Or.inl rfl)
      (by decide) (by decide) rfl).2.1,
   by decide⟩

end MpegVideo

/-! ## Playlists are independent of each other -/

namespace PlaylistModel

open Playlist

/-- A rowid collected for a WHERE clause is the index of a row that satisfies it. -/
theorem rowids_mem (wh : Row → Bool) :
    ∀ (t : Table) (k i : Nat), i ∈ rowids wh k t →
      k ≤ i ∧ ∃ r, t.get? (i - k) = some r ∧ wh r = true := by
  intro t
  induction t with
  | nil => intro k i h; simp [rowids] at h
  | cons a t ih =>
    intro k i h
    rw [rowids] at h
    have hrest : i ∈ rowids wh (k + 1) t → k ≤ i ∧ ∃ r, (a :: t).get? (i - k) = some r ∧
        wh r = true := by
      intro h2
      obtain ⟨hk, r, hr, hw⟩ := ih (k + 1) i h2
      refine ⟨by omega, r, ?_, hw⟩
      have e : i - k = (i - (k + 1)) + 1 := by omega
      rw [e, List.get?_cons_succ]
      exact hr
    by_cases hwa : wh a = true
    · rw [if_pos hwa] at h
      rcases List.mem_cons.mp h with h1 | h1
      · subst h1
        exact ⟨le_refl _, a, by simp, hwa⟩
      · exact hrest h1
    · rw [if_neg hwa] at h
      exact hrest h

/-- An invariant of a fold that may fail, when each step keeps it for the elements of the
list. -/
theorem foldlM_some_invariant_mem {α β : Type} (P : β → Prop) (g : β → α → Option β) :
    ∀ (l : List α), (∀ b a b1, a ∈ l → P b → g b a = some b1 → P b1) →
      ∀ (b b1 : β), P b → l.foldlM g b = some b1 → P b1 := by
  intro l
  induction l with
  | nil =>
    intro _ b b1 h0 h
    simp at h
    exact h ▸ h0
  | cons a l ih =>
    intro hg b b1 h0 h
    rw [List.foldlM_cons] at h
    cases hga : g b a with
    | none => simp [hga] at h
    | some b2 =>
      simp [hga] at h
      exact ih (fun b a1 b3 ha1 => hg b a1 b3 (List.mem_cons_of_mem _ ha1)) b2 b1
        (hg b a b2 (List.mem_cons_self _ _) h0 hga) h

/-- Writing to a list the element that is already there changes nothing. -/
theorem set_of_get_some {α : Type} (l : List α) :
    ∀ (i : Nat) (a : α), l.get? i = some a → l.set i a = l := by
  induction l with
  | nil => intro i a h; rfl
  | cons x l ih =>
    intro i a h
    cases i with
    | zero =>
      have : x = a := by simpa using h
      rw [this]
      rfl
    | succ i =>
      rw [List.set_cons_succ, ih i a (by simpa using h)]

/-- Blanking keeps the playlist of a row. -/
theorem outside_playlist_id (pl : Nat) (r : Row) : (outside pl r).playlist_id = r.playlist_id := by
  unfold outside
  split_ifs <;> rfl

/-- Two rows of playlist `pl` with the same media look the same from outside. -/
theorem outside_position (pl : Nat) (r : Row) (p : Option Nat) (h : r.playlist_id = pl) :
    outside pl { r with position := p } = outside pl r := by
  unfold outside
  rw [if_pos h, if_pos h]

/-- The rows of another playlist are not touched by the blanking. -/
theorem filter_outside (A B : Nat) (hAB : A ≠ B) (t : Table) :
    (t.map (outside A)).filter (fun r => r.playlist_id == B) =
      t.filter (fun r => r.playlist_id == B) := by
  induction t with
  | nil => rfl
  | cons a t ih =>
    rw [List.map_cons, List.filter_cons, List.filter_cons, outside_playlist_id, ih]
    by_cases hb : (a.playlist_id == B) = true
    · rw [if_pos hb, if_pos hb]
      have hne : a.playlist_id ≠ A := by
        have : a.playlist_id = B := by simpa using hb
        rw [this]
        exact fun h => hAB h.symm
      unfold outside
      rw [if_neg hne]
    · rw [if_neg hb, if_neg hb]

/-- Two tables that look the same from outside playlist `A` hold the same rows of every
other playlist. -/
theorem filter_of_outside (A B : Nat) (hAB : A ≠ B) (t t1 : Table)
    (h : t1.map (outside A) = t.map (outside A)) :
    t1.filter (fun r => r.playlist_id == B) = t.filter (fun r => r.playlist_id == B) := by
  rw [← filter_outside A B hAB t1, ← filter_outside A B hAB t, h]

/-- An UPDATE whose WHERE clause selects rows of playlist `A` only, with row triggers that
change nothing outside `A`, changes nothing outside `A`. -/
theorem execUpdate_outside (A : Nat) (wh : Row → Bool) (f : Row → Option Nat)
    (after : Table → Row → Option Table)
    (hwh : ∀ r, wh r = true → r.playlist_id = A)
    (hafter : ∀ acc r t2, r.playlist_id = A → after acc r = some t2 →
      t2.map (outside A) = acc.map (outside A))
    (t t1 : Table) (h : execUpdate wh f after t = some t1) :
    t1.map (outside A) = t.map (outside A) := by
  unfold execUpdate at h
  refine foldlM_some_invariant_mem (fun acc => acc.map (outside A) = t.map (outside A)) _
    (rowids wh 0 t) ?_ t t1 rfl h
  intro acc i acc1 hi hacc hstep
  cases hget : acc.get? i with
  | none =>
    simp only [hget] at hstep
    cases hstep
    exact hacc
  | some r =>
    simp only [hget] at hstep
    obtain ⟨_, r0, hr0, hw⟩ := rowids_mem wh t 0 i hi
    rw [Nat.sub_zero] at hr0
    have hpl : r.playlist_id = A := by
      have h1 : (acc.map (outside A)).get? i = some (outside A r) := by
        rw [List.get?_map, hget]; rfl
      have h2 : (t.map (outside A)).get? i = some (outside A r0) := by
        rw [List.get?_map, hr0]; rfl
      rw [hacc, h2] at h1
      have h3 : outside A r0 = outside A r := Option.some.inj h1
      have h4 : r0.playlist_id = r.playlist_id := by
        rw [← outside_playlist_id A r0, ← outside_playlist_id A r, h3]
      rw [← h4]
      exact hwh r0 hw
    have hset : (acc.set i { r with position := f r }).map (outside A) = acc.map (outside A) := by
      rw [List.map_set, outside_position A r (f r) hpl]
      apply set_of_get_some
      rw [List.get?_map, hget]
      rfl
    rw [hafter _ { r with position := f r } _ hpl hstep, hset, hacc]

end PlaylistModel

namespace PlaylistModel

open Playlist

/-- The rows that the shift triggers select belong to the playlist of the NEW row. -/
theorem shiftWhere_playlist (new r : Row) (h : shiftWhere new r = true) :
    r.playlist_id = new.playlist_id := by
  unfold shiftWhere at h
  simp only [Bool.and_eq_true, beq_iff_eq] at h
  exact h.1.1

/-- The trigger `update_playlist_order`, run for a row of playlist `A`, changes nothing
outside `A`. -/
theorem update_playlist_order_outside (A : Nat) (recur : Bool) :
    ∀ (d : Nat) (t : Table) (new : Row) (t1 : Table), new.playlist_id = A →
      update_playlist_order recur d t new = some t1 →
      t1.map (outside A) = t.map (outside A) := by
  intro d
  induction d with
  | zero => intro t new t1 _ h; simp [update_playlist_order] at h
  | succ d ih =>
    intro t new t1 hnew h
    rw [update_playlist_order] at h
    refine execUpdate_outside A _ _ _ ?_ ?_ t t1 h
    · intro r hr
      rw [shiftWhere_playlist new r hr, hnew]
    · intro acc r t2 hr hstep
      cases recur with
      | true => exact ih acc r t2 hr (by simpa using hstep)
      | false =>
        simp at hstep
        rw [hstep]

/-- The statement INSERT with its triggers, for a row of playlist `A`, changes nothing
outside `A` but for the row it adds. -/
theorem execInsert_outside (A : Nat) (e : Engine) (t t1 : Table) (new : Row)
    (hnew : new.playlist_id = A) (h : execInsert e t new = some t1) :
    t1.map (outside A) = (t ++ [new]).map (outside A) := by
  unfold execInsert at h
  split at h
  · exact absurd h (by simp)
  · cases happ : append_new_playlist_record e.recursive_triggers e.trigger_depth
        (t ++ [new]) new with
    | none => rw [happ] at h; exact absurd h (by simp)
    | some t2 =>
      rw [happ] at h
      simp only [Option.some_bind] at h
      have h2 : t2.map (outside A) = (t ++ [new]).map (outside A) := by
        cases hd : e.trigger_depth with
        | zero => rw [hd] at happ; simp [append_new_playlist_record] at happ
        | succ d =>
          rw [hd, append_new_playlist_record] at happ
          split at happ
          · refine execUpdate_outside A _ _ _ ?_
              (fun acc r t3 hr hs => update_playlist_order_outside A _ d acc r t3 hr hs)
              _ _ happ
            intro r hr
            simp only [Bool.and_eq_true, beq_iff_eq] at hr
            rw [hr.1, hnew]
          · cases happ
            rfl
      cases hd : e.trigger_depth with
      | zero => rw [hd] at h; simp [update_playlist_order_on_insert] at h
      | succ d =>
        rw [hd, update_playlist_order_on_insert] at h
        split at h
        · rw [← h2]
          refine execUpdate_outside A _ _ _ ?_
            (fun acc r t3 hr hs => update_playlist_order_outside A _ d acc r t3 hr hs)
            _ _ h
          intro r hr
          rw [shiftWhere_playlist new r hr, hnew]
        · cases h
          exact h2

/-- `Playlist::add` on playlist `A` leaves the rows of every other playlist as they are. -/
theorem add_local (e : Engine) (t : Table) (A B m p : Nat) (hAB : A ≠ B) :
    (Playlist.add e t A m p).2.filter (fun r => r.playlist_id == B) =
      t.filter (fun r => r.playlist_id == B) := by
  unfold Playlist.add
  cases h : execInsert e t ⟨m, A, foreignKey p⟩ with
  | none => rfl
  | some t1 =>
    have h1 := execInsert_outside A e t t1 ⟨m, A, foreignKey p⟩ rfl h
    show t1.filter _ = _
    rw [filter_of_outside A B hAB _ t1 h1, List.filter_append]
    have hb : ((A == B) = false) := by simpa using hAB
    simp [hb]

/-- `Playlist::move` on playlist `A` leaves the rows of every other playlist as they
are. -/
theorem move_local (e : Engine) (t : Table) (A B m p : Nat) (hAB : A ≠ B) :
    (Playlist.move e t A m p).2.filter (fun r => r.playlist_id == B) =
      t.filter (fun r => r.playlist_id == B) := by
  unfold Playlist.move
  split
  · rfl
  · cases h : execUpdate (fun r => r.playlist_id == A && r.media_id == m)
        (fun _ => some p) (update_playlist_order e.recursive_triggers e.trigger_depth) t with
    | none => rfl
    | some t1 =>
      show t1.filter _ = _
      refine filter_of_outside A B hAB t t1 ?_
      refine execUpdate_outside A _ _ _ ?_
        (fun acc r t3 hr hs => update_playlist_order_outside A _ _ acc r t3 hr hs) _ _ h
      intro r hr
      simp only [Bool.and_eq_true, beq_iff_eq] at hr
      exact hr.1

/-- `Playlist::remove` on playlist `A` leaves the rows of every other playlist as they
are. -/
theorem remove_local (t : Table) (A B m : Nat) (hAB : A ≠ B) :
    (Playlist.remove t A m).2.filter (fun r => r.playlist_id == B) =
      t.filter (fun r => r.playlist_id == B) := by
  unfold Playlist.remove
  show (t.filter _).filter _ = _
  rw [List.filter_filter]
  apply List.filter_congr
  intro r _
  by_cases hb : r.playlist_id = B
  · have hne : (r.playlist_id == A) = false := by
      rw [hb]
      simpa using fun h : B = A => hAB h.symm
    have hne2 : B ≠ A := fun h => hAB h.symm
    simp [hb, hne2]
  · have : (r.playlist_id == B) = false := by simpa using hb
    simp [this]

/-- One operation on playlist `A` leaves the rows of every other playlist as they are. -/
theorem step_local (e : Engine) (t : Table) (A B : Nat) (op : Op) (hAB : A ≠ B) :
    (Playlist.step e A t op).filter (fun r => r.playlist_id == B) =
      t.filter (fun r => r.playlist_id == B) := by
  cases op with
  | append m => exact add_local e t A B m 0 hAB
  | add m p => exact add_local e t A B m p hAB
  | move m p => exact move_local e t A B m p hAB
  | remove m => exact remove_local t A B m hAB

end PlaylistModel

namespace Playlist

open PlaylistModel

/-- C38: for two distinct playlists `A` and `B`, an append, add, move or remove on `A`,
with all the rows that the position triggers write, leaves the rows of `B`, media and
position, exactly as they were and in the same order, whatever media the two playlists
share; so does every sequence of such operations on `A`. -/
theorem operations_local (e : Engine) (t : Table) (A B : Nat) (op : Op) (ops : List Op)
    (hAB : A ≠ B) :
    (step e A t op).filter (fun r => r.playlist_id == B) =
      t.filter (fun r => r.playlist_id == B) ∧
    positions (step e A t op) B = positions t B ∧
    (run e A t ops).filter (fun r => r.playlist_id == B) =
      t.filter (fun r => r.playlist_id == B) := by
  have hrun : ∀ (os : List Op) (t0 : Table),
      (os.foldl (step e A) t0).filter (fun r => r.playlist_id == B) =
        t0.filter (fun r => r.playlist_id == B) := by
    intro os
    induction os with
    | nil => intro t0; rfl
    | cons o os ih =>
      intro t0
      rw [List.foldl_cons, ih (step e A t0 o), step_local e t0 A B o hAB]
  have h1 := step_local e t A B op hAB
  refine ⟨h1, ?_, hrun ops t⟩
  unfold positions
  rw [h1]

/-- C38 (witness): media 1 and 2 are in playlists 1 and 2; adding media 3 at position 1
of playlist 1 shifts both entries of playlist 1 and leaves those of playlist 2 at
positions 1 and 2. -/
theorem operations_local_witness :
    step ⟨true, 1000⟩ 1
        [⟨1, 1, some 1⟩, ⟨1, 2, some 1⟩, ⟨2, 2, some 2⟩, ⟨2, 1, some 2⟩] (Op.add 3 1)
      = [⟨1, 1, some 2⟩, ⟨1, 2, some 1⟩, ⟨2, 2, some 2⟩, ⟨2, 1, some 3⟩, ⟨3, 1, some 1⟩] ∧
    positions (step ⟨true, 1000⟩ 1
        [⟨1, 1, some 1⟩, ⟨1, 2, some 1⟩, ⟨2, 2, some 2⟩, ⟨2, 1, some 2⟩] (Op.add 3 1)) 2
      = positions [⟨1, 1, some 1⟩, ⟨1, 2, some 1⟩, ⟨2, 2, some 2⟩, ⟨2, 1, some 2⟩] 2 :=
  ⟨by decide,
   (operations_local ⟨true, 1000⟩
      [⟨1, 1, some 1⟩, ⟨1, 2, some 1⟩, ⟨2, 2, some 2⟩, ⟨2, 1, some 2⟩] 1 2 (Op.add 3 1) []
      (by decide)).2.1⟩

end Playlist
